import Mathlib

/-!
# Verification of the rule-based clause-extraction engine

This file gives a shallow embedding, in Lean 4, of the rule-based
clause-extraction engine of the Clause-Lab repository (the TypeScript
functions `normalizeText`, `removePageNumbers`, `getSchemaRegex`,
`getSchemaSplitRegex`, `calculateTextSimilarity`, `calculateNGramSimilarity`,
`matchClauseFromRepository`, `groupClausesByType`, `findBestClauseTypeMatch`,
`isMiscellaneousOrGeneralSection`, `detectMiscellaneousSubclauseType`,
`extractSubclausesFromMiscellaneous`, `detectNumberingSchema`,
`extractClausesRuleBased`, `parseClauseNumber`, `parseHeader`, `cleanTitle`
and `detectClauseType`), together with theorems settling the frozen claims
about that engine.

Modelling conventions:
* a JavaScript string is modelled as a `List Nat` of its UTF-16 code units
  (all texts of interest are in the basic plane, so code units and code
  points coincide);
* JavaScript regular expressions are modelled by a small executable
  backtracking matcher (`Regex`, `mat`) whose outcome order mirrors the
  backtracking order of the JS engine; every regex literal of the source is
  transcribed into a `Regex` value;
* JavaScript numbers that carry similarity scores are modelled as `ℚ`;
* a nullable string (`string | null` where `""` and `null` are both falsy
  and treated alike by the source) is modelled as a plain `List Nat`, with
  `[]` playing the role of the falsy values;
* `String.prototype.toLowerCase` is modelled on the ASCII range (the only
  range the engine's keyword tables exercise).
-/

namespace ClauseLab

/-- A JavaScript string: the list of its UTF-16 code units. -/
abbrev Str := List Nat

/-- Code unit of a (BMP) character. -/
def ch (c : Char) : Nat := c.toNat

/-- Transcribe a Lean string literal into a `Str`. -/
def str (s : String) : Str := s.data.map Char.toNat

/-- The JavaScript whitespace set: the characters removed by
`String.prototype.trim` and matched by the regex class `\s`
(WhiteSpace ∪ LineTerminator of the ECMAScript specification). -/
def jsWs (c : Nat) : Bool :=
  (9 ≤ c && c ≤ 13) || c == 32 || c == 0xA0 || c == 0x1680 ||
  (0x2000 ≤ c && c ≤ 0x200A) || c == 0x2028 || c == 0x2029 ||
  c == 0x202F || c == 0x205F || c == 0x3000 || c == 0xFEFF

/-- Left trim: drop leading JS whitespace. -/
def jsTrimL (s : Str) : Str := s.dropWhile jsWs

/-- Right trim: drop trailing JS whitespace. -/
def jsTrimR (s : Str) : Str := (s.reverse.dropWhile jsWs).reverse

/-- `String.prototype.trim`. -/
def jsTrim (s : Str) : Str := jsTrimL (jsTrimR s)

/-- The whitespace-like characters that `normalizeText` replaces by a plain
space: transcribed from the `charCodeAt` tests of the source (tab, vertical
tab, form feed — but not LF/CR —, space, NBSP, ogham space, the typographic
spaces, narrow no-break space, medium mathematical space, ideographic space
and zero-width no-break space). -/
def normWsChar (c : Nat) : Bool :=
  (9 ≤ c && c ≤ 13 && c ≠ 10 && c ≠ 13) || c == 0x20 || c == 0xA0 ||
  c == 0x1680 || (0x2000 ≤ c && c ≤ 0x200A) || c == 0x202F || c == 0x205F ||
  c == 0x3000 || c == 0xFEFF

/-- The per-character map of `normalizeText`: whitespace-like characters
(except newline and carriage return) become a regular space. -/
def normChar (c : Nat) : Nat := if normWsChar c then 32 else c

/-- The recursion of `collapseSp`, made structural on a fuel argument so
that it evaluates inside the kernel (each step consumes one list element,
so `s.length` fuel always suffices; see `collapseSpF_irrel`). -/
def collapseSpF : Nat → Str → Str
  | 0, s => s
  | _ + 1, [] => []
  | _ + 1, [c] => [c]
  | fuel + 1, a :: b :: t =>
    if a == 32 && b == 32 then collapseSpF fuel (a :: t)
    else a :: collapseSpF fuel (b :: t)

/-- `result.replace(/ +/g, ' ')`: collapse each run of spaces to one space. -/
def collapseSp (s : Str) : Str := collapseSpF s.length s

/-- `String.prototype.split('\n')`. -/
def splitNl : Str → List Str
  | [] => [[]]
  | c :: t =>
    if c = 10 then [] :: splitNl t
    else (c :: (splitNl t).headI) :: (splitNl t).tail

/-- `lines.join('\n')`. -/
def joinNl : List Str → Str
  | [] => []
  | [l] => l
  | l :: ls => l ++ 10 :: joinNl ls

/-- `normalizeText` (source lines 15–42): map whitespace-like characters to
spaces, collapse space runs, trim every line, trim the whole string.  The
source returns a falsy input unchanged. -/
def normalizeText (text : Str) : Str :=
  if text = [] then text
  else
    let mapped := text.map normChar
    let collapsed := collapseSp mapped
    let lined := joinNl ((splitNl collapsed).map jsTrim)
    jsTrim lined

/-! ## A small executable model of the JavaScript regex engine

Every regex literal of the source file is transcribed into a `Regex` value.
`mat r s i` returns the list of possible matches of `r` at position `i` of
`s`, in the priority order of the backtracking JS engine (the head of the
list is the match the engine commits to).  All unbounded repetitions in the
source's regexes range over single character classes, so repetition is a
primitive over classes (`rep`) and the evaluator is structurally recursive. -/

/-- Capture records: (group index, start position, end position).
Later entries shadow earlier ones on lookup, as re-assignments do in JS. -/
abbrev Caps := List (Nat × Nat × Nat)

def capGet (cs : Caps) (k : Nat) : Option (Nat × Nat) :=
  (cs.find? (fun e => e.1 == k)).map (fun e => e.2)

/-- `s.substring(a, b)` (also `s[a..b)` for capture extraction). -/
def slice (a b : Nat) (s : Str) : Str := (s.drop a).take (b - a)

inductive Regex : Type where
  /-- matches the empty string -/
  | eps : Regex
  /-- `$` (end of input; no `m` flag is ever used) -/
  | eos : Regex
  /-- a single character of a class -/
  | cls (f : Nat → Bool) : Regex
  /-- `f{lo,hi}` (`hi = none` for unbounded), lazy or greedy -/
  | rep (f : Nat → Bool) (lo : Nat) (hi : Option Nat) (lzy : Bool) : Regex
  | seq (a b : Regex) : Regex
  | alt (a b : Regex) : Regex
  /-- capture group number `k` -/
  | grp (k : Nat) (r : Regex) : Regex
  /-- lookahead, positive (`(?=r)`) or negative (`(?!r)`) -/
  | look (r : Regex) (pos : Bool) : Regex
  /-- positive lookbehind `(?<=r)`; `maxLen` bounds the length of a match of
  `r` (each transcription notes why its bound is sufficient) -/
  | lookb (r : Regex) (maxLen : Nat) : Regex

/-- Length of the run of class characters starting the string. -/
def countRun (f : Nat → Bool) : Str → Nat
  | [] => 0
  | c :: t => if f c then countRun f t + 1 else 0

/-- All matches of `r` in `s` at position `i`, as (end position, captures),
in JS backtracking priority order. -/
def mat : Regex → Str → Nat → List (Nat × Caps)
  | .eps, _, i => [(i, [])]
  | .eos, s, i => if i = s.length then [(i, [])] else []
  | .cls f, s, i =>
    match s.drop i with
    | [] => []
    | c :: _ => if f c then [(i + 1, [])] else []
  | .rep f lo hi lzy, s, i =>
    let run := countRun f (s.drop i)
    let top := match hi with | none => run | some h => min run h
    if lo ≤ top then
      let ks := (List.range (top + 1 - lo)).map (fun d => lo + d)
      (if lzy then ks else ks.reverse).map (fun t => (i + t, ([] : Caps)))
    else []
  | .seq a b, s, i =>
    (mat a s i).flatMap (fun jc => (mat b s jc.1).map (fun kc => (kc.1, kc.2 ++ jc.2)))
  | .alt a b, s, i => mat a s i ++ mat b s i
  | .grp k r, s, i => (mat r s i).map (fun jc => (jc.1, (k, i, jc.1) :: jc.2))
  | .look r pos, s, i =>
    if pos then
      match mat r s i with
      | [] => []
      | jc :: _ => [(i, jc.2)]
    else if (mat r s i).isEmpty then [(i, [])] else []
  | .lookb r maxLen, s, i =>
    if ((List.range (maxLen + 1)).map (fun d => i - d)).any
        (fun j => (mat r s j).any (fun oc => oc.1 == i))
    then [(i, [])] else []

/-- `regex.test(s)` for a `^`-anchored regex (the anchor is left implicit:
all transcribed test/match patterns of the source start with `^`). -/
def testA (r : Regex) (s : Str) : Bool := !(mat r s 0).isEmpty

/-- The scan of `searchFrom`, structural on a fuel argument
(`s.length + 1 - i` probes always suffice). -/
def searchFromF (r : Regex) (s : Str) : Nat → Nat → Option (Nat × Nat × Caps)
  | _, 0 => none
  | i, fuel + 1 =>
    if s.length < i then none
    else
      match (mat r s i).head? with
      | some jc => some (i, jc.1, jc.2)
      | none => searchFromF r s (i + 1) fuel

/-- Leftmost match at or after position `i`: (start, end, captures). -/
def searchFrom (r : Regex) (s : Str) (i : Nat) : Option (Nat × Nat × Caps) :=
  searchFromF r s i (s.length + 1 - i)

/-- `text.match(r<global>).length` (0 when there is no match): count of
successive leftmost matches, advancing past each match (by one position on
an empty match, as the JS `lastIndex` rule does). -/
def countMatchesAux (r : Regex) (s : Str) : Nat → Nat → Nat
  | _, 0 => 0
  | i, fuel + 1 =>
    match searchFrom r s i with
    | none => 0
    | some (st, en, _) =>
      1 + countMatchesAux r s (if st < en then en else st + 1) fuel

def countMatches (r : Regex) (s : Str) : Nat := countMatchesAux r s 0 (s.length + 1)

/-- Number of capture groups of a pattern (`String.prototype.split` splices
that many capture values into its result at each boundary). -/
def countGroups : Regex → Nat
  | .seq a b => countGroups a + countGroups b
  | .alt a b => countGroups a + countGroups b
  | .grp _ r => countGroups r + 1
  | .look r _ => countGroups r
  | .lookb r _ => countGroups r
  | _ => 0

/-- The capture values spliced by `split`: groups `1..gc` in order, as
slices of `s` (a group that did not participate would be `undefined` in JS;
no transcribed split pattern can match with an unset group). -/
def capSlices (gc : Nat) (caps : Caps) (s : Str) : List Str :=
  (List.range gc).map (fun k =>
    match capGet caps (k + 1) with
    | some ab => slice ab.1 ab.2 s
    | none => [])

/-- The loop of the ECMAScript `String.prototype.split(regexp)` algorithm:
`p` is the start of the current piece, `q` the probe position. -/
def jsSplitAux (r : Regex) (gc : Nat) (s : Str) : Nat → Nat → Nat → List Str
  | p, _, 0 => [slice p s.length s]
  | p, q, fuel + 1 =>
    if s.length ≤ q then [slice p s.length s]
    else match (mat r s q).head? with
      | none => jsSplitAux r gc s p (q + 1) fuel
      | some jc =>
        let e := min jc.1 s.length
        if e = p then jsSplitAux r gc s p (q + 1) fuel
        else slice p q s :: capSlices gc jc.2 s ++ jsSplitAux r gc s e e fuel

/-- `s.split(r)` with capture splicing (ES `SplitMatcher` semantics). -/
def jsSplit (r : Regex) (gc : Nat) (s : Str) : List Str :=
  if s.length = 0 then
    if (mat r s 0).isEmpty then [[]] else []
  else jsSplitAux r gc s 0 0 (2 * s.length + 2)

/-- Replacement templates: literal text and `$k` group references. -/
inductive Tmpl where
  | lit (w : Str)
  | gref (k : Nat)

def instTmpl (tm : List Tmpl) (caps : Caps) (s : Str) : Str :=
  tm.flatMap (fun t =>
    match t with
    | .lit w => w
    | .gref k =>
      match capGet caps k with
      | some ab => slice ab.1 ab.2 s
      | none => [])

/-- `s.replace(r<global>, template)`: scan left to right, emit the
instantiated template at each leftmost match, copy other characters. -/
def replaceAllAux (r : Regex) (tm : List Tmpl) (s : Str) : Nat → Nat → Str
  | i, 0 => s.drop i
  | i, fuel + 1 =>
    if s.length ≤ i then []
    else match (mat r s i).head? with
      | some jc =>
        if i < jc.1 then instTmpl tm jc.2 s ++ replaceAllAux r tm s jc.1 fuel
        else instTmpl tm jc.2 s ++ s.getD i 0 :: replaceAllAux r tm s (i + 1) fuel
      | none => s.getD i 0 :: replaceAllAux r tm s (i + 1) fuel

def replaceAll (r : Regex) (tm : List Tmpl) (s : Str) : Str :=
  replaceAllAux r tm s 0 (s.length + 1)

/-! ## Character classes and pattern combinators -/

/-- `String.prototype.toLowerCase`, modelled on the ASCII range. -/
def lowerChar (c : Nat) : Nat := if 65 ≤ c ∧ c ≤ 90 then c + 32 else c

def lowerStr (s : Str) : Str := s.map lowerChar

def isDigitC (c : Nat) : Bool := 48 ≤ c && c ≤ 57
def isUpperC (c : Nat) : Bool := 65 ≤ c && c ≤ 90
def isLowerC (c : Nat) : Bool := 97 ≤ c && c ≤ 122
/-- the regex class `\w`. -/
def isWordC (c : Nat) : Bool := isDigitC c || isUpperC c || isLowerC c || c == 95
/-- `[IVX]`. -/
def isRomanU (c : Nat) : Bool := c == ch 'I' || c == ch 'V' || c == ch 'X'
/-- `[ivx]`. -/
def isRomanL (c : Nat) : Bool := c == ch 'i' || c == ch 'v' || c == ch 'x'
/-- `.` with the `s` flag. -/
def anyC (_ : Nat) : Bool := true
/-- `.` without the `s` flag (anything but a line terminator). -/
def dotC (c : Nat) : Bool := !(c == 10 || c == 13 || c == 0x2028 || c == 0x2029)
/-- `[A-Z\s]`. -/
def upperWsC (c : Nat) : Bool := isUpperC c || jsWs c
/-- `[^\n.]`. -/
def notNlDotC (c : Nat) : Bool := !(c == 10 || c == 46)

def chCls (c : Char) : Regex := .cls (fun d => d == ch c)
def chCI (c : Char) : Regex := .cls (fun d => lowerChar d == lowerChar (ch c))

def seqs (l : List Regex) : Regex := l.foldr .seq .eps
def altList : List Regex → Regex
  | [] => .cls (fun _ => false)
  | [r] => r
  | r :: rest => .alt r (altList rest)

/-- A case-sensitive literal. -/
def lit (w : String) : Regex := seqs ((str w).map (fun c => .cls (fun d => d == c)))
/-- A literal under the `i` flag. -/
def litCI (w : String) : Regex :=
  seqs ((str w).map (fun c => .cls (fun d => lowerChar d == lowerChar c)))

def wsStar : Regex := .rep jsWs 0 none false        -- `\s*`
def wsPlus : Regex := .rep jsWs 1 none false        -- `\s+`
def digitsP : Regex := .rep isDigitC 1 none false   -- `\d+`
def digits14 : Regex := .rep isDigitC 1 (some 4) false -- `\d{1,4}`
def nlC : Regex := chCls '\n'
def dotLit : Regex := chCls '.'

/-- `(I{1,3}|IV|VI{0,3}|IX|XI{0,3}|XIV|XV|XVI{0,3}|XIX|XX[IVX]*)` over a
one-letter alphabet test `fI/fV/fX` (instantiated upper- and lowercase). -/
def romanAlt (fI fV fX : Nat → Bool) : Regex :=
  altList
    [ .rep fI 1 (some 3) false,                       -- I{1,3}
      .seq (.cls fI) (.cls fV),                       -- IV
      .seq (.cls fV) (.rep fI 0 (some 3) false),      -- VI{0,3}
      .seq (.cls fI) (.cls fX),                       -- IX
      .seq (.cls fX) (.rep fI 0 (some 3) false),      -- XI{0,3}
      seqs [.cls fX, .cls fI, .cls fV],               -- XIV
      .seq (.cls fX) (.cls fV),                       -- XV
      seqs [.cls fX, .cls fV, .rep fI 0 (some 3) false], -- XVI{0,3}
      seqs [.cls fX, .cls fI, .cls fX],               -- XIX
      seqs [.cls fX, .cls fX,
        .rep (fun c => fI c || fV c || fX c) 0 none false] ] -- XX[IVX]*

def eqI (c : Nat) : Bool := c == ch 'I'
def eqV (c : Nat) : Bool := c == ch 'V'
def eqX (c : Nat) : Bool := c == ch 'X'
def eqiL (c : Nat) : Bool := c == ch 'i'
def eqvL (c : Nat) : Bool := c == ch 'v'
def eqxL (c : Nat) : Bool := c == ch 'x'

def romanAltU : Regex := romanAlt eqI eqV eqX
def romanAltL : Regex := romanAlt eqiL eqvL eqxL

/-! ## The numbering-schema registry (`getSchemaRegex`, `getSchemaSplitRegex`) -/

/-- `getSchemaRegex` (source lines 83–106): symbolic schema identifier to
header-match regex (all source patterns are `^`-anchored; the anchor is
implicit in `testA`/`mat _ _ 0`). -/
def getSchemaRegex (schemaType : Str) : Option Regex :=
  if schemaType = str "numeric" then       -- /^(\d+)\.\s+/
    some (seqs [.grp 1 digitsP, dotLit, wsPlus])
  else if schemaType = str "numeric-paren" then  -- /^(\d+)\)\s+/
    some (seqs [.grp 1 digitsP, chCls ')', wsPlus])
  else if schemaType = str "decimal" then  -- /^(\d+\.\d+)\s+/
    some (seqs [.grp 1 (seqs [digitsP, dotLit, digitsP]), wsPlus])
  else if schemaType = str "alpha-upper" then  -- /^([A-Z])\.\s+/
    some (seqs [.grp 1 (.cls isUpperC), dotLit, wsPlus])
  else if schemaType = str "alpha-lower" then  -- /^([a-z])\.\s+/
    some (seqs [.grp 1 (.cls isLowerC), dotLit, wsPlus])
  else if schemaType = str "alpha-lower-paren" then  -- /^([a-z])\)\s+/
    some (seqs [.grp 1 (.cls isLowerC), chCls ')', wsPlus])
  else if schemaType = str "roman-upper" then  -- /^(ROMAN)\.\s+/
    some (seqs [.grp 1 romanAltU, dotLit, wsPlus])
  else if schemaType = str "roman-lower" then  -- /^(roman)\.\s+/
    some (seqs [.grp 1 romanAltL, dotLit, wsPlus])
  else if schemaType = str "roman-upper-paren" then  -- /^(ROMAN)\)\s+/
    some (seqs [.grp 1 romanAltU, chCls ')', wsPlus])
  else if schemaType = str "roman-lower-paren" then  -- /^(roman)\)\s+/
    some (seqs [.grp 1 romanAltL, chCls ')', wsPlus])
  else if schemaType = str "paren-numeric" then  -- /^\((\d+)\)\s+/
    some (seqs [chCls '(', .grp 1 digitsP, chCls ')', wsPlus])
  else if schemaType = str "paren-alpha" then  -- /^\(([a-z])\)\s+/
    some (seqs [chCls '(', .grp 1 (.cls isLowerC), chCls ')', wsPlus])
  else if schemaType = str "paren-roman-upper" then  -- /^\((ROMAN)\)\s+/
    some (seqs [chCls '(', .grp 1 romanAltU, chCls ')', wsPlus])
  else if schemaType = str "paren-roman-lower" then  -- /^\((roman)\)\s+/
    some (seqs [chCls '(', .grp 1 romanAltL, chCls ')', wsPlus])
  else if schemaType = str "section" then  -- /^Section\s+(\d+)\./i
    some (seqs [litCI "Section", wsPlus, .grp 1 digitsP, dotLit])
  else if schemaType = str "section-decimal" then  -- /^Section\s+(\d+)\.(?!\d)/i
    some (seqs [litCI "Section", wsPlus, .grp 1 digitsP, dotLit,
      .look (.cls isDigitC) false])
  else if schemaType = str "article" then  -- /^(?:Article|ARTICLE)\s+([IVX]+|\d+)/i
    some (seqs [.alt (litCI "Article") (litCI "ARTICLE"), wsPlus,
      .grp 1 (.alt (.rep (fun c => isRomanU c || isRomanL c) 1 none false) digitsP)])
  else if schemaType = str "decimal-zero" then  -- /^(\d+)\.0\s+/
    some (seqs [.grp 1 digitsP, dotLit, chCls '0', wsPlus])
  else if schemaType = str "decimal-triple" then  -- /^(\d+\.\d+\.\d+)\s+/
    some (seqs [.grp 1 (seqs [digitsP, dotLit, digitsP, dotLit, digitsP]), wsPlus])
  else none

/-- The leading alternation shared by the split regexes:
`(?:\n\s*|(?<=\.\s{1,3})|(?<=;\s{1,3}))`.  The lookbehind bodies have
length at most 4, whence the `maxLen` bound. -/
def splitLead : Regex :=
  altList
    [ .seq nlC wsStar,
      .lookb (.seq dotLit (.rep jsWs 1 (some 3) false)) 4,
      .lookb (.seq (chCls ';') (.rep jsWs 1 (some 3) false)) 4 ]

/-- The variant used by the `section` split regexes, which adds the
alternative `(?<=\s{2,})`.  A match of `\s{2,}` ends at a position exactly
when `\s\s` does, so the transcription truncates it to length 2. -/
def splitLeadSection : Regex :=
  altList
    [ .seq nlC wsStar,
      .lookb (.seq dotLit (.rep jsWs 1 (some 3) false)) 4,
      .lookb (.seq (chCls ';') (.rep jsWs 1 (some 3) false)) 4,
      .lookb (.seq (.cls jsWs) (.cls jsWs)) 2 ]

/-- `getSchemaSplitRegex` (source lines 110–132). -/
def getSchemaSplitRegex (schemaType : Str) : Option Regex :=
  if schemaType = str "numeric" then       -- (?=\d+\.\s+[A-Z])
    some (.seq splitLead (.look (seqs [digitsP, dotLit, wsPlus, .cls isUpperC]) true))
  else if schemaType = str "numeric-paren" then  -- (?=\d+\)\s+[A-Z])
    some (.seq splitLead (.look (seqs [digitsP, chCls ')', wsPlus, .cls isUpperC]) true))
  else if schemaType = str "decimal" then  -- (?=\d+\.\d+\s+[A-Z])
    some (.seq splitLead
      (.look (seqs [digitsP, dotLit, digitsP, wsPlus, .cls isUpperC]) true))
  else if schemaType = str "alpha-upper" then  -- (?=[A-Z]\.\s+[A-Z])
    some (.seq splitLead (.look (seqs [.cls isUpperC, dotLit, wsPlus, .cls isUpperC]) true))
  else if schemaType = str "alpha-lower" then  -- (?=[a-z]\.\s+[A-Z])
    some (.seq splitLead (.look (seqs [.cls isLowerC, dotLit, wsPlus, .cls isUpperC]) true))
  else if schemaType = str "alpha-lower-paren" then  -- (?=[a-z]\)\s+[A-Z])
    some (.seq splitLead (.look (seqs [.cls isLowerC, chCls ')', wsPlus, .cls isUpperC]) true))
  else if schemaType = str "roman-upper" then  -- (?=(ROMAN)\.\s+[A-Z])
    some (.seq splitLead (.look (seqs [.grp 1 romanAltU, dotLit, wsPlus, .cls isUpperC]) true))
  else if schemaType = str "roman-lower" then  -- (?=(roman)\.\s+)
    some (.seq splitLead (.look (seqs [.grp 1 romanAltL, dotLit, wsPlus]) true))
  else if schemaType = str "roman-upper-paren" then  -- (?=(ROMAN)\)\s+[A-Z])
    some (.seq splitLead (.look (seqs [.grp 1 romanAltU, chCls ')', wsPlus, .cls isUpperC]) true))
  else if schemaType = str "roman-lower-paren" then  -- (?=(roman)\)\s+)
    some (.seq splitLead (.look (seqs [.grp 1 romanAltL, chCls ')', wsPlus]) true))
  else if schemaType = str "paren-numeric" then  -- (?=\(\d+\)\s+)
    some (.seq splitLead (.look (seqs [chCls '(', digitsP, chCls ')', wsPlus]) true))
  else if schemaType = str "paren-alpha" then  -- (?=\([a-z]\)\s+)
    some (.seq splitLead (.look (seqs [chCls '(', .cls isLowerC, chCls ')', wsPlus]) true))
  else if schemaType = str "paren-roman-upper" then  -- (?=\((ROMAN)\)\s+)
    some (.seq splitLead (.look (seqs [chCls '(', .grp 1 romanAltU, chCls ')', wsPlus]) true))
  else if schemaType = str "paren-roman-lower" then  -- (?=\((roman)\)\s+)
    some (.seq splitLead (.look (seqs [chCls '(', .grp 1 romanAltL, chCls ')', wsPlus]) true))
  else if schemaType = str "section" then  -- (?=Section\s+\d+\.) with /i
    some (.seq splitLeadSection (.look (seqs [litCI "Section", wsPlus, digitsP, dotLit]) true))
  else if schemaType = str "section-decimal" then  -- (?=Section\s+\d+\.(?!\d)) with /i
    some (.seq splitLeadSection
      (.look (seqs [litCI "Section", wsPlus, digitsP, dotLit, .look (.cls isDigitC) false]) true))
  else if schemaType = str "article" then  -- (?=(?:Article|ARTICLE)\s+(?:[IVX]+|\d+)) (no /i)
    some (.seq splitLead (.look (seqs [.alt (lit "Article") (lit "ARTICLE"), wsPlus,
      .alt (.rep isRomanU 1 none false) digitsP]) true))
  else if schemaType = str "decimal-zero" then  -- (?=\d+\.0\s+[A-Z])
    some (.seq splitLead
      (.look (seqs [digitsP, dotLit, chCls '0', wsPlus, .cls isUpperC]) true))
  else none

/-! ## The schema detector (`detectNumberingSchema`) -/

structure DetectPattern where
  regex : Regex
  type : Str
  splitRegex : Regex

/-- Roman numerals at line start with an ALL-CAPS-ish title:
count `/\n\s*(ROMAN)\.\s+[A-Z][A-Z\s]/g`,
split `/\n\s*(?=(ROMAN)\.\s+[A-Z])/g`. -/
def detectRoman : DetectPattern :=
  { regex := seqs [nlC, wsStar, .grp 1 romanAltU, dotLit, wsPlus,
      .cls isUpperC, .cls upperWsC],
    type := str "roman",
    splitRegex := seqs [nlC, wsStar,
      .look (seqs [.grp 1 romanAltU, dotLit, wsPlus, .cls isUpperC]) true] }

/-- count `/\n\s*Section\s+(\d+)\./gi`, split `/\n\s*(?=Section\s+\d+\.)/gi`. -/
def detectSection : DetectPattern :=
  { regex := seqs [nlC, wsStar, litCI "Section", wsPlus, .grp 1 digitsP, dotLit],
    type := str "section",
    splitRegex := seqs [nlC, wsStar, .look (seqs [litCI "Section", wsPlus, digitsP, dotLit]) true] }

/-- count `/\n\s*Article\s+(\d+)/gi`, split `/\n\s*(?=Article\s+\d+)/gi`. -/
def detectArticle : DetectPattern :=
  { regex := seqs [nlC, wsStar, litCI "Article", wsPlus, .grp 1 digitsP],
    type := str "article",
    splitRegex := seqs [nlC, wsStar, .look (seqs [litCI "Article", wsPlus, digitsP]) true] }

/-- count `/\n\s*ARTICLE\s+([IVX]+)/g`, split `/\n\s*(?=ARTICLE\s+[IVX]+)/g`
(case sensitive). -/
def detectArticleRoman : DetectPattern :=
  { regex := seqs [nlC, wsStar, lit "ARTICLE", wsPlus, .grp 1 (.rep isRomanU 1 none false)],
    type := str "article-roman",
    splitRegex := seqs [nlC, wsStar,
      .look (seqs [lit "ARTICLE", wsPlus, .rep isRomanU 1 none false]) true] }

/-- count `/\n\s*(\d+)\.\s+[A-Z][A-Z\s]{3,}/g`, split `/\n\s*(?=\d+\.\s+[A-Z][A-Z])/g`. -/
def detectNumeric : DetectPattern :=
  { regex := seqs [nlC, wsStar, .grp 1 digitsP, dotLit, wsPlus,
      .cls isUpperC, .rep upperWsC 3 none false],
    type := str "numeric",
    splitRegex := seqs [nlC, wsStar,
      .look (seqs [digitsP, dotLit, wsPlus, .cls isUpperC, .cls isUpperC]) true] }

def detectPatterns : List DetectPattern :=
  [detectRoman, detectSection, detectArticle, detectArticleRoman, detectNumeric]

/-- `detectNumberingSchema` (source lines 499–539): count the matches of
each candidate, keep the first pattern with the strictly largest count, and
fall back to the roman candidate when the best count is below 2. -/
def detectNumberingSchema (text : Str) : Regex × Str :=
  let best := detectPatterns.foldl (fun acc p =>
    let count := countMatches p.regex text
    if acc.2 < count then (p, count) else acc) (detectRoman, 0)
  let bestPattern := if best.2 < 2 then detectRoman else best.1
  (bestPattern.splitRegex, bestPattern.type)

/-! ## `removePageNumbers` (source lines 49–80) -/

/-- Pattern 1: `/\n\s*(\d{1,4})\s*\n(?!\s*\d+\.)/g` → `'\n\n'`. -/
def pgP1 : Regex :=
  seqs [nlC, wsStar, .grp 1 digits14, wsStar, nlC,
    .look (seqs [wsStar, digitsP, dotLit]) false]

/-- Pattern 2: `/\.\s*\n\s*(\d{1,4})\s*\n/g` → `'.\n\n'`. -/
def pgP2 : Regex := seqs [dotLit, wsStar, nlC, wsStar, .grp 1 digits14, wsStar, nlC]

/-- Pattern 3: `/\n\s*(\d{1,4})\s*\n\s*\n\s*(THIS|WHEREAS|BETWEEN|PARTIES)/gi` → `'\n\n$2'`. -/
def pgP3 : Regex :=
  seqs [nlC, wsStar, .grp 1 digits14, wsStar, nlC, wsStar, nlC, wsStar,
    .grp 2 (altList [litCI "THIS", litCI "WHEREAS", litCI "BETWEEN", litCI "PARTIES"])]

/-- Pattern 4: `/\n\s*Page\s+\d+(\s+of\s+\d+)?\s*\n/gi` → `'\n\n'`. -/
def pgP4 : Regex :=
  seqs [nlC, wsStar, litCI "Page", wsPlus, digitsP,
    .alt (.grp 1 (seqs [wsPlus, litCI "of", wsPlus, digitsP])) .eps, wsStar, nlC]

/-- Pattern 5: `/\n\s*[\[\(]\d{1,4}[\]\)]\s*\n/g` → `'\n\n'`. -/
def pgP5 : Regex :=
  seqs [nlC, wsStar, .cls (fun c => c == ch '[' || c == ch '('), digits14,
    .cls (fun c => c == ch ']' || c == ch ')'), wsStar, nlC]

/-- Pattern 6: `/\n\s*-\s*\d{1,4}\s*-\s*\n/g` → `'\n\n'`. -/
def pgP6 : Regex :=
  seqs [nlC, wsStar, chCls '-', wsStar, digits14, wsStar, chCls '-', wsStar, nlC]

/-- Pattern 7: `/\n\s*(\d{1,4})\s*\n(?=\s*[A-Z]{2,})/g` → `'\n\n'`. -/
def pgP7 : Regex :=
  seqs [nlC, wsStar, .grp 1 digits14, wsStar, nlC,
    .look (.seq wsStar (.rep isUpperC 2 none false)) true]

/-- Pattern 8: `/\n{3,}/g` → `'\n\n'`. -/
def pgP8 : Regex := .rep (fun c => c == 10) 3 none false

def tmplNlNl : List Tmpl := [.lit (str "\n\n")]

/-- `removePageNumbers`: the seven page-number heuristics followed by the
newline collapse, in source order. -/
def removePageNumbers (text : Str) : Str :=
  let c1 := replaceAll pgP1 tmplNlNl text
  let c2 := replaceAll pgP2 [.lit (str ".\n\n")] c1
  let c3 := replaceAll pgP3 [.lit (str "\n\n"), .gref 2] c2
  let c4 := replaceAll pgP4 tmplNlNl c3
  let c5 := replaceAll pgP5 tmplNlNl c4
  let c6 := replaceAll pgP6 tmplNlNl c5
  let c7 := replaceAll pgP7 tmplNlNl c6
  replaceAll pgP8 tmplNlNl c7

/-! ## Data model -/

/-- A repository clause (read-only input).  Only the fields the engine
reads (`id`, `clause_type`, `clause_text`) are modelled; the remaining
fields of the source's `Clause` interface are never consulted by the
extraction engine. -/
structure Clause where
  id : Str
  clause_type : Str
  clause_text : Str
deriving DecidableEq, Repr

structure NumberingSchema where
  mainClause : Str
  subClause1 : Str
  subClause2 : Str
  subClause3 : Option Str := none
deriving DecidableEq, Repr

structure ExtractedClause where
  clause_type : Str
  clause_text : Str
  clause_no : Str
  preferred_position : Str
  party_role : Str
  complexity : Nat
  balance : Int
  matched_from_repository : Bool
  similarity_score : ℚ
deriving DecidableEq, Repr

structure RepositoryMatch where
  clauseType : Str
  score : ℚ
  matchedClauseId : Str
deriving DecidableEq, Repr

instance : Inhabited ExtractedClause :=
  ⟨⟨[], [], [], [], [], 0, 0, false, 0⟩⟩

/-! ## Similarity (`calculateTextSimilarity`, `calculateNGramSimilarity`) -/

/-- The per-character step of `.replace(/[^\w\s]/g, ' ')`. -/
def simTokenChar (c : Nat) : Nat := if isWordC c || jsWs c then c else 32

/-- `text.toLowerCase().replace(/[^\w\s]/g, ' ').split(/\s+/).filter(w => w.length > 2)`. -/
def simWords (text : Str) : List Str :=
  (jsSplit (.rep jsWs 1 none false) 0 ((lowerStr text).map simTokenChar)).filter
    (fun w => 2 < w.length)

/-- Jaccard similarity of word sets (source lines 156–172). -/
def calculateTextSimilarity (text1 text2 : Str) : ℚ :=
  let words1 := (simWords text1).toFinset
  let words2 := (simWords text2).toFinset
  if words1.card = 0 ∨ words2.card = 0 then 0
  else ((words1 ∩ words2).card : ℚ) / ((words1 ∪ words2).card : ℚ)

/-- `String.prototype.split(' ')` (single-character separator). -/
def splitSp : Str → List Str
  | [] => [[]]
  | c :: t =>
    if c = 32 then [] :: splitSp t
    else (c :: (splitSp t).headI) :: (splitSp t).tail

/-- `words.join(' ')`. -/
def joinSp : List Str → Str
  | [] => []
  | [l] => l
  | l :: ls => l ++ 32 :: joinSp ls

/-- The n-gram set of `getNGrams` inside `calculateNGramSimilarity`. -/
def getNGrams (text : Str) (n : Nat) : Finset Str :=
  let normalized := jsTrim (replaceAll (.rep jsWs 1 none false) [.lit [32]]
    ((lowerStr text).map simTokenChar))
  let words := (splitSp normalized).filter (fun w => 0 < w.length)
  ((List.range (words.length + 1 - n)).map
    (fun i => joinSp ((words.drop i).take n))).toFinset

/-- Jaccard similarity of word n-gram sets (source lines 177–197). -/
def calculateNGramSimilarity (text1 text2 : Str) (n : Nat) : ℚ :=
  let ngrams1 := getNGrams text1 n
  let ngrams2 := getNGrams text2 n
  if ngrams1.card = 0 ∨ ngrams2.card = 0 then 0
  else ((ngrams1 ∩ ngrams2).card : ℚ) / ((ngrams1 ∪ ngrams2).card : ℚ)

/-! ## Repository matching -/

/-- The combined score of `matchClauseFromRepository`:
`wordSimilarity * 0.4 + ngramSimilarity(n=3) * 0.6`. -/
def matchCombined (clauseText : Str) (repoClause : Clause) : ℚ :=
  calculateTextSimilarity clauseText repoClause.clause_text * (2/5)
    + calculateNGramSimilarity clauseText repoClause.clause_text 3 * (3/5)

/-- `matchClauseFromRepository` (source lines 202–235).  The source's
default `threshold` is `0.15`; the threshold is passed explicitly here.
A repository clause with empty `clause_text` is skipped by the length
test, as the source's `!repoClause.clause_text ||` guard also does. -/
def matchClauseFromRepository (clauseText : Str) (repositoryClauses : List Clause)
    (threshold : ℚ) : Option RepositoryMatch :=
  if repositoryClauses.length = 0 then none
  else
    repositoryClauses.foldl (fun bestMatch repoClause =>
      if repoClause.clause_text.length < 50 then bestMatch
      else if repoClause.clause_type = str "General Clause"
          ∨ repoClause.clause_type = str "Other" then bestMatch
      else
        let combinedScore := matchCombined clauseText repoClause
        if threshold ≤ combinedScore ∧ (∀ bm ∈ bestMatch, bm.score < combinedScore) then
          some ⟨repoClause.clause_type, combinedScore, repoClause.id⟩
        else bestMatch) none

/-- `groupClausesByType` (source lines 240–248): a JS `Map` keyed by
`clause_type`, here an association list in key-insertion order. -/
def groupClausesByType (clauses : List Clause) : List (Str × List Clause) :=
  clauses.foldl (fun grouped clause =>
    if grouped.any (fun g => g.1 == clause.clause_type) then
      grouped.map (fun g =>
        if g.1 == clause.clause_type then (g.1, g.2 ++ [clause]) else g)
    else grouped ++ [(clause.clause_type, [clause])]) []

/-- The per-entry score of `findBestClauseTypeMatch`:
`wordSim * 0.35 + ngramSim(n=2) * 0.65`. -/
def groupScore (clauseText : Str) (repoClause : Clause) : ℚ :=
  calculateTextSimilarity clauseText repoClause.clause_text * (7/20)
    + calculateNGramSimilarity clauseText repoClause.clause_text 2 * (13/20)

/-- `findBestClauseTypeMatch` (source lines 253–291).  The source's default
`threshold` is `0.12`; the threshold is passed explicitly here. -/
def findBestClauseTypeMatch (clauseText : Str) (repositoryClauses : List Clause)
    (threshold : ℚ) : Option RepositoryMatch :=
  (groupClausesByType repositoryClauses).foldl (fun bestMatch g =>
    if g.1 = str "General Clause" ∨ g.1 = str "Other" then bestMatch
    else
      let inner := g.2.foldl (fun (acc : ℚ × Str) repoClause =>
        if repoClause.clause_text.length < 30 then acc
        else
          let score := groupScore clauseText repoClause
          if acc.1 < score then (score, repoClause.id) else acc) (0, [])
      if threshold ≤ inner.1 ∧ (∀ bm ∈ bestMatch, bm.score < inner.1) then
        some ⟨g.1, inner.1, inner.2⟩
      else bestMatch) none

/-! ## Classifier tables and keyword detectors -/

/-- `hay.includes(needle)` of JS strings. -/
def strIncludes (hay needle : Str) : Bool :=
  (List.range (hay.length + 1)).any (fun i => needle.isPrefixOf (hay.drop i))

def commonClauseTypes : List String :=
  [ "Document Name", "Parties", "Agreement Date", "Effective Date",
    "Expiration Date", "Renewal Term", "Notice Period", "Governing Law",
    "Most Favored Nation", "Competitive Restriction", "Non-Compete",
    "Exclusivity", "No-Solicit", "Non-Disparagement", "Termination",
    "Rofr/Rofo/Rofn", "Change of Control", "Anti-Assignment",
    "Revenue/Profit Sharing", "Price Restrictions", "Minimum Commitment",
    "Volume Restriction", "Ip Ownership", "License Grant",
    "Source Code Escrow", "Post-Termination Services", "Audit Rights",
    "Liability Cap", "Liquidated Damages", "Warranty Duration", "Insurance",
    "Covenant Not To Sue", "Third Party Beneficiary", "Indemnification",
    "Confidentiality", "Force Majeure", "Payment Terms", "Dispute Resolution",
    "Severability", "Amendment", "Modification", "Waiver", "Entire Agreement",
    "Counterparts" ]

/-- `isMiscellaneousOrGeneralSection` (source lines 343–346). -/
def isMiscellaneousOrGeneralSection (clauseNo : Str) : Bool :=
  let lower := lowerStr clauseNo
  strIncludes lower (str "miscellaneous") || strIncludes lower (str "general")

/-- `detectMiscellaneousSubclauseType` (source lines 351–408); `[]` models
`null`. -/
def detectMiscellaneousSubclauseType (text : Str) : Str :=
  let lowerText := lowerStr text
  let inc := fun (w : String) => strIncludes lowerText (str w)
  if inc "governing law" ∨ (inc "state" ∧ inc "laws") ∨ (inc "construed" ∧ inc "laws")
      ∨ inc "governed by the laws" then str "Governing Law"
  else if inc "counterpart" then str "Counterparts"
  else if inc "amended" ∨ inc "modified" ∨ inc "amendment" ∨ inc "modification" then
    str "Modification"
  else if inc "entire agreement" ∨ inc "entire understanding"
      ∨ (inc "constitutes the entire" ∧ inc "agreement") then str "Entire Agreement"
  else if inc "severability" ∨ inc "severable" ∨ (inc "invalid" ∧ inc "provision")
      ∨ (inc "unenforceable" ∧ inc "provision") then str "Severability"
  else if inc "waiver" ∨ inc "waive" then str "Waiver"
  else if inc "notice" ∧ (inc "shall be" ∨ inc "given") then str "Notice Period"
  else if inc "assignment" ∨ inc "assign" then str "Anti-Assignment"
  else if inc "successors" ∧ inc "assigns" then str "Anti-Assignment"
  else []

/-- The synonym table of `cleanTitle` (source lines 868–913), in object
insertion order (the order encodes priority). -/
def cleanTitleMappings : List (String × String) :=
  [ ("indemnity", "Indemnification"), ("indemnification", "Indemnification"),
    ("limitation of liability", "Liability Cap"), ("liability", "Liability Cap"),
    ("confidentiality", "Confidentiality"), ("proprietary", "Confidentiality"),
    ("termination", "Termination"), ("term", "Termination"),
    ("force majeure", "Force Majeure"), ("intellectual property", "Ip Ownership"),
    ("ip", "Ip Ownership"), ("ownership", "Ip Ownership"),
    ("warranty", "Warranty Duration"), ("guarantee", "Warranty Duration"),
    ("payment", "Payment Terms"), ("fee", "Payment Terms"),
    ("non-compete", "Non-Compete"), ("noncompete", "Non-Compete"),
    ("governing law", "Governing Law"), ("law", "Governing Law"),
    ("assignment", "Anti-Assignment"), ("transfer", "Anti-Assignment"),
    ("notice", "Notice Period"), ("most favored nation", "Most Favored Nation"),
    ("exclusivity", "Exclusivity"), ("solicit", "No-Solicit"),
    ("disparage", "Non-Disparagement"), ("rofr", "Rofr/Rofo/Rofn"),
    ("rofo", "Rofr/Rofo/Rofn"), ("refusal", "Rofr/Rofo/Rofn"),
    ("change of control", "Change of Control"), ("revenue", "Revenue/Profit Sharing"),
    ("profit", "Revenue/Profit Sharing"), ("sharing", "Revenue/Profit Sharing"),
    ("commitment", "Minimum Commitment"), ("restriction", "Volume Restriction"),
    ("license", "License Grant"), ("escrow", "Source Code Escrow"),
    ("audit", "Audit Rights"), ("liquidated", "Liquidated Damages"),
    ("insurance", "Insurance"), ("effective", "Effective Date"),
    ("expiration", "Expiration Date"), ("renewal", "Renewal Term") ]

/-- `cleanTitle` (source lines 860–920). -/
def cleanTitle (title : Str) : Str :=
  let trimmed := jsTrim title
  if 50 < trimmed.length then trimmed.take 47 ++ str "..."
  else
    let lower := lowerStr trimmed
    match cleanTitleMappings.find? (fun kv => strIncludes lower (str kv.1)) with
    | some kv => str kv.2
    | none => trimmed

/-- `detectClauseType` (source lines 922–977); `[]` models `null`. -/
def detectClauseType (text : Str) : Str :=
  let lowercaseText := lowerStr text
  let first200Chars := jsTrim (lowercaseText.take 200)
  let veryEarly := lowercaseText.take 50
  let incV := fun (w : String) => strIncludes veryEarly (str w)
  let inc := fun (w : String) => strIncludes first200Chars (str w)
  if incV "between" ∧ incV "party" then str "Parties"
  else if incV "agreement" ∧ (incV "made" ∨ incV "dated") then str "Document Name"
  else if inc "confidential" ∨ inc "proprietary" then str "Confidentiality"
  else if inc "liability" ∨ inc "cap" ∨ inc "uncapped" then str "Liability Cap"
  else if inc "indemnif" then str "Indemnification"
  else if inc "terminat" then str "Termination"
  else if inc "payment" ∨ inc "fee" ∨ inc "royalty" then str "Payment Terms"
  else if inc "intellectual" ∨ inc "ipr" ∨ inc "ownership" then str "Ip Ownership"
  else if inc "law" ∨ inc "jurisdiction" then str "Governing Law"
  else if inc "arbitration" ∨ inc "dispute" then str "Dispute Resolution"
  else if inc "notice" then str "Notice Period"
  else if inc "force majeure" then str "Force Majeure"
  else if inc "severability" ∨ inc "invalid" then str "Severability"
  else if inc "assignment" ∨ inc "transfer" then str "Anti-Assignment"
  else if inc "warranty" ∨ inc "guarantee" then str "Warranty Duration"
  else if inc "favored nation" then str "Most Favored Nation"
  else if inc "non-compete" ∨ inc "noncompete" then str "Non-Compete"
  else if inc "exclusiv" then str "Exclusivity"
  else if inc "non-disparage" ∨ inc "nondisparage" then str "Non-Disparagement"
  else if inc "solicit" then str "No-Solicit"
  else if inc "change of control" then str "Change of Control"
  else if inc "first refusal" ∨ inc "rofr" then str "Rofr/Rofo/Rofn"
  else if inc "revenue share" ∨ inc "profit share" then str "Revenue/Profit Sharing"
  else if inc "price restriction" then str "Price Restrictions"
  else if inc "minimum commitment" ∨ inc "commits to purchase" then str "Minimum Commitment"
  else if inc "volume restriction" then str "Volume Restriction"
  else if inc "license" ∨ inc "grant" then str "License Grant"
  else if inc "escrow" then str "Source Code Escrow"
  else if inc "audit" then str "Audit Rights"
  else if inc "liquidated damages" then str "Liquidated Damages"
  else if inc "insurance" then str "Insurance"
  else if inc "covenant not to sue" then str "Covenant Not To Sue"
  else if inc "third party beneficiary" then str "Third Party Beneficiary"
  else if inc "effective date" then str "Effective Date"
  else if inc "expiration date" then str "Expiration Date"
  else if inc "renewal term" then str "Renewal Term"
  else if text.length < 1500 then
    match commonClauseTypes.find? (fun ty => strIncludes lowercaseText (lowerStr (str ty))) with
    | some ty => str ty
    | none => []
  else []

/-! ## `parseClauseNumber` (source lines 759–818) -/

/-- `(?:\d+|[IVX]+|[A-Z])`. -/
def numPrefixAlt : Regex :=
  altList [digitsP, .rep isRomanU 1 none false, .cls isUpperC]

/-- `(?:\.\s*|\n\s*)`. -/
def sepAlt : Regex := .alt (.seq dotLit wsStar) (.seq nlC wsStar)

/-- Pattern 1: `/^((?:\d+|[IVX]+|[A-Z])\.\s*[^\n.]+?)(?:\.\s*|\n\s*)(.+)$/s`. -/
def pcnP1 : Regex :=
  seqs [.grp 1 (seqs [numPrefixAlt, dotLit, wsStar, .rep notNlDotC 1 none true]),
    sepAlt, .grp 2 (.rep anyC 1 none false), .eos]

/-- Pattern 2:
`/^((?:Section|Article|ARTICLE|Clause)\s+(?:\d+|[IVX]+)\.?\s*[^\n.]*?)(?:\.\s*|\n\s*)(.+)$/si`. -/
def pcnP2 : Regex :=
  seqs [.grp 1 (seqs
      [altList [litCI "Section", litCI "Article", litCI "ARTICLE", litCI "Clause"],
       wsPlus,
       .alt digitsP (.rep (fun c => isRomanU c || isRomanL c) 1 none false),
       .alt dotLit .eps, wsStar, .rep notNlDotC 0 none true]),
    sepAlt, .grp 2 (.rep anyC 1 none false), .eos]

/-- Pattern 3: `/^((?:\d+|[IVX]+|[A-Z])\.)\s*(.+)$/s`. -/
def pcnP3 : Regex :=
  seqs [.grp 1 (.seq numPrefixAlt dotLit), wsStar, .grp 2 (.rep anyC 1 none false), .eos]

/-- Pattern 4: `/^([A-Z][A-Z\s]{3,50})(?:\.\s*|\n\s*)(.+)$/s`. -/
def pcnP4 : Regex :=
  seqs [.grp 1 (.seq (.cls isUpperC) (.rep upperWsC 3 (some 50) false)),
    sepAlt, .grp 2 (.rep anyC 1 none false), .eos]

def capSlice (caps : Caps) (k : Nat) (s : Str) : Str :=
  match capGet caps k with
  | some ab => slice ab.1 ab.2 s
  | none => []

structure ParsedClause where
  clause_no : Str
  body_text : Str
deriving DecidableEq, Repr

/-- `parseClauseNumber`: four increasingly permissive patterns, then the
no-clause-number fallback. -/
def parseClauseNumber (block : Str) : ParsedClause :=
  let trimmed := jsTrim block
  match (mat pcnP1 trimmed 0).head? with
  | some jc =>
    { clause_no := jsTrim (capSlice jc.2 1 trimmed),
      body_text := jsTrim (capSlice jc.2 2 trimmed) }
  | none =>
  match (mat pcnP2 trimmed 0).head? with
  | some jc =>
    { clause_no := jsTrim (capSlice jc.2 1 trimmed),
      body_text := jsTrim (capSlice jc.2 2 trimmed) }
  | none =>
  match (mat pcnP3 trimmed 0).head? with
  | some jc =>
    let g1 := capSlice jc.2 1 trimmed
    let g2 := capSlice jc.2 2 trimmed
    let fallback : ParsedClause := { clause_no := g1, body_text := jsTrim g2 }
    match g2.findIdx? (fun c => c == 10) with
    | some firstLineEnd =>
      if 0 < firstLineEnd ∧ firstLineEnd < 100 then
        let firstLn := jsTrim (g2.take firstLineEnd)
        let rest := jsTrim (g2.drop firstLineEnd)
        if firstLn.length < 80 ∧ 0 < rest.length then
          { clause_no := g1 ++ 32 :: firstLn, body_text := rest }
        else fallback
      else fallback
    | none => fallback
  | none =>
  match (mat pcnP4 trimmed 0).head? with
  | some jc =>
    { clause_no := jsTrim (capSlice jc.2 1 trimmed),
      body_text := jsTrim (capSlice jc.2 2 trimmed) }
  | none => { clause_no := [], body_text := trimmed }

/-! ## `parseHeader` (source lines 824–858) -/

/-- `([0-9]+|[A-Z]|[IVX]+)` (note: a different alternative order than in
`parseClauseNumber`). -/
def hdrPrefixAlt : Regex :=
  altList [digitsP, .cls isUpperC, .rep isRomanU 1 none false]

/-- `[A-Za-z\s,\/\(\)]`. -/
def titleC (c : Nat) : Bool :=
  isUpperC c || isLowerC c || jsWs c || c == ch ',' || c == ch '/' ||
  c == ch '(' || c == ch ')'

/-- Pattern 1:
`/^([0-9]+|[A-Z]|[IVX]+)\.\s+([A-Z][A-Za-z\s,\/\(\)]{3,100})(?:\n|\.|\s{2,}|$|(?=\s+[0-9]+\.[0-9]+))/`. -/
def phH1 : Regex :=
  seqs [.grp 1 hdrPrefixAlt, dotLit, wsPlus,
    .grp 2 (.seq (.cls isUpperC) (.rep titleC 3 (some 100) false)),
    altList [nlC, dotLit, .rep jsWs 2 none false, .eos,
      .look (seqs [wsPlus, digitsP, dotLit, digitsP]) true]]

/-- Fallback: `/^([0-9]+|[A-Z]|[IVX]+)\.\s+([^\n.]+)(?:\n|\.|$)/`. -/
def phH2 : Regex :=
  seqs [.grp 1 hdrPrefixAlt, dotLit, wsPlus, .grp 2 (.rep notNlDotC 1 none false),
    altList [nlC, dotLit, .eos]]

/-- `[0-9A-ZIVX]` under the `i` flag (`IVX` is redundant within `A-Z`,
and the flag extends the letter range to lowercase). -/
def secIdC (c : Nat) : Bool := isDigitC c || isUpperC c || isLowerC c

/-- Pattern 2: `/^(?:Section|Article|Clause)\s+[0-9A-ZIVX]+\.?\s*([^\n.]+)?(?:\n|\.|$)/i`. -/
def phH3 : Regex :=
  seqs [altList [litCI "Section", litCI "Article", litCI "Clause"], wsPlus,
    .rep secIdC 1 none false, .alt dotLit .eps, wsStar,
    .alt (.grp 1 (.rep notNlDotC 1 none false)) .eps,
    altList [nlC, dotLit, .eos]]

/-- Pattern 3: `/^([A-Z\s]{4,})(?:\n|$)/`. -/
def phH4 : Regex :=
  seqs [.grp 1 (.rep upperWsC 4 none false), .alt nlC .eos]

structure ParsedHeader where
  title : Str          -- `[]` models `null`
  text : Str
deriving DecidableEq, Repr

def parseHeaderTry1 (block : Str) : Option Str :=
  (mat phH1 block 0).head?.map (fun jc => cleanTitle (capSlice jc.2 2 block))

def parseHeaderTry2 (block : Str) : Option Str :=
  (mat phH2 block 0).head?.bind (fun jc =>
    let potTitle := jsTrim (capSlice jc.2 2 block)
    if 2 < potTitle.length ∧ potTitle.length < 100 then some (cleanTitle potTitle)
    else none)

def parseHeaderTry3 (block : Str) : Option Str :=
  (mat phH3 block 0).head?.bind (fun jc =>
    match capGet jc.2 1 with
    | none => none            -- `sectionMatch[1]` undefined
    | some ab =>
      let potTitle := jsTrim (slice ab.1 ab.2 block)
      if 2 < potTitle.length ∧ potTitle.length < 100 then some (cleanTitle potTitle)
      else none)

def parseHeaderTry4 (block : Str) : Option Str :=
  (mat phH4 block 0).head?.map (fun jc => cleanTitle (capSlice jc.2 1 block))

/-- `parseHeader`: the fall-through chain of the source (a pattern whose
guard fails falls through to the next pattern). -/
def parseHeader (block : Str) : ParsedHeader :=
  match parseHeaderTry1 block with
  | some t => { title := t, text := block }
  | none =>
  match parseHeaderTry2 block with
  | some t => { title := t, text := block }
  | none =>
  match parseHeaderTry3 block with
  | some t => { title := t, text := block }
  | none =>
  match parseHeaderTry4 block with
  | some t => { title := t, text := block }
  | none => { title := [], text := block }

/-! ## `extractSubclausesFromMiscellaneous` (source lines 414–492) -/

/-- `[\s.:]`. -/
def wsDotColonC (c : Nat) : Bool := jsWs c || c == 46 || c == 58

/-- `/(?=(?:Section\s+)?\d+\.\d+[\s.:])/gi`. -/
def sectionDecimalSplitRe : Regex :=
  .look (seqs [.alt (.seq (litCI "Section") wsPlus) .eps,
    digitsP, dotLit, digitsP, .cls wsDotColonC]) true

/-- `[a-z0-9]` under the `i` flag. -/
def parenIdC (c : Nat) : Bool := isLowerC c || isUpperC c || isDigitC c

/-- `/(?=\([a-z0-9]\)\s+)/gi`. -/
def parenSplitRe : Regex :=
  .look (seqs [chCls '(', .cls parenIdC, chCls ')', wsPlus]) true

/-- `/\n\s*\n/` (a consuming split pattern). -/
def blankSplitRe : Regex := seqs [nlC, wsStar, nlC]

/-- `/^(?:Section\s+)?(\d+\.\d+)[\s.:]+(.+)$/si`. -/
def subRefRe : Regex :=
  seqs [.alt (.seq (litCI "Section") wsPlus) .eps,
    .grp 1 (seqs [digitsP, dotLit, digitsP]),
    .rep wsDotColonC 1 none false, .grp 2 (.rep anyC 1 none false), .eos]

/-- The loop body of `extractSubclausesFromMiscellaneous` for one
sub-block: length guard, keyword detection, repository fallback, and the
emitted record. -/
def miscSubClause (parentClauseNo : Str) (repositoryClauses : List Clause)
    (subBlock : Str) : List ExtractedClause :=
  let trimmedSub := jsTrim subBlock
  if trimmedSub.length < 30 then []
  else
    let detected := detectMiscellaneousSubclauseType trimmedSub
    let subclauseType :=
      if detected = [] ∧ 0 < repositoryClauses.length then
        match findBestClauseTypeMatch trimmedSub repositoryClauses (12/100) with
        | some repoMatch =>
          if (3/20 : ℚ) < repoMatch.score then repoMatch.clauseType else detected
        | none => detected
      else detected
    if subclauseType = [] then []
    else
      let subclauseText :=
        match (mat subRefRe trimmedSub 0).head? with
        | some jc => slice 0 jc.1 trimmedSub   -- `subRefMatch[0]`
        | none => trimmedSub
      [{ clause_type := subclauseType,
         clause_no := parentClauseNo,
         clause_text := normalizeText subclauseText,
         preferred_position := str "Standard legal position for " ++ subclauseType,
         party_role := str "Neutral",
         complexity := 5,
         balance := 0,
         matched_from_repository := false,
         similarity_score := 0 }]

/-- `extractSubclausesFromMiscellaneous`: re-split a catch-all block and
classify each piece (keyword detector first, then repository matching at
threshold 0.15 over the 0.12-default grouped matcher); sub-clauses inherit
the parent's `clause_no` and are never flagged as repository-matched. -/
def extractSubclausesFromMiscellaneous (parentClauseNo : Str) (blockText : Str)
    (repositoryClauses : List Clause) : List ExtractedClause :=
  let subBlocks0 := (jsSplit sectionDecimalSplitRe 0 blockText).filter
    (fun b => 20 < (jsTrim b).length)
  let subBlocks1 :=
    if subBlocks0.length < 2 then
      (jsSplit parenSplitRe 0 blockText).filter (fun b => 20 < (jsTrim b).length)
    else subBlocks0
  let subBlocks :=
    if subBlocks1.length < 2 then
      (jsSplit blankSplitRe 0 blockText).filter (fun b => 30 < (jsTrim b).length)
    else subBlocks1
  subBlocks.flatMap (miscSubClause parentClauseNo repositoryClauses)

/-! ## `extractClausesRuleBased` (source lines 541–753) -/

/-- The page-noise scrub inside the emit loop:
`/Agreement between.*Page\s+\d+\s+of\s+\d+.*\(01\/2021 v[^\)]*\)/gi` → `''`. -/
def agreementPageRe : Regex :=
  seqs [litCI "Agreement between", .rep dotC 0 none false,
    litCI "Page", wsPlus, digitsP, wsPlus, litCI "of", wsPlus, digitsP,
    .rep dotC 0 none false, chCls '(', litCI "01/2021 v",
    .rep (fun c => !(c == ch ')')) 0 none false, chCls ')']

/-- Fallback 1: `/\n\s*(?=[IVX]+\.\s+[A-Z][A-Z])/g`. -/
def romanCapsRe : Regex :=
  seqs [nlC, wsStar, .look (seqs [.rep isRomanU 1 none false, dotLit, wsPlus,
    .cls isUpperC, .cls isUpperC]) true]

/-- Fallback 2: `/\n\s*(?=(?:Section|Article|ARTICLE)\s+\d+\.)/gi`. -/
def sectionFallbackRe : Regex :=
  seqs [nlC, wsStar, .look (seqs
    [altList [litCI "Section", litCI "Article", litCI "ARTICLE"], wsPlus, digitsP, dotLit]) true]

/-- Fallback 3: `/\n\s*(?=\d+\.\s+[A-Z][A-Z])/g`. -/
def numericCapsRe : Regex :=
  seqs [nlC, wsStar, .look (seqs [digitsP, dotLit, wsPlus,
    .cls isUpperC, .cls isUpperC]) true]

/-- The hard-wired default header regex (source line 630):
`/^(I{1,3}|IV|VI{0,3}|IX|XI{0,3}|XIV|XV|XVI{0,3}|XIX|XX[IVX]*)\.\s+[A-Z]/`. -/
def defaultHeaderRe : Regex :=
  seqs [.grp 1 romanAltU, dotLit, wsPlus, .cls isUpperC]

/-- `t.split('\n')[0]`. -/
def firstLine (t : Str) : Str := t.takeWhile (fun c => c ≠ 10)

/-- `/shall|hereby|party|agreement/i.test(b)`. -/
def hasLegalMarkers (b : Str) : Bool :=
  let lower := lowerStr b
  strIncludes lower (str "shall") || strIncludes lower (str "hereby") ||
  strIncludes lower (str "party") || strIncludes lower (str "agreement")

/-- Block merging (source lines 637–652): a trimmed piece of at least 10
characters starts a new block only if its first line matches the main
header regex (or no block exists yet); otherwise it is appended to the
previous block after a blank line. -/
def mergeBlocks (mainHeaderRegex : Regex) (initialBlocks : List Str) : List Str :=
  initialBlocks.foldl (fun blocks block =>
    let trimmed := jsTrim block
    if trimmed.length < 10 then blocks
    else
      let isMainSection := testA mainHeaderRegex (firstLine trimmed)
      if isMainSection ∨ blocks.length = 0 then blocks ++ [trimmed]
      else blocks.dropLast ++ [(blocks.getLast?.getD []) ++ (10 :: 10 :: trimmed)]) []

def mkExtracted (detectedType clause_no body_text : Str) (matched : Bool) (score : ℚ) :
    ExtractedClause :=
  { clause_type := detectedType,
    clause_no := clause_no,
    clause_text := normalizeText body_text,
    preferred_position := str "Standard legal position for " ++ detectedType,
    party_role := str "Neutral",
    complexity := 5,
    balance := 0,
    matched_from_repository := matched,
    similarity_score := score }

/-- Classification and emission for one cleaned block (the body of the emit
loop after the length and dedup guards, source lines 667–749).  `none`
means the block resolves to no type and is dropped (and not recorded in
the seen-set); `some` carries the emitted clauses. -/
def blockClauses (repositoryClauses : List Clause) (cleanedBlock : Str) :
    Option (List ExtractedClause) :=
  let pcn := parseClauseNumber cleanedBlock
  let ph := parseHeader cleanedBlock
  let detected0 := if ph.title = [] then detectClauseType cleanedBlock else ph.title
  let repoStep : Str × Bool × ℚ :=
    if 0 < repositoryClauses.length then
      match findBestClauseTypeMatch cleanedBlock repositoryClauses (12/100) with
      | some repoMatch =>
        if detected0 = [] ∨ detected0 = str "General Clause"
            ∨ (1/5 : ℚ) < repoMatch.score then
          (repoMatch.clauseType, true, repoMatch.score)
        else (detected0, false, 0)
      | none => (detected0, false, 0)
    else (detected0, false, 0)
  let detectedType :=
    if repoStep.1 = [] ∧ (100 < cleanedBlock.length ∨ hasLegalMarkers cleanedBlock) then
      str "General Clause"
    else repoStep.1
  if detectedType = [] then none
  else if isMiscellaneousOrGeneralSection pcn.clause_no then
    let extractedSubclauses :=
      extractSubclausesFromMiscellaneous pcn.clause_no cleanedBlock repositoryClauses
    if 0 < extractedSubclauses.length then some extractedSubclauses
    else some [mkExtracted detectedType pcn.clause_no pcn.body_text repoStep.2.1 repoStep.2.2]
  else some [mkExtracted detectedType pcn.clause_no pcn.body_text repoStep.2.1 repoStep.2.2]

/-- The emit loop (source lines 656–750) with its seen-set. -/
def emitLoop (repositoryClauses : List Clause) :
    List Str → List Str → List ExtractedClause
  | [], _ => []
  | block :: rest, seenTexts =>
    let trimmedBlock := jsTrim block
    if trimmedBlock.length < 30 then emitLoop repositoryClauses rest seenTexts
    else if trimmedBlock ∈ seenTexts then emitLoop repositoryClauses rest seenTexts
    else
      let cleanedBlock := jsTrim (replaceAll agreementPageRe [] trimmedBlock)
      if cleanedBlock.length < 20 then emitLoop repositoryClauses rest seenTexts
      else
        match blockClauses repositoryClauses cleanedBlock with
        | none => emitLoop repositoryClauses rest seenTexts
        | some emitted =>
          emitted ++ emitLoop repositoryClauses rest (trimmedBlock :: seenTexts)

/-- The emit loop instrumented with the source block text of each emission
(used to state the dedup invariant); `emitLoop` is its flattening. -/
def emitLoopSrc (repositoryClauses : List Clause) :
    List Str → List Str → List (Str × List ExtractedClause)
  | [], _ => []
  | block :: rest, seenTexts =>
    let trimmedBlock := jsTrim block
    if trimmedBlock.length < 30 then emitLoopSrc repositoryClauses rest seenTexts
    else if trimmedBlock ∈ seenTexts then emitLoopSrc repositoryClauses rest seenTexts
    else
      let cleanedBlock := jsTrim (replaceAll agreementPageRe [] trimmedBlock)
      if cleanedBlock.length < 20 then emitLoopSrc repositoryClauses rest seenTexts
      else
        match blockClauses repositoryClauses cleanedBlock with
        | none => emitLoopSrc repositoryClauses rest seenTexts
        | some emitted =>
          (trimmedBlock, emitted)
            :: emitLoopSrc repositoryClauses rest (trimmedBlock :: seenTexts)

/-- Schema selection (source lines 559–575): a caller-supplied schema other
than `"none"` yields its registry entries; otherwise auto-detection.  The
triple is (split regex, header regex from the user schema, schema type). -/
def selectSchema (cleanedText : Str) (userSchema : Option NumberingSchema) :
    Option Regex × Option Regex × Str :=
  match userSchema with
  | some us =>
    if us.mainClause ≠ str "none" then
      (getSchemaSplitRegex us.mainClause, getSchemaRegex us.mainClause, us.mainClause)
    else
      let detected := detectNumberingSchema cleanedText
      (some detected.1, none, detected.2)
  | none =>
    let detected := detectNumberingSchema cleanedText
    (some detected.1, none, detected.2)

/-- Preamble dropping (source lines 583–593): when a user header regex is
available and the split yielded more than one piece whose first piece does
not start with a main-clause header, the first piece is removed. -/
def dropPreamble (mainHeaderRegex0 : Option Regex) (initialBlocks : List Str) : List Str :=
  match mainHeaderRegex0 with
  | some hr =>
    if 1 < initialBlocks.length ∧
        ¬ testA hr (firstLine (jsTrim initialBlocks.headI)) = true then
      initialBlocks.tail
    else initialBlocks
  | none => initialBlocks

/-- Alternative-pattern fallback (source lines 596–626): when fewer than 3
blocks, retry roman-caps, Section/Article, then numeric-caps splits and
keep the first that yields at least 3 pieces. -/
def fallbackSplit (cleanedText : Str) (initialBlocks : List Str) (schemaType : Str) :
    List Str × Str :=
  if initialBlocks.length < 3 then
    let altBlocks1 := jsSplit romanCapsRe 0 cleanedText
    if 3 ≤ altBlocks1.length then (altBlocks1, str "roman-upper")
    else
      let altBlocks2 := jsSplit sectionFallbackRe 0 cleanedText
      if 3 ≤ altBlocks2.length then (altBlocks2, str "section")
      else
        let altBlocks3 := jsSplit numericCapsRe 0 cleanedText
        if 3 ≤ altBlocks3.length then (altBlocks3, str "numeric")
        else (initialBlocks, schemaType)
  else (initialBlocks, schemaType)

/-- The segmentation pipeline of `extractClausesRuleBased` (everything
before the emit loop): page-number removal, schema selection, splitting,
preamble dropping, the alternative-pattern fallback, and block merging. -/
def extractPipelineBlocks (documentText : Str) (userSchema : Option NumberingSchema) :
    List Str :=
  let cleanedText := removePageNumbers documentText
  let sel := selectSchema cleanedText userSchema
  let initialBlocks0 : List Str :=
    match sel.1 with
    | some r => jsSplit r (countGroups r) cleanedText
    | none => []
  let initialBlocks1 := dropPreamble sel.2.1 initialBlocks0
  let fb := fallbackSplit cleanedText initialBlocks1 sel.2.2
  let mainHeaderRegex :=
    match sel.2.1 with
    | some hr => hr
    | none => (getSchemaRegex fb.2).getD defaultHeaderRe
  mergeBlocks mainHeaderRegex fb.1

/-- `extractClausesRuleBased`: the rule-based extraction engine. -/
def extractClausesRuleBased (documentText : Str) (repositoryClauses : List Clause)
    (userSchema : Option NumberingSchema) : List ExtractedClause :=
  emitLoop repositoryClauses (extractPipelineBlocks documentText userSchema) []

/-- The extraction engine instrumented with the source block text of each
emission (same pipeline, instrumented emit loop). -/
def extractClausesSrc (documentText : Str) (repositoryClauses : List Clause)
    (userSchema : Option NumberingSchema) : List (Str × List ExtractedClause) :=
  emitLoopSrc repositoryClauses (extractPipelineBlocks documentText userSchema) []

/-! ## Concrete inputs used by the claim theorems and witnesses -/

/-- The spec's Scenario A document (claim C1). -/
def c1Doc : Str :=
  str "1. INDEMNITY. Each party shall indemnify the other.\n2. TERM. This agreement lasts one year."

/-- A `{mainClause: "numeric"}` caller-supplied schema. -/
def numericSchema : NumberingSchema :=
  { mainClause := str "numeric", subClause1 := str "none", subClause2 := str "none" }

/-- Two numbered clauses with distinct headers but identical bodies (claim C2). -/
def c2Doc : Str :=
  str "1. INDEMNITY. Each party shall indemnify the other.\n2. INDEMNITY. Each party shall indemnify the other."

/-- A document with a preamble ahead of two auto-detectable numeric
headers (claim C3 counterexample, exercising the auto-detection path). -/
def c3Doc : Str :=
  str "The parties to this deal wrote this preamble.\n1. INDEMNITY AB.\n2. CONFIDENTIAL AB."

/-- A document with a preamble ahead of three numeric clauses (claim C3
witness, exercising the caller-supplied-schema path). -/
def c3WitnessDoc : Str :=
  str "Some preamble here with words.\n1. INDEMNITY DUTY. Each party shall indemnify the other side.\n2. CONFIDENTIAL AB.\n3. TERMINATION CC."

/-- A catch-all block with two parenthetical sub-clauses (claim C7 witness). -/
def c7Block : Str :=
  str "(a) This Agreement shall be governed by the laws of Delaware without regard to conflicts. (b) Any notice shall be given in writing to the parties."

/-- A catch-all block with two keyword-classifiable sub-clauses (claim C9
witness). -/
def c9Block : Str :=
  str "(a) Any amendment to this contract must be signed by both sides to take effect. (b) The parties may execute this contract in any number of counterparts."

/-- A single-clause document (claim C5 witness). -/
def c5Doc : Str :=
  str "1. INDEMNITY. Each party shall fully indemnify the other side against losses."

/-- A candidate text for the similarity-bound witness (claim C6). -/
def c6Text : Str :=
  str "The receiving party shall keep all disclosed information strictly confidential at all times."

/-- The split and header regexes of the `numeric` schema, extracted from
the registry (claim C3 witness). -/
def c3wSr : Regex := (getSchemaSplitRegex (str "numeric")).getD .eps

def c3wHr : Regex := (getSchemaRegex (str "numeric")).getD .eps

/-! ## Whitespace-span metrics (for the short-document analysis) -/

def allWs (s : Str) : Bool := s.all jsWs

/-- Length after dropping trailing whitespace only. -/
def tlen (s : Str) : Nat := (jsTrimR s).length

/-- Length of the trimmed string. -/
def span (s : Str) : Nat := (jsTrim s).length

/-- Conditions under which replacing a match `u` by `v` cannot extend the
trimmed span: `v` is no longer than `u` and is (1) all whitespace, (2) the
match's own first character followed by whitespace, or (3) whitespace
followed by a suffix of the match, no longer than the replaced prefix. -/
def RepCond (u v : Str) : Prop :=
  (v.length ≤ u.length ∧ ∀ c ∈ v, jsWs c = true)
  ∨ (∃ c u2 v2, u = c :: u2 ∧ v = c :: v2 ∧ jsWs c = false
      ∧ v2.length ≤ u2.length ∧ ∀ d ∈ v2, jsWs d = true)
  ∨ (∃ w p z, u = p ++ z ∧ v = w ++ z ∧ w.length ≤ p.length ∧ ∀ d ∈ w, jsWs d = true)

/-- No two adjacent regular spaces (the fixed points of `collapseSp`). -/
def noSS : Str → Bool
  | [] => true
  | [_] => true
  | a :: b :: t => !(a == 32 && b == 32) && noSS (b :: t)

/-- The head, when it exists, is not whitespace. -/
def headOk (s : Str) : Prop := ∀ c ∈ s.head?, jsWs c = false

/-- The last character, when it exists, is not whitespace. -/
def lastOk (s : Str) : Prop := ∀ c ∈ s.getLast?, jsWs c = false

/-- Drop trailing empty lines. -/
def dropER (ls : List Str) : List Str := (ls.reverse.dropWhile List.isEmpty).reverse

/-! ## Elementary facts about the normalization pipeline -/

theorem normChar_32 : normChar 32 = 32 := by simp [normChar, normWsChar]

theorem normChar_10 : normChar 10 = 10 := by simp [normChar, normWsChar]

theorem normChar_idem (c : Nat) : normChar (normChar c) = normChar c := by
  by_cases h : normWsChar c = true
  · have h1 : normChar c = 32 := by simp [normChar, h]
    rw [h1, normChar_32]
  · have h1 : normChar c = c := by simp [normChar, h]
    rw [h1, h1]

theorem jsWs_of_normWsChar {c : Nat} (h : normWsChar c = true) : jsWs c = true := by
  unfold normWsChar at h
  unfold jsWs
  simp only [Bool.or_eq_true, Bool.and_eq_true, beq_iff_eq, decide_eq_true_eq, ne_eq] at h ⊢
  omega

theorem jsWs_10 : jsWs 10 = true := by simp [jsWs]

theorem jsWs_32 : jsWs 32 = true := by simp [jsWs]

theorem collapseSp_nil : collapseSp [] = [] := rfl

theorem collapseSp_one (c : Nat) : collapseSp [c] = [c] := rfl

/-- Equation lemma for `collapseSp` on two-or-more element lists. -/
theorem collapseSp_cons2 (a b : Nat) (t : Str) :
    collapseSp (a :: b :: t) =
      if a == 32 && b == 32 then collapseSp (a :: t) else a :: collapseSp (b :: t) := by
  rfl

theorem splitNl_ne_nil : ∀ s : Str, splitNl s ≠ []
  | [] => by simp [splitNl]
  | c :: t => by
    unfold splitNl
    by_cases h : c = 10 <;> simp [h]

/-- Equation lemma for `splitNl` on a newline. -/
theorem splitNl_cons_10 (t : Str) : splitNl (10 :: t) = [] :: splitNl t := by
  rw [splitNl]
  simp

/-- Equation lemma for `splitNl` in the non-newline case. -/
theorem splitNl_cons_ne {c : Nat} (t : Str) (h : c ≠ 10) {l0 : Str} {rest : List Str}
    (hsp : splitNl t = l0 :: rest) : splitNl (c :: t) = (c :: l0) :: rest := by
  rw [splitNl]
  simp [h, hsp]

/-! ### Character-membership lemmas: which characters survive each stage -/

theorem mem_collapseSp_sub : ∀ s : Str, ∀ c ∈ collapseSp s, c ∈ s
  | [], c, h => by simp [collapseSp_nil] at h
  | [a], c, h => by simpa [collapseSp_one] using h
  | a :: b :: t, c, h => by
    rw [collapseSp_cons2] at h
    by_cases hab : (a == 32 && b == 32) = true
    · rw [if_pos hab] at h
      have := mem_collapseSp_sub (a :: t) c h
      simp only [List.mem_cons] at this ⊢
      tauto
    · rw [if_neg hab] at h
      rcases List.mem_cons.mp h with h | h
      · simp [h]
      · have := mem_collapseSp_sub (b :: t) c h
        simp only [List.mem_cons] at this ⊢
        tauto

theorem mem_jsTrimL_sub {s : Str} {c : Nat} (h : c ∈ jsTrimL s) : c ∈ s :=
  (List.dropWhile_sublist (l := s) (p := jsWs)).subset h

theorem mem_jsTrimR_sub {s : Str} {c : Nat} (h : c ∈ jsTrimR s) : c ∈ s := by
  unfold jsTrimR at h
  rw [List.mem_reverse] at h
  have := (List.dropWhile_sublist (l := s.reverse) (p := jsWs)).subset h
  rwa [List.mem_reverse] at this

theorem mem_jsTrim_sub {s : Str} {c : Nat} (h : c ∈ jsTrim s) : c ∈ s :=
  mem_jsTrimR_sub (mem_jsTrimL_sub h)

theorem mem_splitNl_sub : ∀ s : Str, ∀ l ∈ splitNl s, ∀ c ∈ l, c ∈ s := by
  intro s
  induction s with
  | nil =>
    intro l hl c hc
    simp only [splitNl, List.mem_singleton] at hl
    simp [hl] at hc
  | cons a t ih =>
    intro l hl c hc
    by_cases ha : a = 10
    · subst ha
      rw [splitNl_cons_10] at hl
      rcases List.mem_cons.mp hl with hl | hl
      · simp [hl] at hc
      · exact List.mem_cons_of_mem _ (ih l hl c hc)
    · rcases hsp : splitNl t with _ | ⟨l0, ls⟩
      · exact absurd hsp (splitNl_ne_nil t)
      · rw [splitNl_cons_ne t ha hsp] at hl
        rcases List.mem_cons.mp hl with hl | hl
        · subst hl
          rcases List.mem_cons.mp hc with hc | hc
          · simp [hc]
          · exact List.mem_cons_of_mem _ (ih l0 (by rw [hsp]; exact List.mem_cons_self _ _) c hc)
        · exact List.mem_cons_of_mem _ (ih l (by rw [hsp]; exact List.mem_cons_of_mem _ hl) c hc)

theorem mem_joinNl : ∀ ls : List Str, ∀ c ∈ joinNl ls, c = 10 ∨ ∃ l ∈ ls, c ∈ l
  | [], c, h => by simp [joinNl] at h
  | [l], c, h => by
    simp only [joinNl] at h
    exact Or.inr ⟨l, List.mem_singleton_self l, h⟩
  | l :: l' :: ls, c, h => by
    rw [show joinNl (l :: l' :: ls) = l ++ 10 :: joinNl (l' :: ls) from rfl] at h
    rcases List.mem_append.mp h with h | h
    · exact Or.inr ⟨l, List.mem_cons_self _ _, h⟩
    · rcases List.mem_cons.mp h with h | h
      · exact Or.inl h
      · rcases mem_joinNl (l' :: ls) c h with h10 | ⟨l2, hl2, hc2⟩
        · exact Or.inl h10
        · exact Or.inr ⟨l2, List.mem_cons_of_mem _ hl2, hc2⟩

theorem normalizeText_chars {s : Str} : ∀ c ∈ normalizeText s, normChar c = c := by
  intro c hc
  unfold normalizeText at hc
  by_cases hs : s = []
  · simp [hs] at hc
  · simp only [hs, if_false] at hc
    have h1 := mem_jsTrim_sub hc
    rcases mem_joinNl _ _ h1 with h10 | ⟨l, hl, hcl⟩
    · rw [h10]; exact normChar_10
    · rcases List.mem_map.mp hl with ⟨l0, hl0, rfl⟩
      have h2 := mem_jsTrim_sub hcl
      have h3 := mem_splitNl_sub _ l0 hl0 c h2
      have h4 := mem_collapseSp_sub _ c h3
      rcases List.mem_map.mp h4 with ⟨d, _, rfl⟩
      exact normChar_idem d

/-! ### No-double-space predicate -/

theorem bnot_true_of_ne {x : Bool} (h : ¬ x = true) : (!x) = true := by
  cases x <;> simp_all

theorem ne_of_bnot_true {x : Bool} (h : (!x) = true) : ¬ x = true := by
  cases x <;> simp_all

theorem noSS_cons2 (a b : Nat) (t : Str) :
    noSS (a :: b :: t) = (!(a == 32 && b == 32) && noSS (b :: t)) := by
  rw [noSS]

theorem noSS_tail {a : Nat} {t : Str} (h : noSS (a :: t) = true) : noSS t = true := by
  cases t with
  | nil => simp [noSS]
  | cons b t' =>
    rw [noSS_cons2] at h
    exact (Bool.and_elim_right h)

theorem noSS_append_right : ∀ a b : Str, noSS (a ++ b) = true → noSS b = true
  | [], _, h => h
  | _ :: a', b, h => noSS_append_right a' b (noSS_tail h)

theorem noSS_append_left : ∀ a b : Str, noSS (a ++ b) = true → noSS a = true
  | [], _, _ => by simp [noSS]
  | [x], _, _ => by simp [noSS]
  | x :: y :: a', b, h => by
    rw [show (x :: y :: a') ++ b = x :: y :: (a' ++ b) from rfl, noSS_cons2] at h
    rw [noSS_cons2]
    exact Bool.and_intro (Bool.and_elim_left h)
      (noSS_append_left (y :: a') b (Bool.and_elim_right h))

theorem noSS_of_suffix {a b : Str} (h : a <:+ b) (hb : noSS b = true) : noSS a = true := by
  rcases h with ⟨t, rfl⟩
  exact noSS_append_right t a hb

theorem noSS_of_prefix {a b : Str} (h : a <+: b) (hb : noSS b = true) : noSS a = true := by
  rcases h with ⟨t, rfl⟩
  exact noSS_append_left a t hb

theorem noSS_of_infix {a b : Str} (h : a <:+: b) (hb : noSS b = true) : noSS a = true := by
  rcases h with ⟨t, u, rfl⟩
  rw [List.append_assoc] at hb
  exact noSS_of_prefix ⟨u, rfl⟩ (noSS_append_right t (a ++ u) hb)

theorem collapseSp_noSS : ∀ s : Str, noSS (collapseSp s) = true
  | [] => by simp [collapseSp_nil, noSS]
  | [c] => by simp [collapseSp_one, noSS]
  | a :: b :: t => by
    rw [collapseSp_cons2]
    by_cases hab : (a == 32 && b == 32) = true
    · rw [if_pos hab]
      exact collapseSp_noSS (a :: t)
    · rw [if_neg hab]
      have ht := collapseSp_noSS (b :: t)
      rcases hcb : collapseSp (b :: t) with _ | ⟨d, u⟩
      · simp [noSS]
      · rw [noSS_cons2]
        refine Bool.and_intro ?_ (by rw [← hcb]; exact ht)
        -- the head of `collapseSp (b :: t)` is `b` itself
        have hd : d = b := by
          rcases t with _ | ⟨e, t'⟩
          · simp [collapseSp_one] at hcb
            exact hcb.1.symm
          · rw [collapseSp_cons2] at hcb
            by_cases hbe : (b == 32 && e == 32) = true
            · rw [if_pos hbe] at hcb
              -- collapseSp (b :: t') again starts with b; recurse via a helper
              have := collapseSp_head (b) t'
              rw [hcb] at this
              simpa using this
            · rw [if_neg hbe] at hcb
              exact (List.cons.injEq _ _ _ _ ▸ hcb).1.symm
        subst hd
        -- if a and d were both spaces the first branch would have been taken
        exact bnot_true_of_ne hab
  where
    /-- `collapseSp` never changes the head character. -/
    collapseSp_head : ∀ (b : Nat) (t : Str), (collapseSp (b :: t)).headI = b
      | b, [] => by simp [collapseSp_one]
      | b, e :: t' => by
        rw [collapseSp_cons2]
        by_cases hbe : (b == 32 && e == 32) = true
        · rw [if_pos hbe]
          exact collapseSp_head b t'
        · rw [if_neg hbe]
          simp

theorem collapseSp_eq_self : ∀ s : Str, noSS s = true → collapseSp s = s
  | [], _ => by simp [collapseSp_nil]
  | [c], _ => by simp [collapseSp_one]
  | a :: b :: t, h => by
    rw [noSS_cons2] at h
    rw [collapseSp_cons2, if_neg (ne_of_bnot_true (Bool.and_elim_left h)),
      collapseSp_eq_self (b :: t) (Bool.and_elim_right h)]

/-! ### Trim fixed points -/

theorem headOk_nil : headOk [] := by intro c hc; simp at hc

theorem headOk_jsTrimL : ∀ s : Str, headOk (jsTrimL s)
  | [] => headOk_nil
  | c :: t => by
    unfold jsTrimL
    by_cases h : jsWs c = true
    · rw [List.dropWhile_cons_of_pos h]
      exact headOk_jsTrimL t
    · rw [List.dropWhile_cons_of_neg h]
      intro d hd
      simp only [List.head?_cons, Option.mem_some_iff] at hd
      subst hd
      exact Bool.eq_false_iff.mpr h

theorem jsTrimL_eq_self {s : Str} (h : headOk s) : jsTrimL s = s := by
  cases s with
  | nil => rfl
  | cons c t =>
    have hc : jsWs c = false := h c (by simp)
    unfold jsTrimL
    rw [List.dropWhile_cons_of_neg (by simp [hc])]

theorem lastOk_of_reverse_headOk {s : Str} (h : headOk s.reverse) : lastOk s := by
  intro c hc
  exact h c (by rwa [List.head?_reverse])

theorem lastOk_jsTrimR (s : Str) : lastOk (jsTrimR s) := by
  apply lastOk_of_reverse_headOk
  unfold jsTrimR
  rw [List.reverse_reverse]
  exact headOk_jsTrimL s.reverse

theorem jsTrimR_eq_self {s : Str} (h : lastOk s) : jsTrimR s = s := by
  show (jsTrimL s.reverse).reverse = s
  rw [jsTrimL_eq_self (s := s.reverse) ?_, List.reverse_reverse]
  intro c hc
  rw [List.head?_reverse] at hc
  exact h c hc

/-- `jsTrimL` is a suffix of the input. -/
theorem jsTrimL_suffix (s : Str) : jsTrimL s <:+ s := List.dropWhile_suffix jsWs

/-- `jsTrimR` is a prefix of the input. -/
theorem jsTrimR_front (s : Str) : jsTrimR s <+: s := by
  unfold jsTrimR
  rcases List.dropWhile_suffix (l := s.reverse) jsWs with ⟨t, ht⟩
  refine ⟨t.reverse, ?_⟩
  rw [← List.reverse_append, ht, List.reverse_reverse]

theorem jsTrim_within (s : Str) : jsTrim s <:+: s :=
  List.IsInfix.trans ((jsTrimL_suffix (jsTrimR s)).isInfix)
    ((jsTrimR_front s).isInfix)

theorem lastOk_jsTrimL {s : Str} (h : lastOk s) : lastOk (jsTrimL s) := by
  rcases jsTrimL_suffix s with ⟨t, ht⟩
  intro c hc
  rcases hn : jsTrimL s with _ | ⟨d, u⟩
  · rw [hn] at hc; simp at hc
  · apply h c
    rw [← ht, List.getLast?_append_of_ne_nil t (by rw [hn]; simp), hn]
    rwa [hn] at hc

theorem headOk_jsTrimR {s : Str} (h : headOk s) : headOk (jsTrimR s) := by
  rcases jsTrimR_front s with ⟨t, ht⟩
  intro c hc
  rcases hn : jsTrimR s with _ | ⟨d, u⟩
  · rw [hn] at hc; simp at hc
  · apply h c
    rw [← ht, hn]
    rw [hn] at hc
    simpa using hc

theorem headOk_jsTrim (s : Str) : headOk (jsTrim s) := headOk_jsTrimL _

theorem lastOk_jsTrim (s : Str) : lastOk (jsTrim s) := lastOk_jsTrimL (lastOk_jsTrimR s)

theorem jsTrim_eq_self {s : Str} (h1 : headOk s) (h2 : lastOk s) : jsTrim s = s := by
  unfold jsTrim
  rw [jsTrimR_eq_self h2, jsTrimL_eq_self h1]

theorem jsTrim_idem (s : Str) : jsTrim (jsTrim s) = jsTrim s :=
  jsTrim_eq_self (headOk_jsTrim s) (lastOk_jsTrim s)

/-! ### `noSS` through the line stages -/

theorem prefix_cons {c : Nat} {a b : Str} (h : a <+: b) : (c :: a) <+: (c :: b) := by
  rcases h with ⟨u, rfl⟩
  exact ⟨u, rfl⟩

theorem splitNl_head_front : ∀ t : Str, ∀ {l0 : Str} {rest : List Str},
    splitNl t = l0 :: rest → l0 <+: t
  | [], l0, rest, h => by
    simp only [splitNl] at h
    injection h with h1 _
    rw [← h1]
  | c :: t', l0, rest, h => by
    by_cases hc : c = 10
    · subst hc
      rw [splitNl_cons_10] at h
      injection h with h1 _
      rw [← h1]
      exact List.nil_prefix
    · rcases hsp : splitNl t' with _ | ⟨m0, mrest⟩
      · exact absurd hsp (splitNl_ne_nil t')
      · rw [splitNl_cons_ne t' hc hsp] at h
        injection h with h1 _
        rw [← h1]
        exact prefix_cons (splitNl_head_front t' hsp)

theorem noSS_splitNl : ∀ s : Str, noSS s = true → ∀ l ∈ splitNl s, noSS l = true
  | [], _, l, hl => by
    simp only [splitNl, List.mem_singleton] at hl
    simp [hl, noSS]
  | c :: t, h, l, hl => by
    by_cases hc : c = 10
    · subst hc
      rw [splitNl_cons_10] at hl
      rcases List.mem_cons.mp hl with hl | hl
      · simp [hl, noSS]
      · exact noSS_splitNl t (noSS_tail h) l hl
    · rcases hsp : splitNl t with _ | ⟨l0, rest⟩
      · exact absurd hsp (splitNl_ne_nil t)
      · rw [splitNl_cons_ne t hc hsp] at hl
        rcases List.mem_cons.mp hl with hl | hl
        · subst hl
          exact noSS_of_prefix (prefix_cons (splitNl_head_front t hsp)) h
        · exact noSS_splitNl t (noSS_tail h) l
            (by rw [hsp]; exact List.mem_cons_of_mem _ hl)

theorem noSS_cons_10 {b : Str} (hb : noSS b = true) : noSS (10 :: b) = true := by
  cases b with
  | nil => simp [noSS]
  | cons x b' =>
    rw [noSS_cons2]
    refine Bool.and_intro ?_ hb
    simp

theorem noSS_append_sep : ∀ a : Str, ∀ b : Str, noSS a = true → noSS b = true →
    noSS (a ++ 10 :: b) = true
  | [], b, _, hb => noSS_cons_10 hb
  | [x], b, _, hb => by
    rw [List.singleton_append, noSS_cons2]
    refine Bool.and_intro ?_ (noSS_cons_10 hb)
    simp
  | x :: y :: a', b, ha, hb => by
    rw [show (x :: y :: a') ++ 10 :: b = x :: y :: (a' ++ 10 :: b) from rfl, noSS_cons2]
    rw [noSS_cons2] at ha
    exact Bool.and_intro (Bool.and_elim_left ha)
      (noSS_append_sep (y :: a') b (Bool.and_elim_right ha) hb)

theorem noSS_joinNl : ∀ ls : List Str, (∀ l ∈ ls, noSS l = true) → noSS (joinNl ls) = true
  | [], _ => by simp [joinNl, noSS]
  | [l], h => by
    simpa [joinNl] using h l (List.mem_singleton_self l)
  | l :: l' :: ls, h => by
    rw [show joinNl (l :: l' :: ls) = l ++ 10 :: joinNl (l' :: ls) from rfl]
    exact noSS_append_sep l _ (h l (List.mem_cons_self _ _))
      (noSS_joinNl (l' :: ls) (fun m hm => h m (List.mem_cons_of_mem _ hm)))

theorem noSS_jsTrim {s : Str} (h : noSS s = true) : noSS (jsTrim s) = true :=
  noSS_of_infix (jsTrim_within s) h

/-! ### Split/join round trips -/

theorem joinNl_cons_ne_nil {l : Str} {t : List Str} (h : t ≠ []) :
    joinNl (l :: t) = l ++ 10 :: joinNl t := by
  cases t with
  | nil => exact absurd rfl h
  | cons _ _ => rfl

theorem joinNl_splitNl : ∀ s : Str, joinNl (splitNl s) = s
  | [] => rfl
  | c :: t => by
    by_cases hc : c = 10
    · subst hc
      rw [splitNl_cons_10, joinNl_cons_ne_nil (splitNl_ne_nil t), List.nil_append,
        joinNl_splitNl t]
    · rcases hsp : splitNl t with _ | ⟨l0, rest⟩
      · exact absurd hsp (splitNl_ne_nil t)
      · rw [splitNl_cons_ne t hc hsp]
        have hj : joinNl (l0 :: rest) = t := by rw [← hsp]; exact joinNl_splitNl t
        cases rest with
        | nil =>
          simp only [joinNl] at hj ⊢
          rw [hj]
        | cons r rs =>
          rw [joinNl_cons_ne_nil (by simp)] at hj ⊢
          rw [List.cons_append, hj]

theorem splitNl_no10 : ∀ s : Str, ∀ l ∈ splitNl s, (10 : Nat) ∉ l
  | [], l, hl => by
    simp only [splitNl, List.mem_singleton] at hl
    simp [hl]
  | c :: t, l, hl => by
    by_cases hc : c = 10
    · subst hc
      rw [splitNl_cons_10] at hl
      rcases List.mem_cons.mp hl with hl | hl
      · simp [hl]
      · exact splitNl_no10 t l hl
    · rcases hsp : splitNl t with _ | ⟨l0, rest⟩
      · exact absurd hsp (splitNl_ne_nil t)
      · rw [splitNl_cons_ne t hc hsp] at hl
        rcases List.mem_cons.mp hl with hl | hl
        · subst hl
          intro hmem
          rcases List.mem_cons.mp hmem with h10 | h10
          · exact hc h10.symm
          · exact splitNl_no10 t l0 (by rw [hsp]; exact List.mem_cons_self _ _) h10
        · exact splitNl_no10 t l (by rw [hsp]; exact List.mem_cons_of_mem _ hl)

theorem splitNl_of_no10 : ∀ l : Str, (10 : Nat) ∉ l → splitNl l = [l]
  | [], _ => rfl
  | c :: t, h => by
    have hc : c ≠ 10 := fun hh => h (by simp [hh])
    have ht := splitNl_of_no10 t (fun hh => h (List.mem_cons_of_mem _ hh))
    rw [splitNl_cons_ne t hc ht]

theorem splitNl_append_10 : ∀ l : Str, (10 : Nat) ∉ l → ∀ x : Str,
    splitNl (l ++ 10 :: x) = l :: splitNl x
  | [], _, x => by
    rw [List.nil_append, splitNl_cons_10]
  | c :: t, h, x => by
    have hc : c ≠ 10 := fun hh => h (by simp [hh])
    have ht := splitNl_append_10 t (fun hh => h (List.mem_cons_of_mem _ hh)) x
    rw [List.cons_append, splitNl_cons_ne (t ++ 10 :: x) hc ht]

theorem splitNl_joinNl : ∀ ls : List Str, ls ≠ [] → (∀ l ∈ ls, (10 : Nat) ∉ l) →
    splitNl (joinNl ls) = ls
  | [], h, _ => absurd rfl h
  | [l], _, h10 => by
    simp only [joinNl]
    exact splitNl_of_no10 l (h10 l (List.mem_singleton_self l))
  | l :: l' :: rest, _, h10 => by
    rw [joinNl_cons_ne_nil (by simp),
      splitNl_append_10 l (h10 l (List.mem_cons_self _ _)),
      splitNl_joinNl (l' :: rest) (by simp)
        (fun m hm => h10 m (List.mem_cons_of_mem _ hm))]

/-! ### Trimming a join of trimmed lines -/

theorem jsTrimL_joinNl : ∀ ls : List Str, (∀ l ∈ ls, headOk l) →
    jsTrimL (joinNl ls) = joinNl (ls.dropWhile List.isEmpty)
  | [], _ => rfl
  | l :: rest, h => by
    cases l with
    | nil =>
      rw [List.dropWhile_cons_of_pos (by simp)]
      cases rest with
      | nil => rfl
      | cons r rs =>
        rw [joinNl_cons_ne_nil (by simp), List.nil_append]
        show jsTrimL (10 :: joinNl (r :: rs)) = _
        rw [show jsTrimL (10 :: joinNl (r :: rs)) = jsTrimL (joinNl (r :: rs)) from
          List.dropWhile_cons_of_pos (by simp [jsWs_10])]
        exact jsTrimL_joinNl (r :: rs) (fun m hm => h m (List.mem_cons_of_mem _ hm))
    | cons c l' =>
      have hc : jsWs c = false := h (c :: l') (List.mem_cons_self _ _) c (by simp)
      rw [List.dropWhile_cons_of_neg (by simp)]
      cases rest with
      | nil =>
        show jsTrimL (c :: l') = _
        unfold jsTrimL
        rw [List.dropWhile_cons_of_neg (by simp [hc])]
        rfl
      | cons r rs =>
        rw [joinNl_cons_ne_nil (l := c :: l') (t := r :: rs) (by simp), List.cons_append]
        show jsTrimL (c :: (l' ++ 10 :: joinNl (r :: rs))) = _
        unfold jsTrimL
        rw [List.dropWhile_cons_of_neg (by simp [hc])]

theorem joinNl_append_single : ∀ (xs : List Str) (y : Str),
    joinNl (xs ++ [y]) = if xs = [] then y else joinNl xs ++ 10 :: y
  | [], y => by simp [joinNl]
  | [x], y => by simp [joinNl]
  | x1 :: x2 :: xs, y => by
    rw [if_neg (by simp), List.cons_append,
      joinNl_cons_ne_nil (l := x1) (t := (x2 :: xs) ++ [y]) (by simp),
      joinNl_append_single (x2 :: xs) y, if_neg (by simp),
      joinNl_cons_ne_nil (l := x1) (t := x2 :: xs) (by simp)]
    simp [List.append_assoc]

theorem joinNl_reverse : ∀ ls : List Str,
    (joinNl ls).reverse = joinNl ((ls.map List.reverse).reverse)
  | [] => rfl
  | [l] => by simp [joinNl]
  | l :: l' :: rest => by
    rw [joinNl_cons_ne_nil (by simp), List.reverse_append,
      show (10 :: joinNl (l' :: rest)).reverse = (joinNl (l' :: rest)).reverse ++ [10] by
        simp,
      joinNl_reverse (l' :: rest)]
    rw [show ((l :: l' :: rest).map List.reverse).reverse
        = ((l' :: rest).map List.reverse).reverse ++ [l.reverse] by simp,
      joinNl_append_single, if_neg (by simp), List.append_assoc]
    rfl

theorem mem_dropWhile_sub {p : Str → Bool} {ls : List Str} {l : Str}
    (h : l ∈ ls.dropWhile p) : l ∈ ls :=
  (List.dropWhile_sublist p).subset h

theorem mem_dropER_sub {ls : List Str} {l : Str} (h : l ∈ dropER ls) : l ∈ ls := by
  unfold dropER at h
  rw [List.mem_reverse] at h
  have := mem_dropWhile_sub h
  rwa [List.mem_reverse] at this

theorem jsTrimR_joinNl (ls : List Str) (h : ∀ l ∈ ls, lastOk l) :
    jsTrimR (joinNl ls) = joinNl (dropER ls) := by
  have hrev : ∀ m ∈ (ls.map List.reverse).reverse, headOk m := by
    intro m hm
    rw [List.mem_reverse, List.mem_map] at hm
    rcases hm with ⟨l, hl, rfl⟩
    intro c hc
    rw [List.head?_reverse] at hc
    exact h l hl c hc
  have key : jsTrimL ((joinNl ls).reverse) = joinNl (((dropER ls).map List.reverse).reverse) := by
    rw [joinNl_reverse ls, jsTrimL_joinNl _ hrev]
    congr 1
    unfold dropER
    have e1 : (ls.map List.reverse).reverse = ls.reverse.map List.reverse :=
      (List.map_reverse List.reverse ls).symm
    have e2 : ((ls.reverse.dropWhile List.isEmpty).reverse.map List.reverse).reverse
        = (ls.reverse.dropWhile List.isEmpty).map List.reverse := by
      rw [List.map_reverse, List.reverse_reverse]
    rw [e1, e2, List.dropWhile_map]
    have e3 : (List.isEmpty ∘ List.reverse) = (List.isEmpty (α := Nat)) := by
      funext m
      show (m.reverse).isEmpty = m.isEmpty
      cases m <;> simp
    rw [e3]
  show (jsTrimL (joinNl ls).reverse).reverse = _
  rw [key, ← joinNl_reverse (dropER ls), List.reverse_reverse]

theorem headOk_of_trimmed {l : Str} (h : jsTrim l = l) : headOk l := by
  rw [← h]; exact headOk_jsTrim l

theorem lastOk_of_trimmed {l : Str} (h : jsTrim l = l) : lastOk l := by
  rw [← h]; exact lastOk_jsTrim l

theorem jsTrim_joinNl (ls : List Str) (h : ∀ l ∈ ls, jsTrim l = l) :
    jsTrim (joinNl ls) = joinNl ((dropER ls).dropWhile List.isEmpty) := by
  unfold jsTrim
  rw [jsTrimR_joinNl ls (fun l hl => lastOk_of_trimmed (h l hl)),
    jsTrimL_joinNl _ (fun l hl => headOk_of_trimmed (h l (mem_dropER_sub hl)))]

/-- The lines of a trimmed join of trimmed, newline-free lines are trimmed. -/
theorem lines_trimmed_jsTrim_joinNl (ls : List Str)
    (htr : ∀ l ∈ ls, jsTrim l = l) (h10 : ∀ l ∈ ls, (10 : Nat) ∉ l) :
    ∀ l ∈ splitNl (jsTrim (joinNl ls)), jsTrim l = l := by
  rw [jsTrim_joinNl ls htr]
  set kept := (dropER ls).dropWhile List.isEmpty with hkept
  have hmem : ∀ l ∈ kept, l ∈ ls := fun l hl => mem_dropER_sub (mem_dropWhile_sub hl)
  rcases hk : kept with _ | ⟨k0, krest⟩
  · intro l hl
    simp only [joinNl, splitNl, List.mem_singleton] at hl
    rw [hl]
    rfl
  · rw [← hk]
    rw [splitNl_joinNl kept (by rw [hk]; simp)
      (fun l hl => h10 l (hmem l hl))]
    intro l hl
    exact htr l (hmem l hl)

/-- A string on which every stage of `normalizeText` acts as the identity. -/
theorem normalizeText_eq_self {x : Str} (h1 : ∀ c ∈ x, normChar c = c)
    (h2 : noSS x = true) (h3 : ∀ l ∈ splitNl x, jsTrim l = l) (h4 : jsTrim x = x) :
    normalizeText x = x := by
  unfold normalizeText
  by_cases hx : x = []
  · simp [hx]
  · rw [if_neg hx]
    show jsTrim (joinNl ((splitNl (collapseSp (x.map normChar))).map jsTrim)) = x
    have e1 : x.map normChar = x := by
      have := List.map_congr_left h1
      simpa using this
    have e2 : (splitNl x).map jsTrim = splitNl x := by
      have := List.map_congr_left h3
      simpa using this
    rw [e1, collapseSp_eq_self x h2, e2, joinNl_splitNl x, h4]

/-- Claim C4: `normalizeText` is idempotent. -/
theorem normalizeText_idempotent (s : Str) :
    normalizeText (normalizeText s) = normalizeText s := by
  by_cases hs : s = []
  · simp [hs, normalizeText]
  · have hform : normalizeText s
        = jsTrim (joinNl ((splitNl (collapseSp (s.map normChar))).map jsTrim)) := by
      unfold normalizeText
      rw [if_neg hs]
    set lts := (splitNl (collapseSp (s.map normChar))).map jsTrim with hlts
    have hlts_tr : ∀ l ∈ lts, jsTrim l = l := by
      intro l hl
      rcases List.mem_map.mp hl with ⟨l0, _, rfl⟩
      exact jsTrim_idem l0
    have hlts_10 : ∀ l ∈ lts, (10 : Nat) ∉ l := by
      intro l hl hmem
      rcases List.mem_map.mp hl with ⟨l0, hl0, rfl⟩
      exact splitNl_no10 _ l0 hl0 (mem_jsTrim_sub hmem)
    have hlts_noSS : ∀ l ∈ lts, noSS l = true := by
      intro l hl
      rcases List.mem_map.mp hl with ⟨l0, hl0, rfl⟩
      exact noSS_jsTrim (noSS_splitNl _ (collapseSp_noSS _) l0 hl0)
    refine normalizeText_eq_self ?_ ?_ ?_ ?_
    · exact normalizeText_chars
    · rw [hform]
      exact noSS_jsTrim (noSS_joinNl lts hlts_noSS)
    · rw [hform]
      exact lines_trimmed_jsTrim_joinNl lts hlts_tr hlts_10
    · rw [hform]
      exact jsTrim_idem _


/-! ## Claim C1 (Scenario A) -/

set_option maxRecDepth 100000

/-- Claim C1, counterexample: on Scenario A's document with the `numeric`
schema and an empty repository, the engine does *not* return
`clause_type = "General Clause"` for the second clause — the header-title
table does list a `"term"` synonym, so the claimed output is wrong. -/
theorem c1_counterexample :
    ¬ ((extractClausesRuleBased c1Doc [] (some numericSchema)).map
        (fun c => (c.clause_no, c.clause_type))
      = [(str "1. INDEMNITY", str "Indemnification"),
         (str "2. TERM", str "General Clause")]) := by
  decide

/-- Claim C1, amended: on Scenario A's document with the `numeric` schema
and an empty repository, the engine returns exactly two clauses: the first
with `clause_no = "1. INDEMNITY"` and `clause_type = "Indemnification"`,
the second with `clause_no = "2. TERM"` and `clause_type = "Termination"`
(the header-title table maps the synonym `"term"` to `"Termination"`). -/
theorem c1_amended :
    (extractClausesRuleBased c1Doc [] (some numericSchema)).map
        (fun c => (c.clause_no, c.clause_type))
      = [(str "1. INDEMNITY", str "Indemnification"),
         (str "2. TERM", str "Termination")] := by
  decide

/-! ## Claim C2 (no duplicate output text) -/

/-- Claim C2, counterexample: two blocks with distinct header numbers but
identical bodies are both emitted, with byte-identical (hence identical
after trimming) `clause_text` — the seen-set dedups on the whole trimmed
block text, not on the emitted body text. -/
theorem c2_counterexample :
    (extractClausesRuleBased c2Doc [] (some numericSchema)).map
        (fun c => jsTrim c.clause_text)
      = [str "Each party shall indemnify the other.",
         str "Each party shall indemnify the other."]
    ∧ ¬ ([str "Each party shall indemnify the other.",
          str "Each party shall indemnify the other."] : List Str).Nodup := by
  constructor
  · decide
  · decide

/-! ## Claim C3 (preamble dropping) -/

/-- Claim C3, counterexample: on `c3Doc` the schema is auto-detected, the
split yields more than one piece, and the first piece's first line does not
match the main-clause header regex — yet the engine emits that preamble
piece as a clause (`mainHeaderRegex` is still null when the drop test
runs in the auto-detection path, so the preamble is never dropped). -/
theorem c3_counterexample :
    1 < (jsSplit (detectNumberingSchema (removePageNumbers c3Doc)).1
        (countGroups (detectNumberingSchema (removePageNumbers c3Doc)).1)
        (removePageNumbers c3Doc)).length
    ∧ testA ((getSchemaRegex (detectNumberingSchema (removePageNumbers c3Doc)).2).getD
          defaultHeaderRe)
        (firstLine (jsTrim (jsSplit (detectNumberingSchema (removePageNumbers c3Doc)).1
          (countGroups (detectNumberingSchema (removePageNumbers c3Doc)).1)
          (removePageNumbers c3Doc)).headI)) = false
    ∧ (extractClausesRuleBased c3Doc [] none).map (fun c => c.clause_text)
      = [str "The parties to this deal wrote this preamble."] := by
  refine ⟨by decide, by decide, by decide⟩

/-! ## Claim C7 (miscellaneous inheritance) -/

theorem mem_ite_nil_cons {α : Type} {p : Prop} [Decidable p] {c r : α}
    (h : c ∈ (if p then ([] : List α) else [r])) : c = r := by
  by_cases hp : p
  · rw [if_pos hp] at h
    simp at h
  · rw [if_neg hp] at h
    exact List.mem_singleton.mp h

theorem miscSubClause_mem {parentClauseNo : Str} {repositoryClauses : List Clause}
    {subBlock : Str} {c : ExtractedClause}
    (hcb : c ∈ miscSubClause parentClauseNo repositoryClauses subBlock) :
    c.clause_no = parentClauseNo ∧ c.matched_from_repository = false
      ∧ c.similarity_score = 0 := by
  unfold miscSubClause at hcb
  by_cases h1 : (jsTrim subBlock).length < 30
  · rw [if_pos h1] at hcb
    simp at hcb
  · rw [if_neg h1] at hcb
    repeat' split at hcb
    all_goals try simp only [List.mem_singleton, List.not_mem_nil] at hcb
    all_goals rw [mem_ite_nil_cons hcb]
    all_goals exact ⟨rfl, rfl, rfl⟩

/-- Claim C7: every sub-clause produced by the miscellaneous-section
expander carries its parent block's parsed `clause_no`, never its own
local sub-reference. -/
theorem misc_subclause_inherits_parent_clause_no
    (parentClauseNo blockText : Str) (repositoryClauses : List Clause) :
    ∀ c ∈ extractSubclausesFromMiscellaneous parentClauseNo blockText repositoryClauses,
      c.clause_no = parentClauseNo := by
  intro c hc
  unfold extractSubclausesFromMiscellaneous at hc
  simp only [List.mem_flatMap] at hc
  obtain ⟨b, -, hcb⟩ := hc
  exact (miscSubClause_mem hcb).1

/-- Claim C7, witness: on the concrete catch-all block `c7Block` the
expander emits a first sub-clause, and its `clause_no` is the parent's. -/
theorem misc_subclause_inherits_parent_clause_no_witness :
    (extractSubclausesFromMiscellaneous (str "8. MISCELLANEOUS") c7Block []).headI
      ∈ extractSubclausesFromMiscellaneous (str "8. MISCELLANEOUS") c7Block []
    ∧ ((extractSubclausesFromMiscellaneous (str "8. MISCELLANEOUS") c7Block []).headI).clause_no
      = str "8. MISCELLANEOUS" :=
  ⟨by decide,
   misc_subclause_inherits_parent_clause_no (str "8. MISCELLANEOUS") c7Block [] _ (by decide)⟩

/-! ## Claim C9 (expander provenance fields) -/

/-- Claim C9: every clause emitted by the miscellaneous-section expander
has `matched_from_repository = false` and `similarity_score = 0`, even
when its `clause_type` was obtained from a repository match. -/
theorem misc_subclause_provenance
    (parentClauseNo blockText : Str) (repositoryClauses : List Clause) :
    ∀ c ∈ extractSubclausesFromMiscellaneous parentClauseNo blockText repositoryClauses,
      c.matched_from_repository = false ∧ c.similarity_score = 0 := by
  intro c hc
  unfold extractSubclausesFromMiscellaneous at hc
  simp only [List.mem_flatMap] at hc
  obtain ⟨b, -, hcb⟩ := hc
  exact ⟨(miscSubClause_mem hcb).2.1, (miscSubClause_mem hcb).2.2⟩

/-- Claim C9, witness: on `c9Block` the expander emits a first sub-clause
(of type `"Modification"`), and it carries `matched_from_repository =
false` and `similarity_score = 0`. -/
theorem misc_subclause_provenance_witness :
    (extractSubclausesFromMiscellaneous (str "9. GENERAL") c9Block []).headI
      ∈ extractSubclausesFromMiscellaneous (str "9. GENERAL") c9Block []
    ∧ ((extractSubclausesFromMiscellaneous (str "9. GENERAL") c9Block []).headI).clause_type
      = str "Modification"
    ∧ ((extractSubclausesFromMiscellaneous (str "9. GENERAL") c9Block []).headI).matched_from_repository
      = false
    ∧ ((extractSubclausesFromMiscellaneous (str "9. GENERAL") c9Block []).headI).similarity_score
      = 0 := by
  refine ⟨by decide, by decide, ?_⟩
  exact misc_subclause_provenance (str "9. GENERAL") c9Block [] _ (by decide)

/-! ## Claim C8 (detector default) -/

theorem detectFold_lt_two {text : Str} :
    ∀ (ps : List DetectPattern) (acc : DetectPattern × Nat),
      (∀ p ∈ ps, countMatches p.regex text < 2) → acc.2 < 2 →
      (ps.foldl (fun acc p =>
        let count := countMatches p.regex text
        if acc.2 < count then (p, count) else acc) acc).2 < 2
  | [], acc, _, hacc => hacc
  | p :: ps, acc, h, hacc => by
    rw [List.foldl_cons]
    apply detectFold_lt_two ps _ (fun q hq => h q (List.mem_cons_of_mem _ hq))
    by_cases hc : acc.2 < countMatches p.regex text
    · simpa [hc] using h p (List.mem_cons_self _ _)
    · simpa [hc] using hacc

/-- Claim C8: when every candidate numbering pattern occurs fewer than 2
times in the text, `detectNumberingSchema` still returns the first-listed
roman-numeral candidate's split pattern (and its type), rather than
failing or returning nothing. -/
theorem detect_schema_defaults_to_roman (text : Str)
    (h : ∀ p ∈ detectPatterns, countMatches p.regex text < 2) :
    detectNumberingSchema text = (detectRoman.splitRegex, str "roman") := by
  unfold detectNumberingSchema
  have hlt := detectFold_lt_two detectPatterns (detectRoman, 0) h (by omega)
  simp only [hlt, if_pos]
  rfl

/-- Claim C8, witness: on a one-word text every candidate count is 0. -/
theorem detect_schema_defaults_to_roman_witness :
    (∀ p ∈ detectPatterns, countMatches p.regex (str "hello") < 2)
    ∧ detectNumberingSchema (str "hello") = (detectRoman.splitRegex, str "roman") :=
  ⟨by decide, detect_schema_defaults_to_roman (str "hello") (by decide)⟩

/-! ## Claim C2 amended: dedup is on trimmed block text -/

theorem emitLoop_eq_flatMap (repo : List Clause) :
    ∀ (bs seen : List Str),
      emitLoop repo bs seen = (emitLoopSrc repo bs seen).flatMap Prod.snd
  | [], _ => rfl
  | b :: rest, seen => by
    rw [emitLoop, emitLoopSrc]
    by_cases h1 : (jsTrim b).length < 30
    · simp only [if_pos h1]
      exact emitLoop_eq_flatMap repo rest seen
    · simp only [if_neg h1]
      by_cases h2 : jsTrim b ∈ seen
      · simp only [if_pos h2]
        exact emitLoop_eq_flatMap repo rest seen
      · simp only [if_neg h2]
        by_cases h3 : (jsTrim (replaceAll agreementPageRe [] (jsTrim b))).length < 20
        · simp only [if_pos h3]
          exact emitLoop_eq_flatMap repo rest seen
        · simp only [if_neg h3]
          rcases hbc : blockClauses repo (jsTrim (replaceAll agreementPageRe [] (jsTrim b)))
            with _ | emitted
          · simp only [hbc]
            exact emitLoop_eq_flatMap repo rest seen
          · simp only [hbc, List.flatMap_cons]
            rw [emitLoop_eq_flatMap repo rest (jsTrim b :: seen)]

theorem emitLoopSrc_sources (repo : List Clause) :
    ∀ (bs seen : List Str),
      ((emitLoopSrc repo bs seen).map Prod.fst).Nodup
      ∧ ∀ t ∈ (emitLoopSrc repo bs seen).map Prod.fst, t ∉ seen
  | [], _ => ⟨List.nodup_nil, by simp [emitLoopSrc]⟩
  | b :: rest, seen => by
    rw [emitLoopSrc]
    by_cases h1 : (jsTrim b).length < 30
    · simp only [if_pos h1]
      exact emitLoopSrc_sources repo rest seen
    · simp only [if_neg h1]
      by_cases h2 : jsTrim b ∈ seen
      · simp only [if_pos h2]
        exact emitLoopSrc_sources repo rest seen
      · simp only [if_neg h2]
        by_cases h3 : (jsTrim (replaceAll agreementPageRe [] (jsTrim b))).length < 20
        · simp only [if_pos h3]
          exact emitLoopSrc_sources repo rest seen
        · simp only [if_neg h3]
          rcases hbc : blockClauses repo (jsTrim (replaceAll agreementPageRe [] (jsTrim b)))
            with _ | emitted
          · simp only [hbc]
            exact emitLoopSrc_sources repo rest seen
          · simp only [hbc, List.map_cons]
            have ih := emitLoopSrc_sources repo rest (jsTrim b :: seen)
            constructor
            · refine List.Nodup.cons ?_ ih.1
              intro hmem
              exact (ih.2 _ hmem) (List.mem_cons_self _ _)
            · intro t ht
              rcases List.mem_cons.mp ht with rfl | ht
              · exact h2
              · intro hts
                exact (ih.2 t ht) (List.mem_cons_of_mem _ hts)

/-- Claim C2, amended: the engine's output is exactly the concatenation of
the per-block emissions of the instrumented loop, and the trimmed source
block texts of those emissions are pairwise distinct (the seen-set dedups
on the trimmed block text).  Distinct blocks may still produce identical
`clause_text` — see the counterexample. -/
theorem extract_dedups_on_block_text (documentText : Str)
    (repositoryClauses : List Clause) (userSchema : Option NumberingSchema) :
    extractClausesRuleBased documentText repositoryClauses userSchema
      = (extractClausesSrc documentText repositoryClauses userSchema).flatMap Prod.snd
    ∧ ((extractClausesSrc documentText repositoryClauses userSchema).map Prod.fst).Nodup :=
  ⟨emitLoop_eq_flatMap _ _ _, (emitLoopSrc_sources _ _ _).1⟩

/-! ## Claim C3 amended: preamble dropping under a caller-supplied schema -/

/-- Claim C3, amended: with a caller-supplied recognized schema, when the
split yields more than one piece, the first piece's first line does not
match the schema's header regex, and at least three pieces remain after
the drop (so that the alternative-pattern fallback does not re-split the
full text), the preamble piece is dropped and the result is computed
entirely from the remaining pieces.  With an auto-detected schema the
preamble is not dropped at all — see the counterexample. -/
theorem preamble_dropped_user_schema (documentText : Str)
    (repositoryClauses : List Clause) (us : NumberingSchema) (sr hr : Regex)
    (hnone : us.mainClause ≠ str "none")
    (hsr : getSchemaSplitRegex us.mainClause = some sr)
    (hhr : getSchemaRegex us.mainClause = some hr)
    (hlen : 1 < (jsSplit sr (countGroups sr) (removePageNumbers documentText)).length)
    (hfail : testA hr (firstLine (jsTrim
      (jsSplit sr (countGroups sr) (removePageNumbers documentText)).headI)) = false)
    (htail : 3 ≤ (jsSplit sr (countGroups sr) (removePageNumbers documentText)).tail.length) :
    extractClausesRuleBased documentText repositoryClauses (some us)
      = emitLoop repositoryClauses
          (mergeBlocks hr
            (jsSplit sr (countGroups sr) (removePageNumbers documentText)).tail) [] := by
  unfold extractClausesRuleBased extractPipelineBlocks selectSchema dropPreamble fallbackSplit
  simp only [hsr, hhr, if_pos hnone]
  rw [if_pos (⟨hlen, by simp [hfail]⟩ :
        1 < (jsSplit sr (countGroups sr) (removePageNumbers documentText)).length
        ∧ ¬ testA hr (firstLine (jsTrim
            (jsSplit sr (countGroups sr) (removePageNumbers documentText)).headI)) = true)]
  rw [if_neg (by omega :
        ¬ (jsSplit sr (countGroups sr) (removePageNumbers documentText)).tail.length < 3)]

/-- Claim C3, amended, witness: on `c3WitnessDoc` with the `numeric`
schema, the hypotheses hold and the preamble piece is dropped. -/
theorem preamble_dropped_user_schema_witness :
    numericSchema.mainClause ≠ str "none"
    ∧ getSchemaSplitRegex numericSchema.mainClause = some c3wSr
    ∧ getSchemaRegex numericSchema.mainClause = some c3wHr
    ∧ 1 < (jsSplit c3wSr (countGroups c3wSr) (removePageNumbers c3WitnessDoc)).length
    ∧ testA c3wHr (firstLine (jsTrim
        (jsSplit c3wSr (countGroups c3wSr) (removePageNumbers c3WitnessDoc)).headI)) = false
    ∧ 3 ≤ (jsSplit c3wSr (countGroups c3wSr) (removePageNumbers c3WitnessDoc)).tail.length
    ∧ extractClausesRuleBased c3WitnessDoc [] (some numericSchema)
      = emitLoop []
          (mergeBlocks c3wHr
            (jsSplit c3wSr (countGroups c3wSr) (removePageNumbers c3WitnessDoc)).tail) [] :=
  ⟨by decide, rfl, rfl, by decide, by decide, by decide,
   preamble_dropped_user_schema c3WitnessDoc [] numericSchema c3wSr c3wHr
     (by decide) rfl rfl (by decide) (by decide) (by decide)⟩

/-! ## Claim C5: membership-survival facts about the normalization pipeline -/

theorem mem_collapseSp_of : ∀ s : Str, ∀ c ∈ s, c ≠ 32 → c ∈ collapseSp s
  | [] => by simp
  | [a] => by simp [collapseSp_one]
  | a :: b :: t => by
    intro c hc h32
    rw [collapseSp_cons2]
    by_cases hab : (a == 32 && b == 32) = true
    · rw [if_pos hab]
      rw [Bool.and_eq_true, beq_iff_eq, beq_iff_eq] at hab
      rcases List.mem_cons.mp hc with rfl | hc2
      · exact absurd hab.1 h32
      · rcases List.mem_cons.mp hc2 with rfl | hc3
        · exact absurd hab.2 h32
        · exact mem_collapseSp_of (a :: t) c (List.mem_cons_of_mem a hc3) h32
    · rw [if_neg hab]
      rcases List.mem_cons.mp hc with rfl | hc2
      · exact List.mem_cons_self _ _
      · exact List.mem_cons_of_mem a (mem_collapseSp_of (b :: t) c hc2 h32)
termination_by s => s.length

theorem mem_splitNl_of : ∀ s : Str, ∀ c ∈ s, c ≠ 10 → ∃ l ∈ splitNl s, c ∈ l := by
  intro s
  induction s with
  | nil => simp
  | cons d t ih =>
    intro c hc h10
    rcases List.mem_cons.mp hc with rfl | hct
    · rw [splitNl, if_neg h10]
      exact ⟨_, List.mem_cons_self _ _, List.mem_cons_self _ _⟩
    · obtain ⟨l, hl, hcl⟩ := ih c hct h10
      rw [splitNl]
      by_cases hd10 : d = 10
      · rw [if_pos hd10]
        exact ⟨l, List.mem_cons_of_mem _ hl, hcl⟩
      · rw [if_neg hd10]
        rcases hst : splitNl t with _ | ⟨h0, rest⟩
        · exact absurd hst (splitNl_ne_nil t)
        · rw [hst] at hl
          rcases List.mem_cons.mp hl with rfl | hl2
          · exact ⟨d :: l, by simp [hst], List.mem_cons_of_mem _ hcl⟩
          · exact ⟨l, by simp [hst, hl2], hcl⟩

theorem mem_dropWhile_of {l : Str} {c : Nat} (hc : c ∈ l) (hws : jsWs c = false) :
    c ∈ l.dropWhile jsWs := by
  rw [← List.takeWhile_append_dropWhile jsWs l] at hc
  rcases List.mem_append.mp hc with h1 | h2
  · rw [List.mem_takeWhile_imp h1] at hws
    exact absurd hws (by simp)
  · exact h2

theorem mem_jsTrim_of {l : Str} {c : Nat} (hc : c ∈ l) (hws : jsWs c = false) :
    c ∈ jsTrim l := by
  rw [jsTrim, jsTrimL]
  apply mem_dropWhile_of _ hws
  rw [jsTrimR, List.mem_reverse]
  exact mem_dropWhile_of (List.mem_reverse.mpr hc) hws

theorem mem_joinNl_of : ∀ {ls : List Str} {l : Str}, l ∈ ls → ∀ {c : Nat}, c ∈ l →
    c ∈ joinNl ls := by
  intro ls
  induction ls with
  | nil => simp
  | cons l0 rest ih =>
    intro l hl c hc
    cases rest with
    | nil =>
      rcases List.mem_singleton.mp hl with rfl
      exact hc
    | cons l1 rest2 =>
      rw [joinNl_cons_ne_nil (by simp)]
      rcases List.mem_cons.mp hl with rfl | hl2
      · exact List.mem_append_left _ hc
      · exact List.mem_append_right _ (List.mem_cons_of_mem _ (ih hl2 hc))

/-- A trimmed, non-empty string normalizes to a non-empty string: its
first character is not whitespace-like and survives every stage. -/
theorem normalizeText_ne_nil {s : Str} (htr : jsTrim s = s) (hne : s ≠ []) :
    normalizeText s ≠ [] := by
  cases s with
  | nil => exact absurd rfl hne
  | cons hd tl =>
    have hws : jsWs hd = false := headOk_of_trimmed htr hd rfl
    have h32 : hd ≠ 32 := by intro h; rw [h, jsWs_32] at hws; exact absurd hws (by simp)
    have h10 : hd ≠ 10 := by intro h; rw [h, jsWs_10] at hws; exact absurd hws (by simp)
    have hnw : normWsChar hd = false := by
      cases hh : normWsChar hd
      · rfl
      · rw [jsWs_of_normWsChar hh] at hws; exact absurd hws (by simp)
    rw [normalizeText, if_neg hne]
    have m1 : hd ∈ (hd :: tl).map normChar := by
      have hnc : normChar hd = hd := by rw [normChar, hnw]; rfl
      have hmm := List.mem_map_of_mem normChar (List.mem_cons_self hd tl)
      rwa [hnc] at hmm
    have m2 : hd ∈ collapseSp ((hd :: tl).map normChar) :=
      mem_collapseSp_of _ hd m1 h32
    obtain ⟨l, hl, hcl⟩ := mem_splitNl_of _ hd m2 h10
    have m4 : hd ∈ jsTrim l := mem_jsTrim_of hcl hws
    have m5 : hd ∈ joinNl ((splitNl (collapseSp ((hd :: tl).map normChar))).map jsTrim) :=
      mem_joinNl_of (List.mem_map_of_mem jsTrim hl) m4
    exact List.ne_nil_of_mem (mem_jsTrim_of m5 hws)

/-! ## Claim C5: elimination facts about the regex evaluator -/

theorem mat_seq_elim {a b : Regex} {s : Str} {i : Nat} {p : Nat × Caps}
    (h : p ∈ mat (.seq a b) s i) :
    ∃ q1 ∈ mat a s i, ∃ q2 ∈ mat b s q1.1, p.1 = q2.1 ∧ p.2 = q2.2 ++ q1.2 := by
  have h0 : p ∈ (mat a s i).flatMap
      (fun jc => (mat b s jc.1).map (fun kc => (kc.1, kc.2 ++ jc.2))) := h
  simp only [List.mem_flatMap, List.mem_map] at h0
  obtain ⟨jc, h1, kc, h2, heq⟩ := h0
  exact ⟨jc, h1, kc, h2, by rw [← heq], by rw [← heq]⟩

theorem mat_eos_elim {s : Str} {i : Nat} {p : Nat × Caps} (h : p ∈ mat .eos s i) :
    p.1 = s.length ∧ i = s.length ∧ p.2 = [] := by
  by_cases hi : i = s.length
  · have h0 : p ∈ [(i, ([] : Caps))] := by
      rw [show mat .eos s i = if i = s.length then [(i, ([] : Caps))] else [] from rfl,
        if_pos hi] at h
      exact h
    rcases List.mem_singleton.mp h0 with rfl
    exact ⟨hi, hi, rfl⟩
  · rw [show mat .eos s i = if i = s.length then [(i, ([] : Caps))] else [] from rfl,
      if_neg hi] at h
    exact absurd h (List.not_mem_nil p)

theorem mat_eps_elim {s : Str} {i : Nat} {p : Nat × Caps} (h : p ∈ mat .eps s i) :
    p.1 = i ∧ p.2 = [] := by
  have h0 : p ∈ [(i, ([] : Caps))] := h
  rcases List.mem_singleton.mp h0 with rfl
  exact ⟨rfl, rfl⟩

theorem mat_grp_elim {k : Nat} {r : Regex} {s : Str} {i : Nat} {p : Nat × Caps}
    (h : p ∈ mat (.grp k r) s i) :
    ∃ q ∈ mat r s i, p.1 = q.1 ∧ p.2 = (k, i, q.1) :: q.2 := by
  have h0 : p ∈ (mat r s i).map (fun jc => (jc.1, (k, i, jc.1) :: jc.2)) := h
  simp only [List.mem_map] at h0
  obtain ⟨jc, h1, heq⟩ := h0
  exact ⟨jc, h1, by rw [← heq], by rw [← heq]⟩

theorem mat_rep_aux (top : Nat) {i lo : Nat} {lz : Bool} {p : Nat × Caps}
    (h0 : p ∈ (if lo ≤ top then
        ((if lz then (List.range (top + 1 - lo)).map (fun d => lo + d)
          else ((List.range (top + 1 - lo)).map (fun d => lo + d)).reverse).map
          (fun t => (i + t, ([] : Caps))))
      else [])) :
    i + lo ≤ p.1 ∧ p.2 = [] := by
  by_cases hle : lo ≤ top
  · rw [if_pos hle] at h0
    rw [List.mem_map] at h0
    obtain ⟨t, ht, heq⟩ := h0
    have ht2 : t ∈ (List.range (top + 1 - lo)).map (fun d => lo + d) := by
      cases lz
      · rw [if_neg (by simp)] at ht
        exact List.mem_reverse.mp ht
      · rw [if_pos rfl] at ht
        exact ht
    rw [List.mem_map] at ht2
    obtain ⟨d, _, rfl⟩ := ht2
    refine ⟨?_, by rw [← heq]⟩
    rw [← heq]
    show i + lo ≤ i + (lo + d)
    omega
  · rw [if_neg hle] at h0
    exact absurd h0 (List.not_mem_nil p)

theorem mat_rep_elim {f : Nat → Bool} {lo : Nat} {hi : Option Nat} {lz : Bool}
    {s : Str} {i : Nat} {p : Nat × Caps} (h : p ∈ mat (.rep f lo hi lz) s i) :
    i + lo ≤ p.1 ∧ p.2 = [] := by
  cases hi with
  | none => exact mat_rep_aux (countRun f (s.drop i)) h
  | some hh => exact mat_rep_aux (min (countRun f (s.drop i)) hh) h

/-- A pattern list ending in `$` only matches up to the end of the string. -/
theorem mat_seqs_eos : ∀ (l : List Regex) {s : Str} {i : Nat} {p : Nat × Caps},
    p ∈ mat (seqs (l ++ [.eos])) s i → p.1 = s.length
  | [], s, i, p => fun h => by
    have h0 : p ∈ mat (.seq .eos .eps) s i := h
    obtain ⟨q1, hq1, q2, hq2, hp1, _⟩ := mat_seq_elim h0
    obtain ⟨he1, _, _⟩ := mat_eos_elim hq1
    obtain ⟨hp2, _⟩ := mat_eps_elim hq2
    omega
  | r :: rest, s, i, p => fun h => by
    have h0 : p ∈ mat (.seq r (seqs (rest ++ [.eos]))) s i := h
    obtain ⟨q1, _, q2, hq2, hp1, _⟩ := mat_seq_elim h0
    have := mat_seqs_eos rest hq2
    omega

/-- In a match of `A B (.+)$` (the common tail of the `parseClauseNumber`
patterns), group 2 spans a non-empty suffix reaching the end of the
string. -/
theorem mat_g2_shape {a b : Regex} {lz : Bool} {s : Str} {p : Nat × Caps}
    (h : p ∈ mat (seqs [a, b, .grp 2 (.rep anyC 1 none lz), .eos]) s 0) :
    ∃ m, capGet p.2 2 = some (m, s.length) ∧ m < s.length := by
  have h0 : p ∈ mat (.seq a (.seq b (.seq (.grp 2 (.rep anyC 1 none lz))
      (.seq .eos .eps)))) s 0 := h
  obtain ⟨q1, hq1, q2, hq2, hp1, hp2⟩ := mat_seq_elim h0
  obtain ⟨q3, hq3, q4, hq4, hq21, hq22⟩ := mat_seq_elim hq2
  obtain ⟨q5, hq5, q6, hq6, hq41, hq42⟩ := mat_seq_elim hq4
  obtain ⟨q7, hq7, q8, hq8, hq61, hq62⟩ := mat_seq_elim hq6
  obtain ⟨he1, he2, he3⟩ := mat_eos_elim hq7
  obtain ⟨hp81, hp82⟩ := mat_eps_elim hq8
  obtain ⟨q9, hq9, hg1, hg2⟩ := mat_grp_elim hq5
  obtain ⟨hr1, hr2⟩ := mat_rep_elim hq9
  have hq9l : q9.1 = s.length := by omega
  refine ⟨q3.1, ?_, by omega⟩
  rw [hp2, hq22, hq42, hq62, he3, hp82, hg2, hr2, hq9l]
  simp only [List.nil_append, List.cons_append]
  rfl

theorem slice_to_end (m : Nat) (s : Str) : slice m s.length s = s.drop m := by
  rw [slice]
  apply List.take_of_length_le
  rw [List.length_drop]

theorem slice_all (s : Str) : slice 0 s.length s = s := by
  rw [slice_to_end, List.drop_zero]

theorem lastOk_drop {x : Str} {m : Nat} (h : lastOk x) (hne : x.drop m ≠ []) :
    lastOk (x.drop m) := by
  intro c hc
  apply h c
  rw [← List.take_append_drop m x, List.getLast?_append_of_ne_nil _ hne]
  exact hc

theorem jsTrim_ne_nil {x : Str} (h1 : lastOk x) (h2 : x ≠ []) : jsTrim x ≠ [] := by
  rw [jsTrim, jsTrimR_eq_self h1, jsTrimL]
  intro hnil
  rw [List.dropWhile_eq_nil_iff] at hnil
  have hl := List.getLast_mem h2
  have hlast := h1 (x.getLast h2) (by rw [List.getLast?_eq_getLast x h2]; rfl)
  rw [hnil _ hl] at hlast
  exact absurd hlast (by simp)

theorem drop_ne_nil {x : Str} {m : Nat} (hm : m < x.length) : x.drop m ≠ [] := by
  intro hn
  have := congrArg List.length hn
  rw [List.length_drop] at this
  simp at this
  omega

/-- The trailing `(.+)$` capture of the number-parsing patterns always
yields a non-empty trimmed slice (the string itself being trimmed). -/
theorem capSlice2_body {t : Str} {p : Nat × Caps} {a b : Regex} {lz : Bool}
    (hmem : p ∈ mat (seqs [a, b, .grp 2 (.rep anyC 1 none lz), .eos]) t 0)
    (hlast : lastOk t) :
    jsTrim (capSlice p.2 2 t) ≠ [] := by
  obtain ⟨m, hcg, hm⟩ := mat_g2_shape hmem
  have hcs : capSlice p.2 2 t = t.drop m := by
    rw [capSlice, hcg]
    show slice m t.length t = t.drop m
    exact slice_to_end m t
  rw [hcs]
  exact jsTrim_ne_nil (lastOk_drop hlast (drop_ne_nil hm)) (drop_ne_nil hm)

/-- Whatever pattern fires, `parseClauseNumber` returns a non-empty,
trimmed body text (provided the trimmed block is non-empty). -/
theorem parseClauseNumber_body {s : Str} (hne : jsTrim s ≠ []) :
    (parseClauseNumber s).body_text ≠ []
    ∧ jsTrim (parseClauseNumber s).body_text = (parseClauseNumber s).body_text := by
  have hlast : lastOk (jsTrim s) := lastOk_jsTrim s
  unfold parseClauseNumber
  cases h1 : (mat pcnP1 (jsTrim s) 0).head? with
  | some jc =>
    simp only [h1]
    exact ⟨capSlice2_body (List.mem_of_mem_head? h1) hlast, jsTrim_idem _⟩
  | none =>
    simp only [h1]
    cases h2 : (mat pcnP2 (jsTrim s) 0).head? with
    | some jc =>
      simp only [h2]
      exact ⟨capSlice2_body (List.mem_of_mem_head? h2) hlast, jsTrim_idem _⟩
    | none =>
      simp only [h2]
      cases h3 : (mat pcnP3 (jsTrim s) 0).head? with
      | some jc =>
        simp only [h3]
        split
        next firstLineEnd heq =>
          split
          next hin =>
            split
            next hr =>
              exact ⟨List.ne_nil_of_length_pos hr.2, jsTrim_idem _⟩
            next hr =>
              exact ⟨capSlice2_body (List.mem_of_mem_head? h3) hlast, jsTrim_idem _⟩
          next hin =>
            exact ⟨capSlice2_body (List.mem_of_mem_head? h3) hlast, jsTrim_idem _⟩
        next heq =>
          exact ⟨capSlice2_body (List.mem_of_mem_head? h3) hlast, jsTrim_idem _⟩
      | none =>
        simp only [h3]
        cases h4 : (mat pcnP4 (jsTrim s) 0).head? with
        | some jc =>
          simp only [h4]
          exact ⟨capSlice2_body (List.mem_of_mem_head? h4) hlast, jsTrim_idem _⟩
        | none =>
          simp only [h4]
          exact ⟨hne, jsTrim_idem s⟩

theorem mem_ite_nil_cons2 {α : Type} {p : Prop} [Decidable p] {c r : α}
    (h : c ∈ (if p then ([] : List α) else [r])) : ¬ p ∧ c = r := by
  by_cases hp : p
  · rw [if_pos hp] at h
    simp at h
  · rw [if_neg hp] at h
    exact ⟨hp, List.mem_singleton.mp h⟩

theorem normalize_trimmed_ne {b : Str} (h30 : ¬ (jsTrim b).length < 30) :
    normalizeText (jsTrim b) ≠ [] := by
  have hne : jsTrim b ≠ [] := by
    intro h0
    rw [h0] at h30
    simp at h30
  exact normalizeText_ne_nil (jsTrim_idem b) hne

/-- When the sub-reference pattern matches a trimmed sub-block, the match
spans the whole string (the pattern is `$`-anchored), so the kept slice is
the whole sub-block and normalizes to a non-empty string. -/
theorem normalize_slice_ne {b : Str} {jc : Nat × Caps}
    (h30 : ¬ (jsTrim b).length < 30)
    (hm : (mat subRefRe (jsTrim b) 0).head? = some jc) :
    normalizeText (slice 0 jc.1 (jsTrim b)) ≠ [] := by
  have hmem : jc ∈ mat subRefRe (jsTrim b) 0 := List.mem_of_mem_head? hm
  have h0 : jc ∈ mat (seqs ([.alt (.seq (litCI "Section") wsPlus) .eps,
      .grp 1 (seqs [digitsP, dotLit, digitsP]),
      .rep wsDotColonC 1 none false, .grp 2 (.rep anyC 1 none false)] ++ [.eos]))
      (jsTrim b) 0 := hmem
  have hend : jc.1 = (jsTrim b).length := mat_seqs_eos _ h0
  rw [hend, slice_all]
  exact normalize_trimmed_ne h30

theorem miscSubClause_fields {p : Str} {repo : List Clause} {b : Str}
    {c : ExtractedClause} (hc : c ∈ miscSubClause p repo b) :
    c.clause_type ≠ [] ∧ c.clause_text ≠ [] := by
  unfold miscSubClause at hc
  by_cases h30 : (jsTrim b).length < 30
  · rw [if_pos h30] at hc
    simp at hc
  · rw [if_neg h30] at hc
    cases hm : (mat subRefRe (jsTrim b) 0).head? with
    | none =>
      simp only [hm] at hc
      obtain ⟨hnp, rfl⟩ := mem_ite_nil_cons2 hc
      exact ⟨hnp, normalize_trimmed_ne h30⟩
    | some jc =>
      simp only [hm] at hc
      obtain ⟨hnp, rfl⟩ := mem_ite_nil_cons2 hc
      exact ⟨hnp, normalize_slice_ne h30 hm⟩

theorem extractSub_fields {p b : Str} {repo : List Clause} {c : ExtractedClause}
    (hc : c ∈ extractSubclausesFromMiscellaneous p b repo) :
    c.clause_type ≠ [] ∧ c.clause_text ≠ [] := by
  unfold extractSubclausesFromMiscellaneous at hc
  simp only [List.mem_flatMap] at hc
  obtain ⟨b2, _, hcb⟩ := hc
  exact miscSubClause_fields hcb

/-- Shape of the branch structure of `blockClauses`: a successful result is
either the catch-all expansion or a singleton record guarded by a non-empty
detected type. -/
theorem ite_opt_shape {α : Type} {C1 C2 C3 : Prop}
    [Decidable C1] [Decidable C2] [Decidable C3] {A B : α} {emitted : α}
    (h : (if C1 then none
          else if C2 then (if C3 then some A else some B) else some B) = some emitted) :
    emitted = A ∨ (¬ C1 ∧ emitted = B) := by
  by_cases h1 : C1
  · rw [if_pos h1] at h
    exact Option.noConfusion h
  · rw [if_neg h1] at h
    by_cases h2 : C2
    · rw [if_pos h2] at h
      by_cases h3 : C3
      · rw [if_pos h3] at h
        exact Or.inl (Option.some.inj h).symm
      · rw [if_neg h3] at h
        exact Or.inr ⟨h1, (Option.some.inj h).symm⟩
    · rw [if_neg h2] at h
      exact Or.inr ⟨h1, (Option.some.inj h).symm⟩

set_option maxHeartbeats 2000000 in
theorem blockClauses_fields {repo : List Clause} {cb : Str}
    {emitted : List ExtractedClause}
    (htr : jsTrim cb = cb) (hlen : ¬ cb.length < 20)
    (hbc : blockClauses repo cb = some emitted) :
    ∀ c ∈ emitted, c.clause_type ≠ [] ∧ c.clause_text ≠ [] := by
  intro c hc
  have hne : jsTrim cb ≠ [] := by
    rw [htr]
    intro h0
    rw [h0] at hlen
    simp at hlen
  have hpb := parseClauseNumber_body (s := cb) hne
  rcases ite_opt_shape hbc with rfl | ⟨hdt, rfl⟩
  · exact extractSub_fields hc
  · rcases List.mem_singleton.mp hc with rfl
    exact ⟨hdt, normalizeText_ne_nil hpb.2 hpb.1⟩

theorem emitLoop_fields (repo : List Clause) :
    ∀ (bs seen : List Str), ∀ c ∈ emitLoop repo bs seen,
      c.clause_type ≠ [] ∧ c.clause_text ≠ []
  | [], _ => by simp [emitLoop]
  | b :: rest, seen => by
    intro c hc
    rw [emitLoop] at hc
    by_cases h1 : (jsTrim b).length < 30
    · simp only [if_pos h1] at hc
      exact emitLoop_fields repo rest seen c hc
    · simp only [if_neg h1] at hc
      by_cases h2 : jsTrim b ∈ seen
      · simp only [if_pos h2] at hc
        exact emitLoop_fields repo rest seen c hc
      · simp only [if_neg h2] at hc
        by_cases h3 : (jsTrim (replaceAll agreementPageRe [] (jsTrim b))).length < 20
        · simp only [if_pos h3] at hc
          exact emitLoop_fields repo rest seen c hc
        · simp only [if_neg h3] at hc
          rcases hbc : blockClauses repo (jsTrim (replaceAll agreementPageRe [] (jsTrim b)))
            with _ | emitted
          · simp only [hbc] at hc
            exact emitLoop_fields repo rest seen c hc
          · simp only [hbc] at hc
            rcases List.mem_append.mp hc with hcl | hcr
            · exact blockClauses_fields (jsTrim_idem _) h3 hbc c hcl
            · exact emitLoop_fields repo rest (jsTrim b :: seen) c hcr

/-- Claim C5: every clause the engine emits has a non-empty `clause_type`
and a non-empty `clause_text`, for every document, repository and schema. -/
theorem extract_nonempty_fields (documentText : Str) (repositoryClauses : List Clause)
    (userSchema : Option NumberingSchema) :
    ∀ c ∈ extractClausesRuleBased documentText repositoryClauses userSchema,
      c.clause_type ≠ [] ∧ c.clause_text ≠ [] := by
  intro c hc
  exact emitLoop_fields repositoryClauses
    (extractPipelineBlocks documentText userSchema) [] c hc

/-- Claim C5, witness: the clause extracted from `c5Doc` is emitted with a
non-empty type and text. -/
theorem extract_nonempty_fields_witness :
    (extractClausesRuleBased c5Doc [] (some numericSchema)).headI
      ∈ extractClausesRuleBased c5Doc [] (some numericSchema)
    ∧ (extractClausesRuleBased c5Doc [] (some numericSchema)).headI.clause_type ≠ []
    ∧ (extractClausesRuleBased c5Doc [] (some numericSchema)).headI.clause_text ≠ [] := by
  have hm : (extractClausesRuleBased c5Doc [] (some numericSchema)).headI
      ∈ extractClausesRuleBased c5Doc [] (some numericSchema) := by decide
  exact ⟨hm, extract_nonempty_fields c5Doc [] (some numericSchema) _ hm⟩

/-! ## Claim C6: similarity-score bounds and below-threshold nulls -/

theorem jaccardQ_bounds (A B : Finset Str) :
    0 ≤ (if A.card = 0 ∨ B.card = 0 then (0 : ℚ)
         else ((A ∩ B).card : ℚ) / ((A ∪ B).card : ℚ))
    ∧ (if A.card = 0 ∨ B.card = 0 then (0 : ℚ)
       else ((A ∩ B).card : ℚ) / ((A ∪ B).card : ℚ)) ≤ 1 := by
  by_cases h : A.card = 0 ∨ B.card = 0
  · rw [if_pos h]
    exact ⟨le_refl 0, zero_le_one⟩
  · rw [if_neg h]
    push_neg at h
    have hA : 0 < A.card := Nat.pos_of_ne_zero h.1
    have hU : 0 < (A ∪ B).card :=
      lt_of_lt_of_le hA (Finset.card_le_card Finset.subset_union_left)
    constructor
    · exact div_nonneg (Nat.cast_nonneg _) (Nat.cast_nonneg _)
    · rw [div_le_one (by exact_mod_cast hU)]
      exact_mod_cast Finset.card_le_card
        (Finset.inter_subset_left.trans Finset.subset_union_left)

theorem calculateTextSimilarity_bounds (t1 t2 : Str) :
    0 ≤ calculateTextSimilarity t1 t2 ∧ calculateTextSimilarity t1 t2 ≤ 1 :=
  jaccardQ_bounds (simWords t1).toFinset (simWords t2).toFinset

theorem calculateNGramSimilarity_bounds (t1 t2 : Str) (n : Nat) :
    0 ≤ calculateNGramSimilarity t1 t2 n ∧ calculateNGramSimilarity t1 t2 n ≤ 1 :=
  jaccardQ_bounds (getNGrams t1 n) (getNGrams t2 n)

theorem matchCombined_bounds (text : Str) (rc : Clause) :
    0 ≤ matchCombined text rc ∧ matchCombined text rc ≤ 1 := by
  obtain ⟨hw0, hw1⟩ := calculateTextSimilarity_bounds text rc.clause_text
  obtain ⟨hg0, hg1⟩ := calculateNGramSimilarity_bounds text rc.clause_text 3
  unfold matchCombined
  constructor
  · have := mul_nonneg hw0 (by norm_num : (0 : ℚ) ≤ 2/5)
    have := mul_nonneg hg0 (by norm_num : (0 : ℚ) ≤ 3/5)
    linarith
  · have := mul_le_mul_of_nonneg_right hw1 (by norm_num : (0 : ℚ) ≤ 2/5)
    have := mul_le_mul_of_nonneg_right hg1 (by norm_num : (0 : ℚ) ≤ 3/5)
    linarith

theorem groupScore_bounds (text : Str) (rc : Clause) :
    0 ≤ groupScore text rc ∧ groupScore text rc ≤ 1 := by
  obtain ⟨hw0, hw1⟩ := calculateTextSimilarity_bounds text rc.clause_text
  obtain ⟨hg0, hg1⟩ := calculateNGramSimilarity_bounds text rc.clause_text 2
  unfold groupScore
  constructor
  · have := mul_nonneg hw0 (by norm_num : (0 : ℚ) ≤ 7/20)
    have := mul_nonneg hg0 (by norm_num : (0 : ℚ) ≤ 13/20)
    linarith
  · have := mul_le_mul_of_nonneg_right hw1 (by norm_num : (0 : ℚ) ≤ 7/20)
    have := mul_le_mul_of_nonneg_right hg1 (by norm_num : (0 : ℚ) ≤ 13/20)
    linarith

theorem matchRepo_fold_bounds (text : Str) (thr : ℚ) :
    ∀ (l : List Clause) (acc : Option RepositoryMatch),
      (∀ bm ∈ acc, 0 ≤ bm.score ∧ bm.score ≤ 1) →
      ∀ bm ∈ l.foldl (fun bestMatch repoClause =>
          if repoClause.clause_text.length < 50 then bestMatch
          else if repoClause.clause_type = str "General Clause"
              ∨ repoClause.clause_type = str "Other" then bestMatch
          else
            let combinedScore := matchCombined text repoClause
            if thr ≤ combinedScore ∧ (∀ bm ∈ bestMatch, bm.score < combinedScore) then
              some ⟨repoClause.clause_type, combinedScore, repoClause.id⟩
            else bestMatch) acc,
        0 ≤ bm.score ∧ bm.score ≤ 1
  | [], acc, hacc => by
    simp only [List.foldl_nil]
    exact hacc
  | rc :: t, acc, hacc => by
    rw [List.foldl_cons]
    apply matchRepo_fold_bounds text thr t
    intro bm hbm
    simp only [] at hbm
    by_cases hg1 : rc.clause_text.length < 50
    · rw [if_pos hg1] at hbm
      exact hacc bm hbm
    · rw [if_neg hg1] at hbm
      by_cases hg2 : rc.clause_type = str "General Clause" ∨ rc.clause_type = str "Other"
      · rw [if_pos hg2] at hbm
        exact hacc bm hbm
      · rw [if_neg hg2] at hbm
        by_cases hg3 : thr ≤ matchCombined text rc
            ∧ (∀ bm2 ∈ acc, bm2.score < matchCombined text rc)
        · rw [if_pos hg3] at hbm
          rw [Option.mem_def, Option.some.injEq] at hbm
          obtain rfl := hbm
          exact matchCombined_bounds text rc
        · rw [if_neg hg3] at hbm
          exact hacc bm hbm

theorem matchRepo_fold_none (text : Str) (thr : ℚ) :
    ∀ (l : List Clause), (∀ rc ∈ l, matchCombined text rc < thr) →
      l.foldl (fun (bestMatch : Option RepositoryMatch) (repoClause : Clause) =>
          if repoClause.clause_text.length < 50 then bestMatch
          else if repoClause.clause_type = str "General Clause"
              ∨ repoClause.clause_type = str "Other" then bestMatch
          else
            let combinedScore := matchCombined text repoClause
            if thr ≤ combinedScore ∧ (∀ bm ∈ bestMatch, bm.score < combinedScore) then
              some ⟨repoClause.clause_type, combinedScore, repoClause.id⟩
            else bestMatch) none = none
  | [] => fun _ => by simp
  | rc :: t => fun h => by
    rw [List.foldl_cons]
    have hrc := h rc (List.mem_cons_self rc t)
    have hstep : (if rc.clause_text.length < 50 then (none : Option RepositoryMatch)
        else if rc.clause_type = str "General Clause"
            ∨ rc.clause_type = str "Other" then none
        else
          let combinedScore := matchCombined text rc
          if thr ≤ combinedScore
              ∧ (∀ bm ∈ (none : Option RepositoryMatch), bm.score < combinedScore) then
            some ⟨rc.clause_type, combinedScore, rc.id⟩
          else none) = none := by
      by_cases hg1 : rc.clause_text.length < 50
      · rw [if_pos hg1]
      · rw [if_neg hg1]
        by_cases hg2 : rc.clause_type = str "General Clause" ∨ rc.clause_type = str "Other"
        · rw [if_pos hg2]
        · rw [if_neg hg2]
          rw [if_neg]
          intro hcon
          exact absurd hcon.1 (not_le.mpr hrc)
    rw [hstep]
    exact matchRepo_fold_none text thr t (fun rc2 h2 => h rc2 (List.mem_cons_of_mem _ h2))

theorem gInner_bounds (text : Str) :
    ∀ (l : List Clause) (acc : ℚ × Str), 0 ≤ acc.1 ∧ acc.1 ≤ 1 →
      0 ≤ (l.foldl (fun (acc : ℚ × Str) repoClause =>
          if repoClause.clause_text.length < 30 then acc
          else
            let score := groupScore text repoClause
            if acc.1 < score then (score, repoClause.id) else acc) acc).1
      ∧ (l.foldl (fun (acc : ℚ × Str) repoClause =>
          if repoClause.clause_text.length < 30 then acc
          else
            let score := groupScore text repoClause
            if acc.1 < score then (score, repoClause.id) else acc) acc).1 ≤ 1
  | [], acc, hacc => by
    simp only [List.foldl_nil]
    exact hacc
  | rc :: t, acc, hacc => by
    rw [List.foldl_cons]
    apply gInner_bounds text t
    simp only []
    by_cases hg1 : rc.clause_text.length < 30
    · rw [if_pos hg1]
      exact hacc
    · rw [if_neg hg1]
      by_cases hlt : acc.1 < groupScore text rc
      · rw [if_pos hlt]
        exact groupScore_bounds text rc
      · rw [if_neg hlt]
        exact hacc

theorem gInner_lt (text : Str) (thr : ℚ) :
    ∀ (l : List Clause), (∀ rc ∈ l, groupScore text rc < thr) →
      ∀ acc : ℚ × Str, (acc.1 = 0 ∨ acc.1 < thr) →
      ((l.foldl (fun (acc : ℚ × Str) repoClause =>
          if repoClause.clause_text.length < 30 then acc
          else
            let score := groupScore text repoClause
            if acc.1 < score then (score, repoClause.id) else acc) acc).1 = 0
        ∨ (l.foldl (fun (acc : ℚ × Str) repoClause =>
          if repoClause.clause_text.length < 30 then acc
          else
            let score := groupScore text repoClause
            if acc.1 < score then (score, repoClause.id) else acc) acc).1 < thr)
  | [], _, acc, hacc => by
    simp only [List.foldl_nil]
    exact hacc
  | rc :: t, h, acc, hacc => by
    rw [List.foldl_cons]
    apply gInner_lt text thr t (fun rc2 h2 => h rc2 (List.mem_cons_of_mem _ h2))
    simp only []
    by_cases hg1 : rc.clause_text.length < 30
    · rw [if_pos hg1]
      exact hacc
    · rw [if_neg hg1]
      by_cases hlt : acc.1 < groupScore text rc
      · rw [if_pos hlt]
        exact Or.inr (h rc (List.mem_cons_self rc t))
      · rw [if_neg hlt]
        exact hacc

theorem findBest_fold_bounds (text : Str) (thr : ℚ) :
    ∀ (gs : List (Str × List Clause)) (acc : Option RepositoryMatch),
      (∀ bm ∈ acc, 0 ≤ bm.score ∧ bm.score ≤ 1) →
      ∀ bm ∈ gs.foldl (fun bestMatch g =>
          if g.1 = str "General Clause" ∨ g.1 = str "Other" then bestMatch
          else
            let inner := g.2.foldl (fun (acc : ℚ × Str) repoClause =>
              if repoClause.clause_text.length < 30 then acc
              else
                let score := groupScore text repoClause
                if acc.1 < score then (score, repoClause.id) else acc) (0, [])
            if thr ≤ inner.1 ∧ (∀ bm ∈ bestMatch, bm.score < inner.1) then
              some ⟨g.1, inner.1, inner.2⟩
            else bestMatch) acc,
        0 ≤ bm.score ∧ bm.score ≤ 1
  | [], acc, hacc => by
    simp only [List.foldl_nil]
    exact hacc
  | g :: t, acc, hacc => by
    rw [List.foldl_cons]
    apply findBest_fold_bounds text thr t
    intro bm hbm
    simp only [] at hbm
    by_cases hgen : g.1 = str "General Clause" ∨ g.1 = str "Other"
    · rw [if_pos hgen] at hbm
      exact hacc bm hbm
    · rw [if_neg hgen] at hbm
      by_cases hcond : thr ≤ (g.2.foldl (fun (acc : ℚ × Str) repoClause =>
            if repoClause.clause_text.length < 30 then acc
            else
              let score := groupScore text repoClause
              if acc.1 < score then (score, repoClause.id) else acc) (0, [])).1
          ∧ (∀ bm2 ∈ acc, bm2.score < (g.2.foldl (fun (acc : ℚ × Str) repoClause =>
            if repoClause.clause_text.length < 30 then acc
            else
              let score := groupScore text repoClause
              if acc.1 < score then (score, repoClause.id) else acc) (0, [])).1)
      · rw [if_pos hcond] at hbm
        rw [Option.mem_def, Option.some.injEq] at hbm
        obtain rfl := hbm
        exact gInner_bounds text g.2 (0, []) (by norm_num)
      · rw [if_neg hcond] at hbm
        exact hacc bm hbm

theorem findBest_fold_none (text : Str) (thr : ℚ) (hpos : 0 < thr) :
    ∀ (gs : List (Str × List Clause)),
      (∀ g ∈ gs, ∀ rc ∈ g.2, groupScore text rc < thr) →
      gs.foldl (fun (bestMatch : Option RepositoryMatch) (g : Str × List Clause) =>
          if g.1 = str "General Clause" ∨ g.1 = str "Other" then bestMatch
          else
            let inner := g.2.foldl (fun (acc : ℚ × Str) repoClause =>
              if repoClause.clause_text.length < 30 then acc
              else
                let score := groupScore text repoClause
                if acc.1 < score then (score, repoClause.id) else acc) (0, [])
            if thr ≤ inner.1 ∧ (∀ bm ∈ bestMatch, bm.score < inner.1) then
              some ⟨g.1, inner.1, inner.2⟩
            else bestMatch) none = none
  | [] => fun _ => by simp
  | g :: t => fun h => by
    rw [List.foldl_cons]
    have hstep : (if g.1 = str "General Clause" ∨ g.1 = str "Other"
          then (none : Option RepositoryMatch)
        else
          let inner := g.2.foldl (fun (acc : ℚ × Str) repoClause =>
            if repoClause.clause_text.length < 30 then acc
            else
              let score := groupScore text repoClause
              if acc.1 < score then (score, repoClause.id) else acc) (0, [])
          if thr ≤ inner.1 ∧ (∀ bm ∈ (none : Option RepositoryMatch), bm.score < inner.1) then
            some ⟨g.1, inner.1, inner.2⟩
          else none) = none := by
      by_cases hgen : g.1 = str "General Clause" ∨ g.1 = str "Other"
      · rw [if_pos hgen]
      · rw [if_neg hgen]
        rw [if_neg]
        intro hcon
        rcases gInner_lt text thr g.2 (h g (List.mem_cons_self g t)) (0, [])
          (Or.inl rfl) with h0 | hlt
        · rw [h0] at hcon
          exact absurd hcon.1 (not_le.mpr hpos)
        · exact absurd hcon.1 (not_le.mpr hlt)
    rw [hstep]
    exact findBest_fold_none text thr hpos t (fun g2 h2 => h g2 (List.mem_cons_of_mem _ h2))

theorem group_fold_mem (S : Clause → Prop) :
    ∀ (l : List Clause) (acc : List (Str × List Clause)),
      (∀ g ∈ acc, ∀ c ∈ g.2, S c) → (∀ c ∈ l, S c) →
      ∀ g ∈ l.foldl (fun grouped clause =>
          if grouped.any (fun g => g.1 == clause.clause_type) then
            grouped.map (fun g =>
              if g.1 == clause.clause_type then (g.1, g.2 ++ [clause]) else g)
          else grouped ++ [(clause.clause_type, [clause])]) acc,
        ∀ c ∈ g.2, S c
  | [], acc, hacc, _ => by
    simp only [List.foldl_nil]
    exact hacc
  | x :: t, acc, hacc, hl => by
    rw [List.foldl_cons]
    apply group_fold_mem S t
    · intro g hg c hc
      simp only [] at hg
      by_cases hany : acc.any (fun g => g.1 == x.clause_type)
      · rw [if_pos hany] at hg
        rw [List.mem_map] at hg
        obtain ⟨g0, hg0, heq⟩ := hg
        by_cases hxe : (g0.1 == x.clause_type) = true
        · rw [if_pos hxe] at heq
          obtain rfl := heq
          rcases List.mem_append.mp hc with h1 | h2
          · exact hacc g0 hg0 c h1
          · rcases List.mem_singleton.mp h2 with rfl
            exact hl c (List.mem_cons_self c t)
        · rw [if_neg hxe] at heq
          obtain rfl := heq
          exact hacc g0 hg0 c hc
      · rw [if_neg hany] at hg
        rcases List.mem_append.mp hg with h1 | h2
        · exact hacc g h1 c hc
        · rcases List.mem_singleton.mp h2 with rfl
          rcases List.mem_singleton.mp hc with rfl
          exact hl c (List.mem_cons_self c t)
    · intro c hcm
      exact hl c (List.mem_cons_of_mem _ hcm)

theorem groupClausesByType_mem {cs : List Clause} :
    ∀ g ∈ groupClausesByType cs, ∀ c ∈ g.2, c ∈ cs := by
  have := group_fold_mem (fun c => c ∈ cs) cs [] (by simp) (fun c h => h)
  exact this

/-- Claim C6: a returned repository match always carries a score in `[0,1]`
(for the individual matcher and the grouped matcher alike), and when every
repository entry's combined score is below the threshold, both matchers
return null. -/
theorem repository_match_bounds (clauseText : Str) (repositoryClauses : List Clause)
    (threshold : ℚ) :
    (∀ m, matchClauseFromRepository clauseText repositoryClauses threshold = some m →
        0 ≤ m.score ∧ m.score ≤ 1)
    ∧ ((∀ rc ∈ repositoryClauses, matchCombined clauseText rc < threshold) →
        matchClauseFromRepository clauseText repositoryClauses threshold = none)
    ∧ (∀ m, findBestClauseTypeMatch clauseText repositoryClauses threshold = some m →
        0 ≤ m.score ∧ m.score ≤ 1)
    ∧ ((∀ rc ∈ repositoryClauses, groupScore clauseText rc < threshold) →
        findBestClauseTypeMatch clauseText repositoryClauses threshold = none) := by
  refine ⟨?_, ?_, ?_, ?_⟩
  · intro m hm
    unfold matchClauseFromRepository at hm
    by_cases h0 : repositoryClauses.length = 0
    · rw [if_pos h0] at hm
      exact Option.noConfusion hm
    · rw [if_neg h0] at hm
      exact matchRepo_fold_bounds clauseText threshold repositoryClauses none
        (by simp) m hm
  · intro hall
    unfold matchClauseFromRepository
    by_cases h0 : repositoryClauses.length = 0
    · rw [if_pos h0]
    · rw [if_neg h0]
      exact matchRepo_fold_none clauseText threshold repositoryClauses hall
  · intro m hm
    unfold findBestClauseTypeMatch at hm
    exact findBest_fold_bounds clauseText threshold
      (groupClausesByType repositoryClauses) none (by simp) m hm
  · intro hall
    unfold findBestClauseTypeMatch
    cases hrepo : repositoryClauses with
    | nil => rfl
    | cons rc0 rest =>
      rw [hrepo] at hall
      have hpos : 0 < threshold :=
        lt_of_le_of_lt (groupScore_bounds clauseText rc0).1
          (hall rc0 (List.mem_cons_self rc0 rest))
      apply findBest_fold_none clauseText threshold hpos
      intro g hg rc hrc
      exact hall rc (groupClausesByType_mem g hg rc hrc)

/-- Claim C6, witness: with an empty repository every entry is trivially
below the 0.15 threshold, and both matchers return null. -/
theorem repository_match_bounds_witness :
    (∀ rc ∈ ([] : List Clause), matchCombined c6Text rc < 3/20)
    ∧ matchClauseFromRepository c6Text [] (3/20) = none
    ∧ (∀ rc ∈ ([] : List Clause), groupScore c6Text rc < 3/20)
    ∧ findBestClauseTypeMatch c6Text [] (3/20) = none :=
  ⟨by simp, (repository_match_bounds c6Text [] (3/20)).2.1 (by simp),
   by simp, (repository_match_bounds c6Text [] (3/20)).2.2.2 (by simp)⟩

/-! ## Claim C10: trimmed-span facts -/

theorem allWs_iff {s : Str} : allWs s = true ↔ jsTrimR s = [] := by
  rw [allWs, List.all_eq_true, jsTrimR]
  constructor
  · intro h
    rw [List.reverse_eq_nil_iff, List.dropWhile_eq_nil_iff]
    intro c hc
    exact h c (List.mem_reverse.mp hc)
  · intro h c hc
    rw [List.reverse_eq_nil_iff, List.dropWhile_eq_nil_iff] at h
    exact h c (List.mem_reverse.mpr hc)

theorem tlen_zero_iff {s : Str} : tlen s = 0 ↔ allWs s = true := by
  rw [tlen, List.length_eq_zero, allWs_iff]

theorem jsTrimR_append_not {u s : Str} (h : allWs s = false) :
    jsTrimR (u ++ s) = u ++ jsTrimR s := by
  rw [jsTrimR, List.reverse_append, List.dropWhile_append]
  have hne : ¬ (s.reverse.dropWhile jsWs).isEmpty = true := by
    intro he
    rw [List.isEmpty_iff] at he
    have h0 : jsTrimR s = [] := by rw [jsTrimR, he]; rfl
    rw [allWs_iff.mpr h0] at h
    exact Bool.noConfusion h
  rw [if_neg hne, List.reverse_append, List.reverse_reverse, jsTrimR]

theorem jsTrimR_append_all {u s : Str} (h : allWs s = true) :
    jsTrimR (u ++ s) = jsTrimR u := by
  rw [jsTrimR, List.reverse_append, List.dropWhile_append]
  have he : (s.reverse.dropWhile jsWs).isEmpty = true := by
    rw [List.isEmpty_iff]
    have h0 := allWs_iff.mp h
    rw [jsTrimR] at h0
    exact List.reverse_eq_nil_iff.mp h0
  rw [if_pos he, jsTrimR]

theorem tlen_append_not {u s : Str} (h : allWs s = false) :
    tlen (u ++ s) = u.length + tlen s := by
  rw [tlen, jsTrimR_append_not h, List.length_append, tlen]

theorem tlen_append_all {u s : Str} (h : allWs s = true) : tlen (u ++ s) = tlen u := by
  rw [tlen, jsTrimR_append_all h, tlen]

theorem tlen_single_not {c : Nat} (h : jsWs c = false) : tlen [c] = 1 := by
  rw [tlen, jsTrimR]
  simp [List.dropWhile_cons, h]

theorem tlen_pos_of_not_allWs {s : Str} (h : allWs s = false) : 1 ≤ tlen s := by
  rcases Nat.eq_zero_or_pos (tlen s) with h0 | h1
  · rw [tlen_zero_iff.mp h0] at h
    exact Bool.noConfusion h
  · exact h1

theorem not_allWs_right {x y : Str} (hy : allWs y = false) (ht : tlen y ≤ tlen x) :
    allWs x = false := by
  cases hx : allWs x
  · rfl
  · have h1 : tlen x = 0 := tlen_zero_iff.mpr hx
    have h2 := tlen_pos_of_not_allWs hy
    omega

theorem jsTrim_allWs_prefix {w s : Str} (hw : ∀ c ∈ w, jsWs c = true) :
    jsTrim (w ++ s) = jsTrim s := by
  cases ha : allWs s
  · rw [jsTrim, jsTrimR_append_not ha, jsTrim, jsTrimL, jsTrimL, List.dropWhile_append,
      if_pos (by rw [List.isEmpty_iff, List.dropWhile_eq_nil_iff]; exact hw)]
  · have hwa : allWs w = true := List.all_eq_true.mpr hw
    rw [jsTrim, jsTrimR_append_all ha, jsTrim, allWs_iff.mp ha, allWs_iff.mp hwa]

theorem jsTrim_cons_not_ws {c : Nat} {s : Str} (h : jsWs c = false) :
    jsTrim (c :: s) = c :: jsTrimR s := by
  cases ha : allWs s
  · rw [jsTrim, show c :: s = [c] ++ s from rfl, jsTrimR_append_not ha, jsTrimL]
    simp [List.dropWhile_cons, h]
  · rw [jsTrim, show c :: s = [c] ++ s from rfl, jsTrimR_append_all ha]
    have h1 : jsTrimR [c] = [c] := by
      rw [jsTrimR]
      simp [List.dropWhile_cons, h]
    rw [h1, jsTrimL]
    simp [List.dropWhile_cons, h]
    rw [allWs_iff.mp ha]

theorem span_cons_not_ws {c : Nat} {s : Str} (h : jsWs c = false) :
    span (c :: s) = 1 + tlen s := by
  rw [span, jsTrim_cons_not_ws h, List.length_cons, tlen]
  omega

theorem span_ws_cons {c : Nat} {s : Str} (h : jsWs c = true) :
    span (c :: s) = span s := by
  rw [span, span,
    show (c :: s) = [c] ++ s from rfl,
    jsTrim_allWs_prefix (by intro d hd; rcases List.mem_singleton.mp hd with rfl; exact h)]

theorem rel_keep (c : Nat) {x y : Str} (ht : tlen y ≤ tlen x) (hs : span y ≤ span x) :
    tlen (c :: y) ≤ tlen (c :: x) ∧ span (c :: y) ≤ span (c :: x) := by
  constructor
  · show tlen ([c] ++ y) ≤ tlen ([c] ++ x)
    cases hy : allWs y
    · have hx := not_allWs_right hy ht
      rw [tlen_append_not hy, tlen_append_not hx]
      omega
    · rw [tlen_append_all hy]
      cases hc : jsWs c
      · rw [tlen_single_not hc]
        cases hx : allWs x
        · rw [tlen_append_not hx]
          have := tlen_pos_of_not_allWs hx
          simp only [List.length_singleton]
          omega
        · rw [tlen_append_all hx, tlen_single_not hc]
      · have h0 : tlen [c] = 0 := tlen_zero_iff.mpr (by simp [allWs, hc])
        rw [h0]
        exact Nat.zero_le _
  · cases hc : jsWs c
    · rw [span_cons_not_ws hc, span_cons_not_ws hc]
      omega
    · rw [span_ws_cons hc, span_ws_cons hc]
      exact hs

theorem rel_append_left (z : Str) {x y : Str} (ht : tlen y ≤ tlen x)
    (hs : span y ≤ span x) :
    tlen (z ++ y) ≤ tlen (z ++ x) ∧ span (z ++ y) ≤ span (z ++ x) := by
  induction z with
  | nil => exact ⟨ht, hs⟩
  | cons c z ih => exact rel_keep c ih.1 ih.2

theorem dropWhile_append_of_head {p : Nat → Bool} {x : Str} (hx : x ≠ [])
    (hh : ∀ c ∈ x.head?, p c = false) :
    ∀ a : Str, ∃ a2, (a ++ x).dropWhile p = a2 ++ x := by
  intro a
  induction a with
  | nil =>
    refine ⟨[], ?_⟩
    cases x with
    | nil => exact absurd rfl hx
    | cons xh xt =>
      have hph : p xh = false := hh xh rfl
      simp [List.dropWhile_cons, hph]
  | cons c a ih =>
    by_cases hc : p c = true
    · obtain ⟨a2, ha2⟩ := ih
      exact ⟨a2, by simp [List.dropWhile_cons, hc, ha2]⟩
    · exact ⟨c :: a, by simp [List.dropWhile_cons, hc]⟩

/-- An infix with non-whitespace endpoints survives trimming of the outer
string. -/
theorem infix_jsTrim {u s : Str} (hne : u ≠ []) (hh : headOk u) (hl : lastOk u)
    (hinf : u.IsInfix s) : u.IsInfix (jsTrim s) := by
  obtain ⟨a, b, hab⟩ := hinf
  have hur : u.reverse ≠ [] := by
    intro h0
    exact hne (List.reverse_eq_nil_iff.mp h0)
  have hhr : ∀ c ∈ (u.reverse ++ a.reverse).head?, jsWs c = false := by
    intro c hc
    rw [List.head?_append_of_ne_nil u.reverse hur, List.head?_reverse] at hc
    exact hl c hc
  obtain ⟨b2, hb2⟩ := dropWhile_append_of_head
    (x := u.reverse ++ a.reverse) (by simp [hur]) hhr b.reverse
  have hsr : s.reverse = b.reverse ++ (u.reverse ++ a.reverse) := by
    rw [← hab]
    simp [List.reverse_append]
  have h1 : jsTrimR s = a ++ u ++ b2.reverse := by
    rw [jsTrimR, hsr, hb2]
    simp [List.reverse_append]
  have hhl : ∀ c ∈ (u ++ b2.reverse).head?, jsWs c = false := by
    intro c hc
    rw [List.head?_append_of_ne_nil u hne] at hc
    exact hh c hc
  obtain ⟨a2, ha2⟩ := dropWhile_append_of_head
    (x := u ++ b2.reverse) (by simp [hne]) hhl a
  refine ⟨a2, b2.reverse, ?_⟩
  rw [jsTrim, h1, jsTrimL, List.append_assoc, List.append_assoc, ha2]

/-- Trimming an infix yields at most the trimmed length of the outer
string. -/
theorem trim_infix_le {t s : Str} (h : t.IsInfix s) :
    (jsTrim t).length ≤ (jsTrim s).length := by
  by_cases hnil : jsTrim t = []
  · rw [hnil]
    exact Nat.zero_le _
  · have h2 : (jsTrim t).IsInfix s := (jsTrim_within t).trans h
    exact (infix_jsTrim hnil (headOk_jsTrim t) (lastOk_jsTrim t) h2).length_le

theorem span_suffix_le (u x : Str) : span x ≤ span (u ++ x) :=
  trim_infix_le (List.suffix_append u x).isInfix

theorem rel_repl_allws {u v x y : Str} (hlen : v.length ≤ u.length)
    (hws : ∀ c ∈ v, jsWs c = true) (ht : tlen y ≤ tlen x) (hs : span y ≤ span x) :
    tlen (v ++ y) ≤ tlen (u ++ x) ∧ span (v ++ y) ≤ span (u ++ x) := by
  constructor
  · cases hy : allWs y
    · have hx := not_allWs_right hy ht
      rw [tlen_append_not hy, tlen_append_not hx]
      omega
    · rw [tlen_append_all hy]
      have h0 : tlen v = 0 := tlen_zero_iff.mpr (List.all_eq_true.mpr hws)
      rw [h0]
      exact Nat.zero_le _
  · rw [span, jsTrim_allWs_prefix hws]
    calc (jsTrim y).length ≤ (jsTrim x).length := hs
      _ ≤ span (u ++ x) := span_suffix_le u x

theorem rel_repl {u v x y : Str} (hc : RepCond u v)
    (ht : tlen y ≤ tlen x) (hs : span y ≤ span x) :
    tlen (v ++ y) ≤ tlen (u ++ x) ∧ span (v ++ y) ≤ span (u ++ x) := by
  rcases hc with ⟨hlen, hws⟩ | ⟨c, u2, v2, rfl, rfl, hcw, hlen2, hws2⟩
    | ⟨w, p, z, rfl, rfl, hlenw, hwsw⟩
  · exact rel_repl_allws hlen hws ht hs
  · have h0 := rel_repl_allws hlen2 hws2 ht hs
    exact rel_keep c h0.1 h0.2
  · have h0 := rel_append_left z ht hs
    have h1 := rel_repl_allws hlenw hwsw h0.1 h0.2
    constructor
    · rw [List.append_assoc, List.append_assoc]
      exact h1.1
    · rw [List.append_assoc, List.append_assoc]
      exact h1.2

/-! ## Claim C10: position bounds of the regex evaluator -/

theorem mat_cls_elim {f : Nat → Bool} {s : Str} {i : Nat} {p : Nat × Caps}
    (h : p ∈ mat (.cls f) s i) :
    p.1 = i + 1 ∧ p.2 = [] ∧ ∃ c t, s.drop i = c :: t ∧ f c = true := by
  rcases hd : s.drop i with _ | ⟨c, t⟩
  · have h0 : p ∈ (match s.drop i with
        | [] => ([] : List (Nat × Caps))
        | c :: _ => if f c then [(i + 1, [])] else []) := h
    rw [hd] at h0
    exact absurd h0 (List.not_mem_nil p)
  · have h0 : p ∈ (match s.drop i with
        | [] => ([] : List (Nat × Caps))
        | c :: _ => if f c then [(i + 1, [])] else []) := h
    simp only [hd] at h0
    by_cases hf : f c = true
    · rw [if_pos hf] at h0
      rcases List.mem_singleton.mp h0 with rfl
      exact ⟨rfl, rfl, c, t, rfl, hf⟩
    · rw [if_neg hf] at h0
      exact absurd h0 (List.not_mem_nil p)

theorem mat_look_elim {r : Regex} {pos : Bool} {s : Str} {i : Nat} {p : Nat × Caps}
    (h : p ∈ mat (.look r pos) s i) : p.1 = i := by
  have h0 : p ∈ (if pos then
      match mat r s i with
      | [] => ([] : List (Nat × Caps))
      | jc :: _ => [(i, jc.2)]
    else if (mat r s i).isEmpty then [(i, ([] : Caps))] else []) := h
  cases pos
  · rw [if_neg (by simp)] at h0
    by_cases he : (mat r s i).isEmpty = true
    · rw [if_pos he] at h0
      rcases List.mem_singleton.mp h0 with rfl
      rfl
    · rw [if_neg he] at h0
      exact absurd h0 (List.not_mem_nil p)
  · rw [if_pos rfl] at h0
    rcases hm : mat r s i with _ | ⟨jc, rest⟩
    · rw [hm] at h0
      exact absurd h0 (List.not_mem_nil p)
    · rw [hm] at h0
      rcases List.mem_singleton.mp h0 with rfl
      rfl

theorem mat_lookb_elim {r : Regex} {m : Nat} {s : Str} {i : Nat} {p : Nat × Caps}
    (h : p ∈ mat (.lookb r m) s i) : p.1 = i := by
  have h0 : p ∈ (if ((List.range (m + 1)).map (fun d => i - d)).any
      (fun j => (mat r s j).any (fun oc => oc.1 == i))
    then [(i, ([] : Caps))] else []) := h
  by_cases hc : ((List.range (m + 1)).map (fun d => i - d)).any
      (fun j => (mat r s j).any (fun oc => oc.1 == i)) = true
  · rw [if_pos hc] at h0
    rcases List.mem_singleton.mp h0 with rfl
    rfl
  · rw [if_neg hc] at h0
    exact absurd h0 (List.not_mem_nil p)

theorem mat_start_le : ∀ (r : Regex) {s : Str} {i : Nat} {p : Nat × Caps},
    p ∈ mat r s i → i ≤ p.1
  | .eps, s, i, p => fun h => le_of_eq (mat_eps_elim h).1.symm
  | .eos, s, i, p => fun h => by
    obtain ⟨h1, h2, _⟩ := mat_eos_elim h
    omega
  | .cls f, s, i, p => fun h => by
    obtain ⟨h1, _, _⟩ := mat_cls_elim h
    omega
  | .rep f lo hi lz, s, i, p => fun h => by
    obtain ⟨h1, _⟩ := mat_rep_elim h
    omega
  | .seq a b, s, i, p => fun h => by
    obtain ⟨q1, h1, q2, h2, hp1, _⟩ := mat_seq_elim h
    have ha := mat_start_le a h1
    have hb := mat_start_le b h2
    omega
  | .alt a b, s, i, p => fun h => by
    rcases List.mem_append.mp h with h1 | h2
    · exact mat_start_le a h1
    · exact mat_start_le b h2
  | .grp k r, s, i, p => fun h => by
    obtain ⟨q, h1, hp1, _⟩ := mat_grp_elim h
    have := mat_start_le r h1
    omega
  | .look r pos, s, i, p => fun h => le_of_eq (mat_look_elim h).symm
  | .lookb r m, s, i, p => fun h => le_of_eq (mat_lookb_elim h).symm

theorem countRun_le_length (f : Nat → Bool) : ∀ x : Str, countRun f x ≤ x.length
  | [] => Nat.le_refl 0
  | c :: t => by
    rw [countRun]
    by_cases hc : f c = true
    · rw [if_pos hc]
      have := countRun_le_length f t
      simp only [List.length_cons]
      omega
    · rw [if_neg hc]
      exact Nat.zero_le _

theorem mat_rep_upper_aux (top : Nat) {i lo : Nat} {lz : Bool} {p : Nat × Caps}
    (h0 : p ∈ (if lo ≤ top then
        ((if lz then (List.range (top + 1 - lo)).map (fun d => lo + d)
          else ((List.range (top + 1 - lo)).map (fun d => lo + d)).reverse).map
          (fun t => (i + t, ([] : Caps))))
      else [])) :
    p.1 ≤ i + top := by
  by_cases hle : lo ≤ top
  · rw [if_pos hle] at h0
    rw [List.mem_map] at h0
    obtain ⟨t, ht, heq⟩ := h0
    have ht2 : t ∈ (List.range (top + 1 - lo)).map (fun d => lo + d) := by
      cases lz
      · rw [if_neg (by simp)] at ht
        exact List.mem_reverse.mp ht
      · rw [if_pos rfl] at ht
        exact ht
    rw [List.mem_map] at ht2
    obtain ⟨d, hd, rfl⟩ := ht2
    rw [List.mem_range] at hd
    rw [← heq]
    show i + (lo + d) ≤ i + top
    omega
  · rw [if_neg hle] at h0
    exact absurd h0 (List.not_mem_nil p)

theorem mat_rep_upper {f : Nat → Bool} {lo : Nat} {hi : Option Nat} {lz : Bool}
    {s : Str} {i : Nat} {p : Nat × Caps} (h : p ∈ mat (.rep f lo hi lz) s i) :
    p.1 ≤ i + countRun f (s.drop i) := by
  cases hi with
  | none => exact mat_rep_upper_aux (countRun f (s.drop i)) h
  | some hh =>
    have := mat_rep_upper_aux (min (countRun f (s.drop i)) hh) h
    omega

theorem mat_end_le : ∀ (r : Regex) {s : Str} {i : Nat} {p : Nat × Caps},
    i ≤ s.length → p ∈ mat r s i → p.1 ≤ s.length
  | .eps, s, i, p => fun hi h => (mat_eps_elim h).1 ▸ hi
  | .eos, s, i, p => fun _ h => le_of_eq (mat_eos_elim h).1
  | .cls f, s, i, p => fun _ h => by
    obtain ⟨h1, _, c, t, hd, _⟩ := mat_cls_elim h
    have : i < s.length := by
      by_contra hcon
      rw [List.drop_eq_nil_of_le (by omega)] at hd
      exact List.noConfusion hd
    omega
  | .rep f lo hi lz, s, i, p => fun hi2 h => by
    have h1 := mat_rep_upper h
    have h2 := countRun_le_length f (s.drop i)
    rw [List.length_drop] at h2
    omega
  | .seq a b, s, i, p => fun hi h => by
    obtain ⟨q1, h1, q2, h2, hp1, _⟩ := mat_seq_elim h
    have ha := mat_end_le a hi h1
    have hb := mat_end_le b ha h2
    omega
  | .alt a b, s, i, p => fun hi h => by
    rcases List.mem_append.mp h with h1 | h2
    · exact mat_end_le a hi h1
    · exact mat_end_le b hi h2
  | .grp k r, s, i, p => fun hi h => by
    obtain ⟨q, h1, hp1, _⟩ := mat_grp_elim h
    have := mat_end_le r hi h1
    omega
  | .look r pos, s, i, p => fun hi h => (mat_look_elim h) ▸ hi
  | .lookb r m, s, i, p => fun hi h => (mat_lookb_elim h) ▸ hi

/-! ## Claim C10: slice decompositions -/

theorem slice_length {i j : Nat} {s : Str} (h2 : j ≤ s.length) :
    (slice i j s).length = j - i := by
  rw [slice, List.length_take, List.length_drop]
  omega

theorem slice_append_drop {i j : Nat} {s : Str} (h1 : i ≤ j) :
    s.drop i = slice i j s ++ s.drop j := by
  rw [slice]
  conv_lhs => rw [← List.take_append_drop (j - i) (s.drop i)]
  congr 1
  rw [List.drop_drop]
  congr 1
  omega

theorem slice_split {i m j : Nat} {s : Str} (h1 : i ≤ m) (h2 : m ≤ j)
    (h3 : j ≤ s.length) :
    slice i j s = slice i m s ++ slice m j s := by
  have hd : s.drop i = (s.drop i).take (m - i) ++ s.drop m := by
    conv_lhs => rw [← List.take_append_drop (m - i) (s.drop i)]
    congr 1
    rw [List.drop_drop]
    congr 1
    omega
  rw [slice, slice, slice, hd, List.take_append_eq_append_take]
  congr 1
  · rw [List.take_take]
    congr 1
    omega
  · congr 1
    rw [List.length_take, List.length_drop]
    omega

theorem slice_infix (a b : Nat) (s : Str) : (slice a b s).IsInfix s := by
  rw [slice]
  exact (List.take_prefix _ _).isInfix.trans (List.drop_suffix a s).isInfix

/-! ## Claim C10: replacements do not extend the trimmed span -/

theorem replaceAllAux_span (r : Regex) (tm : List Tmpl) (s : Str)
    (H : ∀ i jc, i < s.length → (mat r s i).head? = some jc →
      (i < jc.1 ∧ jc.1 ≤ s.length)
      ∧ RepCond (slice i jc.1 s) (instTmpl tm jc.2 s)) :
    ∀ (fuel i : Nat),
      tlen (replaceAllAux r tm s i fuel) ≤ tlen (s.drop i)
      ∧ span (replaceAllAux r tm s i fuel) ≤ span (s.drop i)
  | 0, i => by
    rw [replaceAllAux]
    exact ⟨Nat.le_refl _, Nat.le_refl _⟩
  | fuel + 1, i => by
    rw [replaceAllAux]
    by_cases hlen : s.length ≤ i
    · rw [if_pos hlen]
      exact ⟨Nat.zero_le _, Nat.zero_le _⟩
    · rw [if_neg hlen]
      have hi : i < s.length := by omega
      cases hm : (mat r s i).head? with
      | none =>
        simp only []
        have hdrop : s.drop i = s.getD i 0 :: s.drop (i + 1) := by
          rw [List.getD_eq_getElem s 0 hi]
          exact List.drop_eq_getElem_cons hi
        rw [hdrop]
        have ih := replaceAllAux_span r tm s H fuel (i + 1)
        exact rel_keep (s.getD i 0) ih.1 ih.2
      | some jc =>
        simp only []
        obtain ⟨⟨hlt, hle⟩, hcond⟩ := H i jc hi hm
        rw [if_pos hlt]
        have hdrop : s.drop i = slice i jc.1 s ++ s.drop jc.1 :=
          slice_append_drop (by omega)
        rw [hdrop]
        have ih := replaceAllAux_span r tm s H fuel jc.1
        exact rel_repl hcond ih.1 ih.2

theorem replaceAll_span_le (r : Regex) (tm : List Tmpl) (s : Str)
    (H : ∀ i jc, i < s.length → (mat r s i).head? = some jc →
      (i < jc.1 ∧ jc.1 ≤ s.length)
      ∧ RepCond (slice i jc.1 s) (instTmpl tm jc.2 s)) :
    span (replaceAll r tm s) ≤ span s := by
  have h0 := (replaceAllAux_span r tm s H (s.length + 1) 0).2
  rw [List.drop_zero] at h0
  exact h0

/-! ## Claim C10: the page-number patterns and their templates -/

theorem mat_seqs_cons_elim {r : Regex} {l : List Regex} {s : Str} {i : Nat}
    {p : Nat × Caps} (h : p ∈ mat (seqs (r :: l)) s i) :
    ∃ q1 ∈ mat r s i, ∃ q2 ∈ mat (seqs l) s q1.1, p.1 = q2.1 ∧ p.2 = q2.2 ++ q1.2 :=
  mat_seq_elim h

theorem capGet_cons_self (k a b : Nat) (rest : Caps) :
    capGet ((k, a, b) :: rest) k = some (a, b) := by
  rw [capGet, List.find?_cons_of_pos]
  · rfl
  · simp

theorem instTmpl_nlnl (caps : Caps) (s : Str) : instTmpl tmplNlNl caps s = [10, 10] := rfl

theorem repcond_nlnl {s : Str} {i j : Nat} (h2 : i + 2 ≤ j) (hle : j ≤ s.length)
    (caps : Caps) : RepCond (slice i j s) (instTmpl tmplNlNl caps s) := by
  left
  rw [instTmpl_nlnl]
  constructor
  · rw [slice_length hle]
    simp only [List.length_cons, List.length_nil]
    omega
  · decide

theorem pgP1_min {s : Str} {i : Nat} {p : Nat × Caps} (h : p ∈ mat pgP1 s i) :
    i + 2 ≤ p.1 := by
  obtain ⟨q1, h1, q2, h2, hp1, _⟩ := mat_seqs_cons_elim h
  obtain ⟨hq11, _, _⟩ := mat_cls_elim h1
  obtain ⟨q3, h3, q4, h4, hq2, _⟩ := mat_seqs_cons_elim h2
  have h3s := mat_start_le _ h3
  obtain ⟨q5, h5, q6, h6, hq4, _⟩ := mat_seqs_cons_elim h4
  obtain ⟨q7, h7, hq5, _⟩ := mat_grp_elim h5
  obtain ⟨h7a, _⟩ := mat_rep_elim h7
  have h6s := mat_start_le _ h6
  omega

theorem pgP4_min {s : Str} {i : Nat} {p : Nat × Caps} (h : p ∈ mat pgP4 s i) :
    i + 2 ≤ p.1 := by
  obtain ⟨q1, h1, q2, h2, hp1, _⟩ := mat_seqs_cons_elim h
  obtain ⟨hq11, _, _⟩ := mat_cls_elim h1
  obtain ⟨q3, h3, q4, h4, hq2, _⟩ := mat_seqs_cons_elim h2
  have h3s := mat_start_le _ h3
  obtain ⟨q5, h5, q6, h6, hq4, _⟩ := mat_seqs_cons_elim h4
  have h5s := mat_start_le _ h5
  obtain ⟨q7, h7, q8, h8, hq6, _⟩ := mat_seqs_cons_elim h6
  obtain ⟨h7a, _⟩ := mat_rep_elim h7
  have h8s := mat_start_le _ h8
  omega

theorem pgP5_min {s : Str} {i : Nat} {p : Nat × Caps} (h : p ∈ mat pgP5 s i) :
    i + 2 ≤ p.1 := by
  obtain ⟨q1, h1, q2, h2, hp1, _⟩ := mat_seqs_cons_elim h
  obtain ⟨hq11, _, _⟩ := mat_cls_elim h1
  obtain ⟨q3, h3, q4, h4, hq2, _⟩ := mat_seqs_cons_elim h2
  have h3s := mat_start_le _ h3
  obtain ⟨q5, h5, q6, h6, hq4, _⟩ := mat_seqs_cons_elim h4
  obtain ⟨hq51, _, _⟩ := mat_cls_elim h5
  have h6s := mat_start_le _ h6
  omega

theorem pgP6_min {s : Str} {i : Nat} {p : Nat × Caps} (h : p ∈ mat pgP6 s i) :
    i + 2 ≤ p.1 := by
  obtain ⟨q1, h1, q2, h2, hp1, _⟩ := mat_seqs_cons_elim h
  obtain ⟨hq11, _, _⟩ := mat_cls_elim h1
  obtain ⟨q3, h3, q4, h4, hq2, _⟩ := mat_seqs_cons_elim h2
  have h3s := mat_start_le _ h3
  obtain ⟨q5, h5, q6, h6, hq4, _⟩ := mat_seqs_cons_elim h4
  obtain ⟨hq51, _, _⟩ := mat_cls_elim h5
  have h6s := mat_start_le _ h6
  omega

theorem pgP7_min {s : Str} {i : Nat} {p : Nat × Caps} (h : p ∈ mat pgP7 s i) :
    i + 2 ≤ p.1 := by
  obtain ⟨q1, h1, q2, h2, hp1, _⟩ := mat_seqs_cons_elim h
  obtain ⟨hq11, _, _⟩ := mat_cls_elim h1
  obtain ⟨q3, h3, q4, h4, hq2, _⟩ := mat_seqs_cons_elim h2
  have h3s := mat_start_le _ h3
  obtain ⟨q5, h5, q6, h6, hq4, _⟩ := mat_seqs_cons_elim h4
  obtain ⟨q7, h7, hq5, _⟩ := mat_grp_elim h5
  obtain ⟨h7a, _⟩ := mat_rep_elim h7
  have h6s := mat_start_le _ h6
  omega

theorem pgP8_min {s : Str} {i : Nat} {p : Nat × Caps} (h : p ∈ mat pgP8 s i) :
    i + 2 ≤ p.1 := by
  obtain ⟨h1, _⟩ := mat_rep_elim h
  omega

theorem pgP2_shape {s : Str} {i : Nat} {p : Nat × Caps} (h : p ∈ mat pgP2 s i) :
    i + 3 ≤ p.1 ∧ ∃ t, s.drop i = 46 :: t := by
  obtain ⟨q1, h1, q2, h2, hp1, _⟩ := mat_seqs_cons_elim h
  obtain ⟨hq11, _, c, t, hdrop, hc⟩ := mat_cls_elim h1
  have hc46 : c = 46 := by
    have h46 : ch '.' = 46 := rfl
    rw [h46] at hc
    exact eq_of_beq hc
  obtain ⟨q3, h3, q4, h4, hq2, _⟩ := mat_seqs_cons_elim h2
  have h3s := mat_start_le _ h3
  obtain ⟨q5, h5, q6, h6, hq4, _⟩ := mat_seqs_cons_elim h4
  obtain ⟨hq51, _, _⟩ := mat_cls_elim h5
  obtain ⟨q7, h7, q8, h8, hq6, _⟩ := mat_seqs_cons_elim h6
  have h7s := mat_start_le _ h7
  obtain ⟨q9, h9, q10, h10, hq8, _⟩ := mat_seqs_cons_elim h8
  obtain ⟨q11, h11, hq9, _⟩ := mat_grp_elim h9
  obtain ⟨h11a, _⟩ := mat_rep_elim h11
  have h10s := mat_start_le _ h10
  refine ⟨by omega, t, ?_⟩
  rw [hdrop, hc46]

theorem pgP3_shape {s : Str} {i : Nat} {p : Nat × Caps} (h : p ∈ mat pgP3 s i) :
    ∃ m, capGet p.2 2 = some (m, p.1) ∧ i + 2 ≤ m ∧ m ≤ p.1 := by
  obtain ⟨q1, h1, q2, h2, hp1, hp2⟩ := mat_seqs_cons_elim h
  obtain ⟨hq11, hq1c, _⟩ := mat_cls_elim h1
  obtain ⟨q3, h3, q4, h4, hq2, hq2c⟩ := mat_seqs_cons_elim h2
  obtain ⟨h3s, h3c⟩ := mat_rep_elim h3
  obtain ⟨q5, h5, q6, h6, hq4, hq4c⟩ := mat_seqs_cons_elim h4
  obtain ⟨q7, h7, hq5, hq5c⟩ := mat_grp_elim h5
  obtain ⟨h7a, _⟩ := mat_rep_elim h7
  obtain ⟨q8, h8, q9, h9, hq6, hq6c⟩ := mat_seqs_cons_elim h6
  obtain ⟨h8s, h8c⟩ := mat_rep_elim h8
  obtain ⟨q10, h10, q11, h11, hq9, hq9c⟩ := mat_seqs_cons_elim h9
  obtain ⟨hq101, hq10c, _⟩ := mat_cls_elim h10
  obtain ⟨q12, h12, q13, h13, hq11, hq11c⟩ := mat_seqs_cons_elim h11
  obtain ⟨h12s, h12c⟩ := mat_rep_elim h12
  obtain ⟨q14, h14, q15, h15, hq13, hq13c⟩ := mat_seqs_cons_elim h13
  obtain ⟨hq141, hq14c, _⟩ := mat_cls_elim h14
  obtain ⟨q16, h16, q17, h17, hq15, hq15c⟩ := mat_seqs_cons_elim h15
  obtain ⟨h16s, h16c⟩ := mat_rep_elim h16
  obtain ⟨q18, h18, q19, h19, hq17, hq17c⟩ := mat_seqs_cons_elim h17
  obtain ⟨q20, h20, hq18, hq18c⟩ := mat_grp_elim h18
  obtain ⟨hq191, hq19c⟩ := mat_eps_elim h19
  have h20s := mat_start_le _ h20
  refine ⟨q16.1, ?_, by omega, by omega⟩
  rw [hp2, hq2c, hq4c, hq6c, hq9c, hq11c, hq13c, hq15c, hq17c, hq19c, hq18c]
  have he : q20.1 = p.1 := by omega
  rw [he]
  simp only [List.nil_append, List.cons_append, List.append_assoc]
  exact capGet_cons_self 2 q16.1 p.1 _

theorem instTmpl_pg3 {caps : Caps} {s : Str} {m e : Nat}
    (h : capGet caps 2 = some (m, e)) :
    instTmpl [.lit (str "\n\n"), .gref 2] caps s = [10, 10] ++ slice m e s := by
  show ([10, 10] : Str) ++ ((match capGet caps 2 with
      | some ab => slice ab.1 ab.2 s
      | none => []) ++ []) = [10, 10] ++ slice m e s
  rw [h, List.append_nil]

theorem pg1_cond (s : Str) : ∀ i jc, i < s.length → (mat pgP1 s i).head? = some jc →
    (i < jc.1 ∧ jc.1 ≤ s.length)
    ∧ RepCond (slice i jc.1 s) (instTmpl tmplNlNl jc.2 s) := by
  intro i jc hi hm
  have hmem : jc ∈ mat pgP1 s i := List.mem_of_mem_head? hm
  have h2 := pgP1_min hmem
  have hle := mat_end_le pgP1 (by omega) hmem
  exact ⟨⟨by omega, hle⟩, repcond_nlnl h2 hle jc.2⟩

theorem pg4_cond (s : Str) : ∀ i jc, i < s.length → (mat pgP4 s i).head? = some jc →
    (i < jc.1 ∧ jc.1 ≤ s.length)
    ∧ RepCond (slice i jc.1 s) (instTmpl tmplNlNl jc.2 s) := by
  intro i jc hi hm
  have hmem : jc ∈ mat pgP4 s i := List.mem_of_mem_head? hm
  have h2 := pgP4_min hmem
  have hle := mat_end_le pgP4 (by omega) hmem
  exact ⟨⟨by omega, hle⟩, repcond_nlnl h2 hle jc.2⟩

theorem pg5_cond (s : Str) : ∀ i jc, i < s.length → (mat pgP5 s i).head? = some jc →
    (i < jc.1 ∧ jc.1 ≤ s.length)
    ∧ RepCond (slice i jc.1 s) (instTmpl tmplNlNl jc.2 s) := by
  intro i jc hi hm
  have hmem : jc ∈ mat pgP5 s i := List.mem_of_mem_head? hm
  have h2 := pgP5_min hmem
  have hle := mat_end_le pgP5 (by omega) hmem
  exact ⟨⟨by omega, hle⟩, repcond_nlnl h2 hle jc.2⟩

theorem pg6_cond (s : Str) : ∀ i jc, i < s.length → (mat pgP6 s i).head? = some jc →
    (i < jc.1 ∧ jc.1 ≤ s.length)
    ∧ RepCond (slice i jc.1 s) (instTmpl tmplNlNl jc.2 s) := by
  intro i jc hi hm
  have hmem : jc ∈ mat pgP6 s i := List.mem_of_mem_head? hm
  have h2 := pgP6_min hmem
  have hle := mat_end_le pgP6 (by omega) hmem
  exact ⟨⟨by omega, hle⟩, repcond_nlnl h2 hle jc.2⟩

theorem pg7_cond (s : Str) : ∀ i jc, i < s.length → (mat pgP7 s i).head? = some jc →
    (i < jc.1 ∧ jc.1 ≤ s.length)
    ∧ RepCond (slice i jc.1 s) (instTmpl tmplNlNl jc.2 s) := by
  intro i jc hi hm
  have hmem : jc ∈ mat pgP7 s i := List.mem_of_mem_head? hm
  have h2 := pgP7_min hmem
  have hle := mat_end_le pgP7 (by omega) hmem
  exact ⟨⟨by omega, hle⟩, repcond_nlnl h2 hle jc.2⟩

theorem pg8_cond (s : Str) : ∀ i jc, i < s.length → (mat pgP8 s i).head? = some jc →
    (i < jc.1 ∧ jc.1 ≤ s.length)
    ∧ RepCond (slice i jc.1 s) (instTmpl tmplNlNl jc.2 s) := by
  intro i jc hi hm
  have hmem : jc ∈ mat pgP8 s i := List.mem_of_mem_head? hm
  have h2 := pgP8_min hmem
  have hle := mat_end_le pgP8 (by omega) hmem
  exact ⟨⟨by omega, hle⟩, repcond_nlnl h2 hle jc.2⟩

theorem pg2_cond (s : Str) : ∀ i jc, i < s.length → (mat pgP2 s i).head? = some jc →
    (i < jc.1 ∧ jc.1 ≤ s.length)
    ∧ RepCond (slice i jc.1 s) (instTmpl [.lit (str ".\n\n")] jc.2 s) := by
  intro i jc hi hm
  have hmem : jc ∈ mat pgP2 s i := List.mem_of_mem_head? hm
  obtain ⟨h3, t, hdrop⟩ := pgP2_shape hmem
  have hle := mat_end_le pgP2 (by omega) hmem
  refine ⟨⟨by omega, hle⟩, ?_⟩
  right; left
  have hu : slice i jc.1 s = 46 :: t.take (jc.1 - i - 1) := by
    rw [slice, hdrop]
    have he : jc.1 - i = (jc.1 - i - 1) + 1 := by omega
    rw [he, List.take_succ_cons]
    congr 2
  refine ⟨46, t.take (jc.1 - i - 1), [10, 10], hu, rfl, by decide, ?_, by decide⟩
  rw [List.length_take]
  have hlt : t.length = s.length - i - 1 := by
    have h0 := congrArg List.length hdrop
    rw [List.length_drop] at h0
    simp at h0
    omega
  simp only [List.length_cons, List.length_nil]
  omega

theorem pg3_cond (s : Str) : ∀ i jc, i < s.length → (mat pgP3 s i).head? = some jc →
    (i < jc.1 ∧ jc.1 ≤ s.length)
    ∧ RepCond (slice i jc.1 s) (instTmpl [.lit (str "\n\n"), .gref 2] jc.2 s) := by
  intro i jc hi hm
  have hmem : jc ∈ mat pgP3 s i := List.mem_of_mem_head? hm
  obtain ⟨m, hcg, hm2, hmle⟩ := pgP3_shape hmem
  have hle := mat_end_le pgP3 (by omega) hmem
  refine ⟨⟨by omega, hle⟩, ?_⟩
  right; right
  refine ⟨[10, 10], slice i m s, slice m jc.1 s, ?_, ?_, ?_, by decide⟩
  · exact slice_split (by omega) hmle hle
  · rw [instTmpl_pg3 hcg]
  · rw [slice_length (le_trans hmle hle)]
    simp only [List.length_cons, List.length_nil]
    omega

/-- Page-number removal never extends the trimmed span of the document. -/
theorem removePageNumbers_span (doc : Str) :
    span (removePageNumbers doc) ≤ span doc := by
  unfold removePageNumbers
  refine le_trans (replaceAll_span_le pgP8 tmplNlNl _ (pg8_cond _)) ?_
  refine le_trans (replaceAll_span_le pgP7 tmplNlNl _ (pg7_cond _)) ?_
  refine le_trans (replaceAll_span_le pgP6 tmplNlNl _ (pg6_cond _)) ?_
  refine le_trans (replaceAll_span_le pgP5 tmplNlNl _ (pg5_cond _)) ?_
  refine le_trans (replaceAll_span_le pgP4 tmplNlNl _ (pg4_cond _)) ?_
  refine le_trans (replaceAll_span_le pgP3 [.lit (str "\n\n"), .gref 2] _ (pg3_cond _)) ?_
  refine le_trans (replaceAll_span_le pgP2 [.lit (str ".\n\n")] _ (pg2_cond _)) ?_
  exact replaceAll_span_le pgP1 tmplNlNl _ (pg1_cond _)

/-! ## Claim C10: every split piece is an infix of the cleaned text -/

theorem jsSplitAux_pieces (r : Regex) (gc : Nat) (s : Str) :
    ∀ (fuel p q : Nat), ∀ b ∈ jsSplitAux r gc s p q fuel, b.IsInfix s
  | 0, p, q => by
    intro b hb
    rw [jsSplitAux] at hb
    rcases List.mem_singleton.mp hb with rfl
    exact slice_infix _ _ s
  | fuel + 1, p, q => by
    intro b hb
    rw [jsSplitAux] at hb
    by_cases hq : s.length ≤ q
    · rw [if_pos hq] at hb
      rcases List.mem_singleton.mp hb with rfl
      exact slice_infix _ _ s
    · rw [if_neg hq] at hb
      cases hm : (mat r s q).head? with
      | none =>
        simp only [hm] at hb
        exact jsSplitAux_pieces r gc s fuel p (q + 1) b hb
      | some jc =>
        simp only [hm] at hb
        by_cases he : min jc.1 s.length = p
        · rw [if_pos he] at hb
          exact jsSplitAux_pieces r gc s fuel p (q + 1) b hb
        · rw [if_neg he] at hb
          rcases List.mem_cons.mp hb with rfl | hb2
          · exact slice_infix _ _ s
          · rcases List.mem_append.mp hb2 with hb3 | hb4
            · rw [capSlices, List.mem_map] at hb3
              obtain ⟨k, _, heq⟩ := hb3
              rw [← heq]
              rcases hcg : capGet jc.2 (k + 1) with _ | ab
              · simp only [hcg]
                exact List.nil_infix
              · simp only [hcg]
                exact slice_infix _ _ s
            · exact jsSplitAux_pieces r gc s fuel _ _ b hb4

theorem jsSplit_pieces {r : Regex} {gc : Nat} {s : Str} :
    ∀ b ∈ jsSplit r gc s, b.IsInfix s := by
  intro b hb
  rw [jsSplit] at hb
  by_cases h0 : s.length = 0
  · rw [if_pos h0] at hb
    by_cases he : (mat r s 0).isEmpty = true
    · rw [if_pos he] at hb
      rcases List.mem_singleton.mp hb with rfl
      exact List.nil_infix
    · rw [if_neg he] at hb
      exact absurd hb (List.not_mem_nil b)
  · rw [if_neg h0] at hb
    exact jsSplitAux_pieces r gc s _ 0 0 b hb

/-! ## Claim C10: short documents produce no blocks -/

theorem mergeBlocks_fold_const (hr : Regex) :
    ∀ (l : List Str) (acc : List Str), (∀ b ∈ l, (jsTrim b).length < 10) →
      l.foldl (fun blocks block =>
        let trimmed := jsTrim block
        if trimmed.length < 10 then blocks
        else
          let isMainSection := testA hr (firstLine trimmed)
          if isMainSection ∨ blocks.length = 0 then blocks ++ [trimmed]
          else blocks.dropLast ++ [(blocks.getLast?.getD []) ++ (10 :: 10 :: trimmed)]) acc
        = acc
  | [], _, _ => rfl
  | b :: t, acc, h => by
    rw [List.foldl_cons]
    have hstep : (let trimmed := jsTrim b
        if trimmed.length < 10 then acc
        else
          let isMainSection := testA hr (firstLine trimmed)
          if isMainSection ∨ acc.length = 0 then acc ++ [trimmed]
          else acc.dropLast ++ [(acc.getLast?.getD []) ++ (10 :: 10 :: trimmed)]) = acc :=
      if_pos (h b (List.mem_cons_self b t))
    rw [hstep]
    exact mergeBlocks_fold_const hr t acc (fun b2 h2 => h b2 (List.mem_cons_of_mem _ h2))

theorem mergeBlocks_nil {hr : Regex} {l : List Str}
    (h : ∀ b ∈ l, (jsTrim b).length < 10) : mergeBlocks hr l = [] :=
  mergeBlocks_fold_const hr l [] h

theorem dropPreamble_mem {mh : Option Regex} {ib : List Str} :
    ∀ b ∈ dropPreamble mh ib, b ∈ ib := by
  intro b hb
  cases mh with
  | none => exact hb
  | some hr =>
    rw [dropPreamble] at hb
    by_cases hc : 1 < ib.length ∧ ¬ testA hr (firstLine (jsTrim ib.headI)) = true
    · rw [if_pos hc] at hb
      exact List.mem_of_mem_tail hb
    · rw [if_neg hc] at hb
      exact hb

theorem fallbackSplit_mem {ct : Str} {ib : List Str} {st : Str} :
    ∀ b ∈ (fallbackSplit ct ib st).1, b ∈ ib ∨ b.IsInfix ct := by
  intro b hb
  rw [fallbackSplit] at hb
  by_cases h1 : ib.length < 3
  · rw [if_pos h1] at hb
    by_cases h2 : 3 ≤ (jsSplit romanCapsRe 0 ct).length
    · rw [if_pos h2] at hb
      exact Or.inr (jsSplit_pieces b hb)
    · rw [if_neg h2] at hb
      by_cases h3 : 3 ≤ (jsSplit sectionFallbackRe 0 ct).length
      · rw [if_pos h3] at hb
        exact Or.inr (jsSplit_pieces b hb)
      · rw [if_neg h3] at hb
        by_cases h4 : 3 ≤ (jsSplit numericCapsRe 0 ct).length
        · rw [if_pos h4] at hb
          exact Or.inr (jsSplit_pieces b hb)
        · rw [if_neg h4] at hb
          exact Or.inl hb
  · rw [if_neg h1] at hb
    exact Or.inl hb

theorem extractPipelineBlocks_nil {doc : Str} {us : Option NumberingSchema}
    (h : ∀ b : Str, b.IsInfix (removePageNumbers doc) → (jsTrim b).length < 10) :
    extractPipelineBlocks doc us = [] := by
  unfold extractPipelineBlocks
  apply mergeBlocks_nil
  intro b hb
  apply h
  rcases fallbackSplit_mem b hb with hbi | hinf
  · have hb0 := dropPreamble_mem b hbi
    rcases hsel : (selectSchema (removePageNumbers doc) us).1 with _ | r
    · simp only [hsel] at hb0
      exact absurd hb0 (List.not_mem_nil b)
    · simp only [hsel] at hb0
      exact jsSplit_pieces b hb0
  · exact hinf

/-- Claim C10: a document whose trimmed content is shorter than 10
characters (in particular the empty string) extracts to the empty list,
for every repository and schema: page-number removal cannot extend the
trimmed span, every split piece is an infix of the cleaned text, and the
block merger discards every piece whose trimmed length is below 10. -/
theorem extract_short_doc_empty (documentText : Str) (repositoryClauses : List Clause)
    (userSchema : Option NumberingSchema)
    (h : (jsTrim documentText).length < 10) :
    extractClausesRuleBased documentText repositoryClauses userSchema = [] := by
  have hb : extractPipelineBlocks documentText userSchema = [] := by
    apply extractPipelineBlocks_nil
    intro b hbi
    have h1 := trim_infix_le hbi
    have h2 := removePageNumbers_span documentText
    unfold span at h2
    omega
  unfold extractClausesRuleBased
  rw [hb]
  rfl

/-- Claim C10, witness: a 9-character trimmed document yields no clauses. -/
theorem extract_short_doc_empty_witness :
    (jsTrim (str "  short doc  ")).length < 10
    ∧ extractClausesRuleBased (str "  short doc  ") [] none = [] :=
  ⟨by decide, extract_short_doc_empty (str "  short doc  ") [] none (by decide)⟩

end ClauseLab
